import Mathlib

/-!
The tidy command line driver (console/tidy.c).

A shallow embedding of the column formatter (`cutToWhiteSpace`, `print1Column`,
`print2Columns`, `print3Columns`) and of the argument dispatcher and driver loop
of `main`, followed by the properties proved about them.

Conventions.
* A C string is the list of its characters before the terminating NUL; a
  `const char *` that may be `NULL` is an `Option`.  Reading `s[j]` is
  `s.getD j NUL`, so that the index `strlen(s)` yields the terminator.
* `uint` variables are natural numbers.  In `cutToWhiteSpace` every index stays
  at or below `offset + 1`, and the callers allocate `offset + 1` bytes, so no
  arithmetic of that function wraps for the widths the callers can use.
* A `do ... while` loop is a function with a fuel argument that returns `none`
  when the fuel runs out; the theorems state how much fuel suffices.
* What a print routine writes is the list of its `printf` calls, each given by
  the string arguments it passes.
* The library behind `tidy.h` is a parameter of `main` (`TidyLib`), and so are
  the preprocessor symbols, the environment and `sscanf` (`Platform`).  A run
  records the library calls and outputs it makes, in order, in a trace.
* The block `malloc` returns to `replace_string` is the list of its bytes; what
  the bytes hold on return is a parameter.  `strlen` on the block scans to the
  first NUL byte, a store replaces bytes; a scan or a store that would leave
  the block has no result (`none`).
-/

namespace Tidy

/-- A C string without its terminating NUL. -/
abbrev CString := List Char

/-- The terminator character. -/
def NUL : Char := Char.ofNat 0

/-! ## Column formatter -/

/-- The forward scan of `cutToWhiteSpace`:
`while (j < offset && s[j] != '\n') ++j;`.  The first argument bounds the
number of iterations; `offset - j` iterations are the most the loop can make. -/
def scanNewline (s : CString) (offset : Nat) : Nat → Nat → Nat
  | 0, j => j
  | gap + 1, j =>
    if j < offset ∧ s.getD j NUL ≠ '\n' then scanNewline s offset gap (j + 1) else j

/-- The backward scan of `cutToWhiteSpace`:
`while (j && s[j] != ' ') --j;`, started at `j`. -/
def scanSpace (s : CString) : Nat → Nat
  | 0 => 0
  | j + 1 => if s.getD (j + 1) NUL ≠ ' ' then scanSpace s j else j + 1

/-- The pair `(l, n)` computed by the last branch of `cutToWhiteSpace`:
`l` characters are copied to `sbuf` and `s + n` is returned. -/
def cutPoint (s : CString) (offset : Nat) : Nat × Nat :=
  let j := scanNewline s offset offset 0
  if j = offset then
    let j := scanSpace s offset
    if j = 0 then (offset, offset) else (j, j + 1)
  else (j, j + 1)

/-- The function `cutToWhiteSpace(s, offset, sbuf)`: the first component is the
string left in `sbuf`, the second the returned pointer (`none` for `NULL`). -/
def cutToWhiteSpace (s : Option CString) (offset : Nat) : CString × Option CString :=
  match s with
  | none => ([], none)
  | some s =>
    if s.length ≤ offset then (s, none)
    else
      let ln := cutPoint s offset
      (s.take ln.1, some (s.drop ln.2))

/-- Whether `cutToWhiteSpace(s, offset, _)` takes the branch commented
`no white space` (`j == 0` after the backward scan), which cuts at exactly
`offset` characters. -/
def hardCut (s : Option CString) (offset : Nat) : Bool :=
  match s with
  | none => false
  | some s =>
    decide (offset < s.length) && decide (scanNewline s offset offset 0 = offset)
      && decide (scanSpace s offset = 0)

/-- The argument `cbuf[0] != '\0' ? cbuf : ""` handed to `printf`. -/
def printfArg (cbuf : CString) : CString :=
  if cbuf.getD 0 NUL ≠ NUL then cbuf else []

/-- The `do ... while (pc1)` loop of `print1Column`, started with `pc1`. -/
def print1ColumnLoop (l1 : Nat) : Nat → Option CString → Option (List CString)
  | 0, _ => none
  | fuel + 1, pc1 =>
    let r1 := cutToWhiteSpace pc1 l1
    let line := printfArg r1.1
    if r1.2.isSome then (print1ColumnLoop l1 fuel r1.2).map (fun rest => line :: rest)
    else some [line]

/-- The routine `print1Column(fmt, l1, c1)`: its `printf` calls, in order. -/
def print1Column (fuel l1 : Nat) (c1 : Option CString) : Option (List CString) :=
  print1ColumnLoop l1 fuel c1

/-- The `do ... while (pc1 || pc2)` loop of `print2Columns`. -/
def print2ColumnsLoop (l1 l2 : Nat) :
    Nat → Option CString → Option CString → Option (List (CString × CString))
  | 0, _, _ => none
  | fuel + 1, pc1, pc2 =>
    let r1 := cutToWhiteSpace pc1 l1
    let r2 := cutToWhiteSpace pc2 l2
    let line := (printfArg r1.1, printfArg r2.1)
    if r1.2.isSome || r2.2.isSome then
      (print2ColumnsLoop l1 l2 fuel r1.2 r2.2).map (fun rest => line :: rest)
    else some [line]

/-- The routine `print2Columns(fmt, l1, l2, c1, c2)`. -/
def print2Columns (fuel l1 l2 : Nat) (c1 c2 : Option CString) :
    Option (List (CString × CString)) :=
  print2ColumnsLoop l1 l2 fuel c1 c2

/-- The `do ... while (pc1 || pc2 || pc3)` loop of `print3Columns`. -/
def print3ColumnsLoop (l1 l2 l3 : Nat) :
    Nat → Option CString → Option CString → Option CString →
      Option (List (CString × CString × CString))
  | 0, _, _, _ => none
  | fuel + 1, pc1, pc2, pc3 =>
    let r1 := cutToWhiteSpace pc1 l1
    let r2 := cutToWhiteSpace pc2 l2
    let r3 := cutToWhiteSpace pc3 l3
    let line := (printfArg r1.1, printfArg r2.1, printfArg r3.1)
    if r1.2.isSome || r2.2.isSome || r3.2.isSome then
      (print3ColumnsLoop l1 l2 l3 fuel r1.2 r2.2 r3.2).map (fun rest => line :: rest)
    else some [line]

/-- The routine `print3Columns(fmt, l1, l2, l3, c1, c2, c3)`. -/
def print3Columns (fuel l1 l2 l3 : Nat) (c1 c2 c3 : Option CString) :
    Option (List (CString × CString × CString)) :=
  print3ColumnsLoop l1 l2 l3 fuel c1 c2 c3

/-- The length of a text, an absent text counting as empty. -/
def textLen : Option CString → Nat
  | none => 0
  | some s => s.length

/-- Whether no iteration of the `print1Column` loop started with `pc1` takes the
hard-cut branch of `cutToWhiteSpace`, within the given number of iterations. -/
def noHardCut (l1 : Nat) : Nat → Option CString → Bool
  | 0, _ => true
  | fuel + 1, pc1 =>
    !hardCut pc1 l1 &&
      (if (cutToWhiteSpace pc1 l1).2.isSome then noHardCut l1 fuel (cutToWhiteSpace pc1 l1).2
       else true)

/-- A blank separates words: the space and the newline. -/
def isBlank (c : Char) : Bool := c = ' ' || c = '\n'

/-- The words of the text `cur ++ s`, where `cur` is a word in progress: the
maximal runs of characters other than space and newline, in order. -/
def wordsAux : CString → CString → List CString
  | cur, [] => if cur = [] then [] else [cur]
  | cur, c :: cs =>
    if isBlank c then (if cur = [] then wordsAux [] cs else cur :: wordsAux [] cs)
    else wordsAux (cur ++ [c]) cs

/-- The words of a text. -/
def words (s : CString) : List CString := wordsAux [] s

/-- The emitted segments joined by single spaces. -/
def joinSegments : List CString → CString
  | [] => []
  | [s] => s
  | s :: t :: ss => s ++ ' ' :: joinSegments (t :: ss)

/-- Row-wise zip of two columns of cells, the shorter one padded with `pa`
(respectively `pb`). -/
def zipPad {α β : Type} (pa : α) (pb : β) : List α → List β → List (α × β)
  | [], [] => []
  | a :: as, [] => (a, pb) :: zipPad pa pb as []
  | [], b :: bs => (pa, b) :: zipPad pa pb [] bs
  | a :: as, b :: bs => (a, b) :: zipPad pa pb as bs

/-- A `do ... while` loop over an abstract column state: `cut` yields the cell of
the current line and the next state, and the loop goes on while the next state
is `live`.  The three print loops are instances of it. -/
def columnLoop {S A : Type} (cut : S → A × S) (live : S → Bool) : Nat → S → Option (List A)
  | 0, _ => none
  | fuel + 1, s =>
    if live (cut s).2 then (columnLoop cut live fuel (cut s).2).map (fun rest => (cut s).1 :: rest)
    else some [(cut s).1]

/-- One column of a print loop: the printed cell and the advanced pointer. -/
def column (l : Nat) (pc : Option CString) : CString × Option CString :=
  (printfArg (cutToWhiteSpace pc l).1, (cutToWhiteSpace pc l).2)

/-- Two columns advanced side by side. -/
def cutBoth {S T A B : Type} (cx : S → A × S) (cy : T → B × T) (p : S × T) : (A × B) × (S × T) :=
  (((cx p.1).1, (cy p.2).1), ((cx p.1).2, (cy p.2).2))

/-- The pair of columns is live while one of them is. -/
def liveEither {S T : Type} (lx : S → Bool) (ly : T → Bool) (p : S × T) : Bool :=
  lx p.1 || ly p.2

/-- A column is absorbing when a state that is not live yields the padding cell
and stays not live. -/
def Absorbing {S A : Type} (cut : S → A × S) (live : S → Bool) (pad : A) : Prop :=
  ∀ s, live s = false → (cut s).1 = pad ∧ live (cut s).2 = false

/-! ## The driver: library interface -/

/-- The option identifiers of the library header that `main` uses. -/
inductive TidyOptionId
  | TidyXmlTags | TidyXhtmlOut | TidyHtmlOut | TidyIndentContent | TidyIndentSpaces
  | TidyOmitOptionalTags | TidyUpperCaseTags | TidyMakeClean | TidyGDocClean | TidyMakeBare
  | TidyNumEntities | TidyWriteBack | TidyShowMarkup | TidyQuiet | TidyErrFile | TidyLanguage
  | TidyOutFile | TidyWrapLen | TidyAccessibilityCheckLevel | TidyEmacs | TidyEmacsFile
  | TidyShowInfo | TidyForceOutput
  deriving DecidableEq, Repr

/-- The library functions called by `main`, over an arbitrary document state
`σ` (the `TidyDoc`).  A function that changes the document returns the new
document; one that also returns a value returns the pair. -/
structure TidyLib (σ : Type) where
  /-- The enumeration constant `TidyAutoState` of the library header. -/
  TidyAutoState : Nat
  tidyOptSetBool : σ → TidyOptionId → Bool → σ
  tidyOptSetInt : σ → TidyOptionId → Nat → σ
  tidyOptSetValue : σ → TidyOptionId → CString → σ
  tidyOptResetToDefault : σ → TidyOptionId → σ
  tidyOptGetBool : σ → TidyOptionId → Bool
  tidyOptGetInt : σ → TidyOptionId → Nat
  tidyOptGetValue : σ → TidyOptionId → Option CString
  tidyOptParseValue : σ → CString → Option CString → Bool × σ
  tidySetCharEncoding : σ → CString → σ
  tidyFileExists : σ → CString → Bool
  tidyLoadConfig : σ → CString → Int × σ
  tidySetErrorFile : σ → CString → σ
  tidyParseFile : σ → CString → Int × σ
  tidyParseStdin : σ → Int × σ
  tidyCleanAndRepair : σ → Int × σ
  tidyRunDiagnostics : σ → Int × σ
  tidyReportDoctype : σ → σ
  tidySaveFile : σ → CString → Int × σ
  tidySaveStdout : σ → Int × σ
  tidyErrorCount : σ → Nat
  tidyWarningCount : σ → Nat
  tidyAccessWarningCount : σ → Nat
  tidyErrorSummary : σ → σ
  tidyGeneralInfo : σ → σ
  tidyRelease : σ → σ

/-- What the build and the process environment fix: the preprocessor symbols
tested by `main`, the value of `getenv("HTML_TIDY")`, and the C library
conversion `sscanf(str, "%u", &x)`, which is `some v` when a field was
converted (return value above zero, `x` set to `v`) and `none` otherwise (`x`
left as it was). -/
structure Platform where
  FILENAMES_CASE_SENSITIVE : Bool
  NO_NATIVE_ISO2022_SUPPORT : Bool
  SUPPORT_UTF16_ENCODINGS : Bool
  SUPPORT_ASIAN_ENCODINGS : Bool
  SUPPORT_ACCESSIBILITY_CHECKS : Bool
  TIDY_CONFIG_FILE : Option CString
  TIDY_USER_CONFIG_FILE : Option CString
  getenv_HTML_TIDY : Option CString
  sscanf_u : CString → Option Nat

/-- The C library comparison `strcasecmp(a, b)`: zero when the strings are equal
up to the case of ASCII letters, else the difference of the first two
lower-cased characters that differ. -/
def strcasecmp : CString → CString → Int
  | [], [] => 0
  | [], d :: _ => - (d.toLower.toNat : Int)
  | c :: _, [] => (c.toLower.toNat : Int)
  | c :: cs, d :: ds =>
    if c.toLower = d.toLower then strcasecmp cs ds
    else (c.toLower.toNat : Int) - (d.toLower.toNat : Int)

/-- The C library comparison `strcmp(a, b)`. -/
def strcmp : CString → CString → Int
  | [], [] => 0
  | [], d :: _ => - (d.toNat : Int)
  | c :: _, [] => (c.toNat : Int)
  | c :: cs, d :: ds => if c = d then strcmp cs ds else (c.toNat : Int) - (d.toNat : Int)

/-- The C library comparison `strncmp(a, b, n)`. -/
def strncmp (a b : CString) (n : Nat) : Int := strcmp (a.take n) (b.take n)

/-- The function `samefile(filename1, filename2)`. -/
def samefile (pf : Platform) (filename1 filename2 : CString) : Bool :=
  if pf.FILENAMES_CASE_SENSITIVE then decide (strcmp filename1 filename2 = 0)
  else decide (strcasecmp filename1 filename2 = 0)

/-! ## The driver: what a run does -/

/-- The output routines of the informational commands. -/
inductive Render
  | help (prog : Option CString)
  | xml_help
  | optionhelp
  | optionDescribe (tag : CString)
  | mustSpecify
  | XMLoptionhelp
  | optionvalues
  | version
  deriving DecidableEq, Repr

/-- The library calls and outputs the argument dispatcher can make. -/
inductive Call
  | optSetBool (id : TidyOptionId) (v : Bool)
  | optSetInt (id : TidyOptionId) (v : Nat)
  | optSetValue (id : TidyOptionId) (v : CString)
  | optResetToDefault (id : TidyOptionId)
  | optParseValue (name : CString) (val : Option CString)
  | setCharEncoding (enc : CString)
  | loadConfig (file : CString)
  | loadConfigError (file : CString) (status : Int)
  | setErrorFile (path : CString)
  | unknownOption (c : Char)
  | render (r : Render)
  | release
  deriving DecidableEq, Repr

/-- The library calls and outputs of a run, in the order they are made. -/
inductive Event
  | call (c : Call)
  | parseFile (htmlfil : CString)
  | parseStdin
  | cleanAndRepair
  | runDiagnostics
  | reportDoctype
  | saveFile (file : CString)
  | saveStdout
  | accumulate (errors warnings access : Nat)
  | blankLine
  | errorSummary
  | generalInfo
  deriving DecidableEq, Repr

/-- The stream `errout`: `stderr`, or the stream `tidySetErrorFile` returned for
a path. -/
inductive ErrOut
  | stderr
  | file (path : CString)
  deriving DecidableEq, Repr

/-- The switch an option token selects: one constructor for each branch of the
`if ... else if` chain of `main`, in the order of the source. -/
inductive Switch
  | xml | asxhtml | ashtml | indent | omit | upper | clean | gdoc | bare | encoding
  | numeric | modify | errors | quiet | help | xmlHelp | helpConfig | helpOption
  | xmlConfig | showConfig | config | language | output | file | wrap | version
  | passthrough | access | cluster
  deriving DecidableEq, Repr

/-- Case-insensitive equality test `strcasecmp(arg, name) == 0` against a
literal of the source. -/
def isName (arg : CString) (name : String) : Bool := decide (strcasecmp arg name.toList = 0)

/-- The conditions of the `if ... else if` chain of `main`, in source order;
`argv1` is `argv[1]` and the tests are made on `arg = argv[1] + 1`. -/
def classify (pf : Platform) (argv1 : CString) : Switch :=
  let arg := argv1.drop 1
  if isName arg "xml" then .xml
  else if isName arg "asxml" || isName arg "asxhtml" then .asxhtml
  else if isName arg "ashtml" then .ashtml
  else if isName arg "indent" then .indent
  else if isName arg "omit" then .omit
  else if isName arg "upper" then .upper
  else if isName arg "clean" then .clean
  else if isName arg "gdoc" then .gdoc
  else if isName arg "bare" then .bare
  else if isName arg "raw" || isName arg "ascii" || isName arg "latin0" || isName arg "latin1"
      || isName arg "utf8"
      || (!pf.NO_NATIVE_ISO2022_SUPPORT && isName arg "iso2022")
      || (pf.SUPPORT_UTF16_ENCODINGS &&
            (isName arg "utf16le" || isName arg "utf16be" || isName arg "utf16"))
      || (pf.SUPPORT_ASIAN_ENCODINGS && (isName arg "shiftjis" || isName arg "big5"))
      || isName arg "mac" || isName arg "win1252" || isName arg "ibm858" then .encoding
  else if isName arg "numeric" then .numeric
  else if isName arg "modify" || isName arg "change" || isName arg "update" then .modify
  else if isName arg "errors" then .errors
  else if isName arg "quiet" then .quiet
  else if isName arg "help" || isName arg "-help" || isName arg "h"
      || arg.getD 0 NUL = '?' then .help
  else if isName arg "xml-help" then .xmlHelp
  else if isName arg "help-config" then .helpConfig
  else if isName arg "help-option" then .helpOption
  else if isName arg "xml-config" then .xmlConfig
  else if isName arg "show-config" then .showConfig
  else if isName arg "config" then .config
  else if pf.SUPPORT_ASIAN_ENCODINGS && (isName arg "language" || isName arg "lang")
    then .language
  else if isName arg "output" || isName arg "-output-file" || isName arg "o" then .output
  else if isName arg "file" || isName arg "-file" || isName arg "f" then .file
  else if isName arg "wrap" || isName arg "-wrap" || isName arg "w" then .wrap
  else if isName arg "version" || isName arg "-version" || isName arg "v" then .version
  else if decide (strncmp argv1 "--".toList 2 = 0) then .passthrough
  else if pf.SUPPORT_ACCESSIBILITY_CHECKS && isName arg "access" then .access
  else .cluster

/-- What dispatching one option token yields: the return from `main` by an
informational command, or the scan going on with the changed document, error
file and error stream; `extra` tells whether the branch consumed the following
token as well (its own `--argc; ++argv;`). -/
inductive Dispatch (σ : Type)
  | exit (tdoc : σ) (calls : List Call)
  | next (tdoc : σ) (errfil : Option CString) (errout : ErrOut) (extra : Bool)
      (calls : List Call)

/-- The statements `tidyOptSetInt(tdoc, TidyIndentContent, TidyAutoState);
if (tidyOptGetInt(tdoc, TidyIndentSpaces) == 0)
tidyOptResetToDefault(tdoc, TidyIndentSpaces);` of `-indent` and of `i`. -/
def indentAction {σ : Type} (lib : TidyLib σ) (tdoc : σ) : σ × List Call :=
  let d1 := lib.tidyOptSetInt tdoc .TidyIndentContent lib.TidyAutoState
  if lib.tidyOptGetInt d1 .TidyIndentSpaces = 0 then
    (lib.tidyOptResetToDefault d1 .TidyIndentSpaces,
      [.optSetInt .TidyIndentContent lib.TidyAutoState, .optResetToDefault .TidyIndentSpaces])
  else (d1, [.optSetInt .TidyIndentContent lib.TidyAutoState])

/-- The statement `tidyOptSetBool(tdoc, id, v);`. -/
def setBool {σ : Type} (lib : TidyLib σ) (tdoc : σ) (id : TidyOptionId) (v : Bool) :
    σ × List Call :=
  (lib.tidyOptSetBool tdoc id v, [.optSetBool id v])

/-- One round of the `switch (c)` of the short-option cluster. -/
def shortOption {σ : Type} (lib : TidyLib σ) (tdoc : σ) (c : Char) : σ × List Call :=
  if c = 'i' then indentAction lib tdoc
  else if c = 'u' then setBool lib tdoc .TidyUpperCaseTags true
  else if c = 'c' then setBool lib tdoc .TidyMakeClean true
  else if c = 'g' then setBool lib tdoc .TidyGDocClean true
  else if c = 'b' then setBool lib tdoc .TidyMakeBare true
  else if c = 'n' then setBool lib tdoc .TidyNumEntities true
  else if c = 'm' then setBool lib tdoc .TidyWriteBack true
  else if c = 'e' then setBool lib tdoc .TidyShowMarkup false
  else if c = 'q' then setBool lib tdoc .TidyQuiet true
  else (tdoc, [.unknownOption c])

/-- The loop `while ((c = *++s) != '\0') switch (c) ...` over the characters
that follow the first one of `argv[1]`. -/
def shortOptions {σ : Type} (lib : TidyLib σ) : σ → List Char → σ × List Call
  | tdoc, [] => (tdoc, [])
  | tdoc, c :: cs =>
    let r := shortOption lib tdoc c
    let q := shortOptions lib r.1 cs
    (q.1, r.2 ++ q.2)

/-- The statements `post = tidyOptGetValue(tdoc, TidyErrFile);
if (post && (!errfil || !samefile(errfil, post)))
errfil = post, errout = tidySetErrorFile(tdoc, post);` shared by `-config` and
the `--name value` branch. -/
def updateErrorFile {σ : Type} (lib : TidyLib σ) (pf : Platform) (tdoc : σ)
    (errfil : Option CString) (errout : ErrOut) : σ × Option CString × ErrOut × List Call :=
  match lib.tidyOptGetValue tdoc .TidyErrFile with
  | none => (tdoc, errfil, errout, [])
  | some post =>
    if (match errfil with
        | none => true
        | some e => !samefile pf e post) then
      (lib.tidySetErrorFile tdoc post, some post, .file post, [.setErrorFile post])
    else (tdoc, errfil, errout, [])

/-- The body of `if (argc > 1 && argv[1][0] == '-')` up to, and without, the
final `--argc; ++argv; continue;`: the branch selected by `classify` is run on
the current `argv` (so `argv[2]` is `argv.get? 2`, `NULL` when absent). -/
def dispatch {σ : Type} (lib : TidyLib σ) (pf : Platform) (prog : Option CString) (tdoc : σ)
    (errfil : Option CString) (errout : ErrOut) (argv : List CString) : Dispatch σ :=
  let argc := argv.length
  let argv1 := argv.getD 1 []
  let arg := argv1.drop 1
  let argv2 := argv.getD 2 []
  let simple := fun (r : σ × List Call) => Dispatch.next r.1 errfil errout false r.2
  let info := fun (r : Render) => Dispatch.exit (lib.tidyRelease tdoc) [.render r, .release]
  match classify pf argv1 with
  | .xml => simple (setBool lib tdoc .TidyXmlTags true)
  | .asxhtml => simple (setBool lib tdoc .TidyXhtmlOut true)
  | .ashtml => simple (setBool lib tdoc .TidyHtmlOut true)
  | .indent => simple (indentAction lib tdoc)
  | .omit => simple (setBool lib tdoc .TidyOmitOptionalTags true)
  | .upper => simple (setBool lib tdoc .TidyUpperCaseTags true)
  | .clean => simple (setBool lib tdoc .TidyMakeClean true)
  | .gdoc => simple (setBool lib tdoc .TidyGDocClean true)
  | .bare => simple (setBool lib tdoc .TidyMakeBare true)
  | .encoding => simple (lib.tidySetCharEncoding tdoc arg, [.setCharEncoding arg])
  | .numeric => simple (setBool lib tdoc .TidyNumEntities true)
  | .modify => simple (setBool lib tdoc .TidyWriteBack true)
  | .errors => simple (setBool lib tdoc .TidyShowMarkup false)
  | .quiet => simple (setBool lib tdoc .TidyQuiet true)
  | .help => info (.help prog)
  | .xmlHelp => info .xml_help
  | .helpConfig => info .optionhelp
  | .helpOption => if argc ≥ 3 then info (.optionDescribe argv2) else info .mustSpecify
  | .xmlConfig => info .XMLoptionhelp
  | .showConfig => info .optionvalues
  | .config =>
    if argc ≥ 3 then
      let d1 := (lib.tidyLoadConfig tdoc argv2).2
      let u := updateErrorFile lib pf d1 errfil errout
      .next u.1 u.2.1 u.2.2.1 true (.loadConfig argv2 :: u.2.2.2)
    else .next tdoc errfil errout false []
  | .language =>
    if argc ≥ 3 then
      .next (lib.tidyOptSetValue tdoc .TidyLanguage argv2) errfil errout true
        [.optSetValue .TidyLanguage argv2]
    else .next tdoc errfil errout false []
  | .output =>
    if argc ≥ 3 then
      .next (lib.tidyOptSetValue tdoc .TidyOutFile argv2) errfil errout true
        [.optSetValue .TidyOutFile argv2]
    else .next tdoc errfil errout false []
  | .file =>
    if argc ≥ 3 then
      .next (lib.tidySetErrorFile tdoc argv2) (some argv2) (.file argv2) true
        [.setErrorFile argv2]
    else .next tdoc errfil errout false []
  | .wrap =>
    if argc ≥ 3 then
      let nfields := pf.sscanf_u argv2
      let wraplen := nfields.getD 0
      .next (lib.tidyOptSetInt tdoc .TidyWrapLen wraplen) errfil errout nfields.isSome
        [.optSetInt .TidyWrapLen wraplen]
    else .next tdoc errfil errout false []
  | .version => info .version
  | .passthrough =>
    let r := lib.tidyOptParseValue tdoc (argv1.drop 2) (argv.get? 2)
    if r.1 then
      let u := updateErrorFile lib pf r.2 errfil errout
      .next u.1 u.2.1 u.2.2.1 true (.optParseValue (argv1.drop 2) (argv.get? 2) :: u.2.2.2)
    else .next r.2 errfil errout false [.optParseValue (argv1.drop 2) (argv.get? 2)]
  | .access =>
    if argc ≥ 3 then
      let nfields := pf.sscanf_u argv2
      let acclvl := nfields.getD 0
      .next (lib.tidyOptSetInt tdoc .TidyAccessibilityCheckLevel acclvl) errfil errout
        nfields.isSome [.optSetInt .TidyAccessibilityCheckLevel acclvl]
    else .next tdoc errfil errout false []
  | .cluster =>
    let r := shortOptions lib tdoc arg
    .next r.1 errfil errout false r.2

/-! ## The driver: processing one source -/

/-- The local state of `main`: `argc` is `argv.length`, and `trace` lists what
the run has done so far. -/
structure MainState (σ : Type) where
  argv : List CString
  tdoc : σ
  errfil : Option CString
  errout : ErrOut
  htmlfil : Option CString
  status : Int
  contentErrors : Nat
  contentWarnings : Nat
  accessWarnings : Nat
  trace : List Event

/-- The document, the variable `status` and the events of the source being
processed. -/
structure Run (σ : Type) where
  tdoc : σ
  status : Int
  events : List Event

/-- The name `htmlfil` of the source: `argv[1]` if `argc > 1`, else `"stdin"`. -/
def sourceName (argv : List CString) : CString :=
  if argv.length > 1 then argv.getD 1 [] else "stdin".toList

/-- The statements from `if (argc > 1)` to `status = tidyParseStdin(tdoc);`. -/
def parseStep {σ : Type} (lib : TidyLib σ) (argv : List CString) (tdoc : σ) : Run σ :=
  if argv.length > 1 then
    let htmlfil := argv.getD 1 []
    if lib.tidyOptGetBool tdoc .TidyEmacs then
      let r := lib.tidyParseFile (lib.tidyOptSetValue tdoc .TidyEmacsFile htmlfil) htmlfil
      { tdoc := r.2, status := r.1,
        events := [.call (.optSetValue .TidyEmacsFile htmlfil), .parseFile htmlfil] }
    else
      let r := lib.tidyParseFile tdoc htmlfil
      { tdoc := r.2, status := r.1, events := [.parseFile htmlfil] }
  else
    let r := lib.tidyParseStdin tdoc
    { tdoc := r.2, status := r.1, events := [.parseStdin] }

/-- The statement `if (status >= 0) status = tidyCleanAndRepair(tdoc);`. -/
def repairStep {σ : Type} (lib : TidyLib σ) (r : Run σ) : Run σ :=
  if r.status ≥ 0 then
    let q := lib.tidyCleanAndRepair r.tdoc
    { tdoc := q.2, status := q.1, events := r.events ++ [.cleanAndRepair] }
  else r

/-- The statement `if (status >= 0) ...` that runs the diagnostics and reports
the document type. -/
def diagnoseStep {σ : Type} (lib : TidyLib σ) (r : Run σ) : Run σ :=
  if r.status ≥ 0 then
    let q := lib.tidyRunDiagnostics r.tdoc
    if !lib.tidyOptGetBool q.2 .TidyQuiet then
      if !lib.tidyOptGetBool q.2 .TidyShowInfo then
        let d1 := lib.tidyOptSetBool q.2 .TidyShowInfo true
        let d2 := lib.tidyReportDoctype d1
        let d3 := lib.tidyOptSetBool d2 .TidyShowInfo false
        { tdoc := d3, status := q.1,
          events := r.events ++ [.runDiagnostics, .call (.optSetBool .TidyShowInfo true),
            .reportDoctype, .call (.optSetBool .TidyShowInfo false)] }
      else { tdoc := q.2, status := q.1, events := r.events ++ [.runDiagnostics] }
    else { tdoc := q.2, status := q.1, events := r.events ++ [.runDiagnostics] }
  else r

/-- The statement `if (status > 1) status = (tidyOptGetBool(tdoc, TidyForceOutput)
? status : -1);`. -/
def forceStep {σ : Type} (lib : TidyLib σ) (r : Run σ) : Run σ :=
  if r.status > 1 then
    { r with status := if lib.tidyOptGetBool r.tdoc .TidyForceOutput then r.status else -1 }
  else r

/-- The statement `if (status >= 0 && tidyOptGetBool(tdoc, TidyShowMarkup)) ...`
that saves the output (the branch of the non-debug build). -/
def emitStep {σ : Type} (lib : TidyLib σ) (argv : List CString) (r : Run σ) : Run σ :=
  if r.status ≥ 0 ∧ lib.tidyOptGetBool r.tdoc .TidyShowMarkup = true then
    if lib.tidyOptGetBool r.tdoc .TidyWriteBack = true ∧ argv.length > 1 then
      let q := lib.tidySaveFile r.tdoc (sourceName argv)
      { tdoc := q.2, status := q.1, events := r.events ++ [.saveFile (sourceName argv)] }
    else
      match lib.tidyOptGetValue r.tdoc .TidyOutFile with
      | some outfil =>
        let q := lib.tidySaveFile r.tdoc outfil
        { tdoc := q.2, status := q.1, events := r.events ++ [.saveFile outfil] }
      | none =>
        let q := lib.tidySaveStdout r.tdoc
        { tdoc := q.2, status := q.1, events := r.events ++ [.saveStdout] }
  else r

/-- The steps parse, repair, diagnose and emit of one source, in order. -/
def sourceRun {σ : Type} (lib : TidyLib σ) (argv : List CString) (tdoc : σ) : Run σ :=
  emitStep lib argv (forceStep lib (diagnoseStep lib (repairStep lib (parseStep lib argv tdoc))))

/-- The part of the loop body after the option branch, from `if (argc > 1)` to
`++argv;`: one source is processed, its counts are added to the three `uint`
accumulators, and the argument cursor advances. -/
def processSource {σ : Type} (lib : TidyLib σ) (st : MainState σ) : MainState σ :=
  let r := sourceRun lib st.argv st.tdoc
  { argv := st.argv.tail
    tdoc := r.tdoc
    errfil := st.errfil
    errout := st.errout
    htmlfil := some (sourceName st.argv)
    status := r.status
    contentErrors := (st.contentErrors + lib.tidyErrorCount r.tdoc) % 2 ^ 32
    contentWarnings := (st.contentWarnings + lib.tidyWarningCount r.tdoc) % 2 ^ 32
    accessWarnings := (st.accessWarnings + lib.tidyAccessWarningCount r.tdoc) % 2 ^ 32
    trace := st.trace ++ r.events ++
      [.accumulate (lib.tidyErrorCount r.tdoc) (lib.tidyWarningCount r.tdoc)
        (lib.tidyAccessWarningCount r.tdoc)] }

/-! ## The driver: the loop and the exit status -/

/-- How a run of `main` ends: the returned status, whether the return was the
one of an informational command, and the final state. -/
structure Outcome (σ : Type) where
  code : Int
  informational : Bool
  final : MainState σ

/-- What one round of `while (argc > 0)` does. -/
inductive Round (σ : Type)
  | exit (out : Outcome σ)
  | again (st : MainState σ)
  | leave (st : MainState σ)

/-- One round of the loop `while (argc > 0)`, entered with `argc > 0`. -/
def loopBody {σ : Type} (lib : TidyLib σ) (pf : Platform) (prog : Option CString)
    (st : MainState σ) : Round σ :=
  if st.argv.length > 1 ∧ (st.argv.getD 1 []).getD 0 NUL = '-' then
    match dispatch lib pf prog st.tdoc st.errfil st.errout st.argv with
    | .exit tdoc calls =>
      .exit { code := 0, informational := true,
              final := { st with tdoc := tdoc, trace := st.trace ++ calls.map Event.call } }
    | .next tdoc errfil errout extra calls =>
      .again { st with
        argv := if extra then st.argv.tail.tail else st.argv.tail
        tdoc := tdoc, errfil := errfil, errout := errout
        trace := st.trace ++ calls.map Event.call }
  else
    let st1 := processSource lib st
    if st1.argv.length ≤ 1 then .leave st1 else .again st1

/-- The statements of `main` after the loop. -/
def finalize {σ : Type} (lib : TidyLib σ) (st : MainState σ) : Outcome σ :=
  let ev1 : List Event :=
    if !lib.tidyOptGetBool st.tdoc .TidyQuiet ∧ st.errout = .stderr ∧ st.contentErrors = 0
    then [.blankLine] else []
  let s2 : σ × List Event :=
    if (st.contentErrors + st.contentWarnings) % 2 ^ 32 > 0
        ∧ !lib.tidyOptGetBool st.tdoc .TidyQuiet
    then (lib.tidyErrorSummary st.tdoc, [.errorSummary]) else (st.tdoc, [])
  let s3 : σ × List Event :=
    if !lib.tidyOptGetBool s2.1 .TidyQuiet then (lib.tidyGeneralInfo s2.1, [.generalInfo])
    else (s2.1, [])
  { code := if st.contentErrors > 0 then 2 else if st.contentWarnings > 0 then 1 else 0
    informational := false
    final := { st with
      tdoc := lib.tidyRelease s3.1
      trace := st.trace ++ ev1 ++ s2.2 ++ s3.2 ++ [.call .release] } }

/-- The loop `while (argc > 0)` followed by the statements after it. -/
def mainLoop {σ : Type} (lib : TidyLib σ) (pf : Platform) (prog : Option CString) :
    Nat → MainState σ → Option (Outcome σ)
  | 0, _ => none
  | fuel + 1, st =>
    if st.argv.length > 0 then
      match loopBody lib pf prog st with
      | .exit out => some out
      | .again st1 => mainLoop lib pf prog fuel st1
      | .leave st1 => some (finalize lib st1)
    else some (finalize lib st)

/-- The state of `main` when the loop is entered: nothing is accumulated,
`errout` is `stderr`, and the only events so far are the configuration loads. -/
def loopEntry {σ : Type} (argv : List CString) (tdoc : σ) (status : Int) (calls : List Call) :
    MainState σ :=
  { argv := argv, tdoc := tdoc, errfil := none, errout := .stderr, htmlfil := none,
    status := status, contentErrors := 0, contentWarnings := 0, accessWarnings := 0,
    trace := calls.map Event.call }

/-- One of the configuration loads made before the command line is read:
`status = tidyLoadConfig(tdoc, file); if (status != 0) fprintf(errout, ...);`. -/
def loadConfigAtStart {σ : Type} (lib : TidyLib σ) (file : CString) (st : MainState σ) :
    MainState σ :=
  let r := lib.tidyLoadConfig st.tdoc file
  { st with
    tdoc := r.2, status := r.1
    trace := st.trace ++ (if r.1 ≠ 0 then [.call (.loadConfig file), .call (.loadConfigError file r.1)]
      else [.call (.loadConfig file)]) }

/-- The statements of `main` before the loop, given the document `tidyCreate`
returned. -/
def startup {σ : Type} (lib : TidyLib σ) (pf : Platform) (tdoc : σ) (argv : List CString) :
    MainState σ :=
  let st0 : MainState σ := loopEntry argv tdoc 0 []
  let st1 :=
    match pf.TIDY_CONFIG_FILE with
    | some f => if lib.tidyFileExists st0.tdoc f then loadConfigAtStart lib f st0 else st0
    | none => st0
  match pf.getenv_HTML_TIDY with
  | some cfgfil => loadConfigAtStart lib cfgfil st1
  | none =>
    match pf.TIDY_USER_CONFIG_FILE with
    | some f => if lib.tidyFileExists st1.tdoc f then loadConfigAtStart lib f st1 else st1
    | none => st1

/-- The function `main(argc, argv)` with `argc = argv.length`; every round of
the loop shortens `argv`, so `argv.length + 1` rounds are enough. -/
def tidyMain {σ : Type} (lib : TidyLib σ) (pf : Platform) (tdoc : σ) (argv : List CString) :
    Option (Outcome σ) :=
  mainLoop lib pf argv.head? (argv.length + 1) (startup lib pf tdoc argv)

/-! ## A processor and a platform to run examples on -/

/-- What the example processor reports for one source. -/
structure SourceReport where
  status : Int
  errors : Nat
  warnings : Nat
  access : Nat

/-- Modelled from the spec: the document of the configurable processor, which
is not part of the driver's source file.  It is an option store (section 6: set
and get boolean, integer and string option values by identifier) together with
the error, warning and accessibility-warning counts of the last source. -/
structure RefDoc where
  bools : TidyOptionId → Bool
  ints : TidyOptionId → Nat
  strs : TidyOptionId → Option CString
  errors : Nat
  warnings : Nat
  access : Nat

/-- The status the example processor returns for the counts of a document:
`2` with errors, `1` with warnings only, `0` otherwise. -/
def RefDoc.level (d : RefDoc) : Int :=
  if d.errors > 0 then 2 else if d.warnings > 0 then 1 else 0

/-- Modelled from the spec: the library functions of the configurable
processor, which are not part of the driver's source file.  Setters store,
getters read back, parsing a source yields the report `files` (or `stdin`)
gives for it, and nothing else changes the document. -/
def refLib (files : CString → SourceReport) (stdin : SourceReport) : TidyLib RefDoc where
  TidyAutoState := 2
  tidyOptSetBool := fun d id v => { d with bools := fun i => if i = id then v else d.bools i }
  tidyOptSetInt := fun d id v => { d with ints := fun i => if i = id then v else d.ints i }
  tidyOptSetValue := fun d id v =>
    { d with strs := fun i => if i = id then some v else d.strs i }
  tidyOptResetToDefault := fun d id =>
    { d with ints := fun i => if i = id then 2 else d.ints i }
  tidyOptGetBool := fun d id => d.bools id
  tidyOptGetInt := fun d id => d.ints id
  tidyOptGetValue := fun d id => d.strs id
  tidyOptParseValue := fun d _ _ => (false, d)
  tidySetCharEncoding := fun d _ => d
  tidyFileExists := fun _ _ => false
  tidyLoadConfig := fun d _ => (0, d)
  tidySetErrorFile := fun d _ => d
  tidyParseFile := fun d f =>
    ((files f).status,
      { d with errors := (files f).errors, warnings := (files f).warnings,
               access := (files f).access })
  tidyParseStdin := fun d =>
    (stdin.status,
      { d with errors := stdin.errors, warnings := stdin.warnings, access := stdin.access })
  tidyCleanAndRepair := fun d => (d.level, d)
  tidyRunDiagnostics := fun d => (d.level, d)
  tidyReportDoctype := fun d => d
  tidySaveFile := fun d _ => (d.level, d)
  tidySaveStdout := fun d => (d.level, d)
  tidyErrorCount := fun d => d.errors
  tidyWarningCount := fun d => d.warnings
  tidyAccessWarningCount := fun d => d.access
  tidyErrorSummary := fun d => d
  tidyGeneralInfo := fun d => d
  tidyRelease := fun d => d

/-- The document the example processor starts with: markup shown, wrap length
68, indentation of 2 spaces, every other option off or unset. -/
def refDoc : RefDoc where
  bools := fun i => decide (i = .TidyShowMarkup)
  ints := fun i => if i = .TidyWrapLen then 68 else if i = .TidyIndentSpaces then 2 else 0
  strs := fun _ => none
  errors := 0
  warnings := 0
  access := 0

/-- A second example document: as `refDoc`, but with an indent-spaces value of
zero, so that the indent switch resets that option to its default. -/
def refDocFlat : RefDoc :=
  { refDoc with ints := fun i => if i = .TidyWrapLen then 68 else 0 }

/-- The sources of the examples: `bad.html` has one error, `warn.html` one
warning, `missing.html` cannot be parsed (negative status), every other source
is clean. -/
def refFiles (f : CString) : SourceReport :=
  if f = "bad.html".toList then { status := 2, errors := 1, warnings := 0, access := 0 }
  else if f = "warn.html".toList then { status := 1, errors := 0, warnings := 1, access := 0 }
  else if f = "missing.html".toList then { status := -2, errors := 0, warnings := 0, access := 0 }
  else { status := 0, errors := 0, warnings := 0, access := 0 }

/-- The standard input of the examples: a clean source. -/
def refStdin : SourceReport := { status := 0, errors := 0, warnings := 0, access := 0 }

/-- An instance of the conversion `sscanf(str, "%u", &x)` for the examples:
white space is skipped, a sign is accepted, and a non-empty run of decimal digits
is converted (modulo `2 ^ 32`); anything else converts no field. -/
def sscanfDecimal (str : CString) : Option Nat :=
  let t := str.dropWhile Char.isWhitespace
  let neg := decide (t.head? = some '-')
  let u := if t.head? = some '-' ∨ t.head? = some '+' then t.tail else t
  let ds := u.takeWhile Char.isDigit
  if ds = [] then none
  else
    let v := ds.foldl (fun a c => 10 * a + (c.toNat - 48)) 0 % 2 ^ 32
    some (if neg then (2 ^ 32 - v) % 2 ^ 32 else v)

/-- The platform of the examples: a build with every optional feature, no
configuration file and no `HTML_TIDY` variable. -/
def refPlatform : Platform where
  FILENAMES_CASE_SENSITIVE := true
  NO_NATIVE_ISO2022_SUPPORT := false
  SUPPORT_UTF16_ENCODINGS := true
  SUPPORT_ASIAN_ENCODINGS := true
  SUPPORT_ACCESSIBILITY_CHECKS := true
  TIDY_CONFIG_FILE := none
  TIDY_USER_CONFIG_FILE := none
  getenv_HTML_TIDY := none
  sscanf_u := sscanfDecimal

/-- The run of `main` on the example processor and platform. -/
def refMain (argv : List String) : Option (Outcome RefDoc) :=
  tidyMain (refLib refFiles refStdin) refPlatform refDoc (argv.map String.toList)

/-- The events of a run that hand a source to the parser. -/
def parseEvents (trace : List Event) : List Event :=
  trace.filter (fun e => match e with
    | .parseFile _ => true
    | .parseStdin => true
    | _ => false)

/-- The sum of the error counts added to `contentErrors` in a run. -/
def errorSum (trace : List Event) : Nat :=
  (trace.map (fun e => match e with
    | .accumulate errors _ _ => errors
    | _ => 0)).sum

/-- The sum of the warning counts added to `contentWarnings` in a run. -/
def warningSum (trace : List Event) : Nat :=
  (trace.map (fun e => match e with
    | .accumulate _ warnings _ => warnings
    | _ => 0)).sum

/-- The state a round hands to the next round of the loop, if it does. -/
def Round.nextState {σ : Type} : Round σ → Option (MainState σ)
  | .again st => some st
  | _ => none

/-- A list of events that neither accumulates counts nor parses a source. -/
def Neutral (evs : List Event) : Prop :=
  errorSum evs = 0 ∧ warningSum evs = 0 ∧ parseEvents evs = []

/-- The accumulators hold the sums of the counts of the run, as `uint`s. -/
def CountsInv {σ : Type} (st : MainState σ) : Prop :=
  st.contentErrors = errorSum st.trace % 2 ^ 32 ∧
    st.contentWarnings = warningSum st.trace % 2 ^ 32

/-- The specification's list of informational commands (help, XML help,
help-config, help-option, xml-config, show-config, version), each with the
output routine it stands for; `following` is the token after the command, when
there is one (the option name `-help-option` describes).  Every other switch is
no informational command.  The theorems compare `dispatch` with this list. -/
def informationalRender (prog : Option CString) (following : Option CString) :
    Switch → Option Render
  | .help => some (.help prog)
  | .xmlHelp => some .xml_help
  | .helpConfig => some .optionhelp
  | .helpOption =>
    match following with
    | some name => some (.optionDescribe name)
    | none => some .mustSpecify
  | .xmlConfig => some .XMLoptionhelp
  | .showConfig => some .optionvalues
  | .version => some .version
  | _ => none

/-- The spellings of the informational commands the source compares `arg`
with, each with the switch it selects. -/
def informationalSpellings : List (String × Switch) :=
  [("-help", .help), ("--help", .help), ("-h", .help), ("-?", .help),
    ("-xml-help", .xmlHelp), ("-help-config", .helpConfig), ("-help-option", .helpOption),
    ("-xml-config", .xmlConfig), ("-show-config", .showConfig),
    ("-version", .version), ("--version", .version), ("-v", .version)]

/-- The tokens after `argv[0]` all start with a dash. -/
def AllDash (argv : List CString) : Prop := ∀ t ∈ argv.tail, t.getD 0 NUL = '-'

/-! ## XML escaping and the single-option description -/

/-- The first loop of `get_escaped_name`: the length `len` of the escaped name,
started with the given value. -/
def escapedLength : CString → Nat → Nat
  | [], len => len
  | c :: cs, len =>
    escapedLength cs
      (if c = '<' ∨ c = '>' then len + 4 else if c = '"' then len + 6 else len + 1)

/-- The second loop of `get_escaped_name`: each round appends to `escpName` with
`strcat`. -/
def escapeLoop : CString → CString → CString
  | [], escpName => escpName
  | c :: cs, escpName =>
    escapeLoop cs
      (if c = '<' then escpName ++ "&lt;".toList
       else if c = '>' then escpName ++ "&gt;".toList
       else if c = '"' then escpName ++ "&quot;".toList
       else escpName ++ [c])

/-- The function `get_escaped_name(name)`: the buffer starts empty
(`escpName[0] = '\0'`) and is returned after the second loop. -/
def get_escaped_name (name : CString) : CString := escapeLoop name []

/-- The escaping rule in the words of the specification: `<` becomes `&lt;`,
`>` becomes `&gt;`, the double quote becomes `&quot;`, and every other
character passes through unchanged. -/
def escapeImage (c : Char) : CString :=
  if c = '<' then "&lt;".toList
  else if c = '>' then "&gt;".toList
  else if c = '"' then "&quot;".toList
  else [c]

/-! ## Projections of a dispatch, used to compare dispatches -/

/-- The library calls and diagnostics a dispatch makes. -/
def Dispatch.calls {σ : Type} : Dispatch σ → List Call
  | .exit _ calls => calls
  | .next _ _ _ _ calls => calls

/-- The number of tokens a dispatch consumes: `none` when `main` returns, else
one for the option token plus one if the branch took the following token. -/
def Dispatch.consumed {σ : Type} : Dispatch σ → Option Nat
  | .exit _ _ => none
  | .next _ _ _ extra _ => some (if extra then 2 else 1)

/-- Two tokens are letter-case variants of each other. -/
abbrev CaseVariant (t u : CString) : Prop := t.map Char.toLower = u.map Char.toLower

/-- The long-form spellings whose double-dash form is compared for in `main`
(`-help`, `-file`, `-wrap`, `-version` against `arg = argv[1] + 1`). -/
def doubleDashSpellings : List String := ["help", "file", "wrap", "version"]

/-- The other long-form spellings of driver switches: `main` has no comparison
that matches their double-dash form. -/
def singleDashSpellings : List String :=
  ["xml", "asxml", "asxhtml", "ashtml", "indent", "omit", "upper", "clean", "gdoc", "bare",
   "raw", "ascii", "latin0", "latin1", "utf8", "iso2022", "utf16le", "utf16be", "utf16",
   "shiftjis", "big5", "mac", "win1252", "ibm858", "numeric", "modify", "change", "update",
   "errors", "quiet", "xml-help", "help-config", "help-option", "xml-config", "show-config",
   "config", "language", "lang", "output", "access"]

/-- What the branch `strncmp(argv[1], "--", 2) == 0` does with the option name
`name` (the token without its two dashes) and the following token `val`
(`NULL` when absent). -/
def passthroughAction {σ : Type} (lib : TidyLib σ) (pf : Platform) (tdoc : σ)
    (errfil : Option CString) (errout : ErrOut) (name : CString) (val : Option CString) :
    Dispatch σ :=
  let r := lib.tidyOptParseValue tdoc name val
  if r.1 then
    let u := updateErrorFile lib pf r.2 errfil errout
    .next u.1 u.2.1 u.2.2.1 true (.optParseValue name val :: u.2.2.2)
  else .next r.2 errfil errout false [.optParseValue name val]

/-- A platform with the given values of the four preprocessor symbols that
`classify` tests, and nothing else configured. -/
def flagPlatform (iso utf16 asian access : Bool) : Platform where
  FILENAMES_CASE_SENSITIVE := true
  NO_NATIVE_ISO2022_SUPPORT := iso
  SUPPORT_UTF16_ENCODINGS := utf16
  SUPPORT_ASIAN_ENCODINGS := asian
  SUPPORT_ACCESSIBILITY_CHECKS := access
  TIDY_CONFIG_FILE := none
  TIDY_USER_CONFIG_FILE := none
  getenv_HTML_TIDY := none
  sscanf_u := fun _ => none

/-! ## The single-option description -/

/-- The C library search `strstr(haystack, needle)`: the offset of the first
occurrence of `needle` in `haystack`, `none` for `NULL`. -/
def strstr : CString → CString → Option Nat
  | [], needle => if needle = [] then some 0 else none
  | c :: cs, needle =>
    if (c :: cs).take needle.length = needle then some 0
    else (strstr cs needle).map (fun k => k + 1)

/-- The conversion of an arithmetic result to the type `int` (32 bits, two's
complement). -/
def toInt (x : Int) : Int :=
  if x % 2 ^ 32 < 2 ^ 31 then x % 2 ^ 32 else x % 2 ^ 32 - 2 ^ 32

/-- The C library scan `strlen(result)` on a block of memory given by its
bytes: the offset of the first NUL byte; `none` when no byte of the block is
NUL, the scan then leaves the block. -/
def bufStrlen : List Char → Option Nat
  | [] => none
  | c :: cs => if c = NUL then some 0 else (bufStrlen cs).map (fun k => k + 1)

/-- The bytes of a block after `bytes` have been stored from offset `off` on;
`none` when they do not fit, the store then leaves the block. -/
def bufWrite (buf : List Char) (off : Nat) (bytes : List Char) : Option (List Char) :=
  if off + bytes.length ≤ buf.length then
    some (buf.take off ++ bytes ++ buf.drop (off + bytes.length))
  else none

/-- The call `strcpy(result + strlen(result), src)`: the characters of `src`
and a terminating NUL are stored where `strlen` finds the first NUL. -/
def strcpyAtEnd (result : List Char) (src : CString) : Option (List Char) :=
  (bufStrlen result).bind fun k => bufWrite result k (src ++ [NUL])

/-- The call `strncpy(result + strlen(result), old, n)`: exactly `n` bytes are
stored, the first `n` characters of `old` (padded with NUL when `old` is
shorter); no terminator follows them. -/
def strncpyAtEnd (result : List Char) (old : CString) (n : Nat) : Option (List Char) :=
  (bufStrlen result).bind fun k =>
    bufWrite result k (old.take n ++ List.replicate (n - old.length) NUL)

/-- The first `for` loop of `replace_string`: the matches are counted in the
`int` variable `c`; `text` is where the next search starts
(`p + search_size`).  The loop does not end when `needle` is empty: the fuel
then runs out.  A `c++` that would leave the range of `int` is undefined and
gives no result. -/
def countLoop (needle : CString) : Nat → CString → Int → Option Int
  | 0, _, _ => none
  | fuel + 1, text, c =>
    match strstr text needle with
    | none => some c
    | some k =>
      if c + 1 < 2 ^ 31 then countLoop needle fuel (text.drop (k + needle.length)) (c + 1)
      else none

/-- The second `for` loop of `replace_string` and the copy after it.  On entry
`old` is the text not yet copied (both `old` and the search of the next round
start at `p + search_size`) and `result` holds the bytes of the block; a round
stores the `p - old` characters before the match with `strncpy` and the
replacement with `strcpy`, each where `strlen(result)` finds the first NUL. -/
def replaceLoop (needle replace : CString) : Nat → CString → List Char → Option (List Char)
  | 0, _, _ => none
  | fuel + 1, old, result =>
    match strstr old needle with
    | none => strcpyAtEnd result old
    | some k =>
      (strncpyAtEnd result old k).bind fun r1 =>
      (strcpyAtEnd r1 replace).bind fun r2 =>
      replaceLoop needle replace fuel (old.drop (k + needle.length)) r2

/-- The function `replace_string(needle, replace, haystack)`.  The size
`c = (strlen(replace) - search_size) * c + strlen(haystack) + 1` is computed in
`size_t` and stored in an `int`: it is the exact value brought into the range
of `int`.  The block `malloc(c)` returns has `c` bytes of unspecified content:
byte `i` is `junk i`.  The result is the string that starts the block; there
is none (`none`) when a loop does not end, when `c` is negative (`malloc` then
fails and `outOfMemory` ends the program) and when a scan or a store leaves
the block, which the C language leaves undefined. -/
def replace_string (fuel : Nat) (junk : Nat → Char) (needle replace haystack : CString) :
    Option CString :=
  (countLoop needle fuel haystack 0).bind fun n =>
    let c := toInt (((replace.length : Int) - (needle.length : Int)) * n
      + (haystack.length : Int) + 1)
    if c < 0 then none
    else
      (bufWrite ((List.range c.toNat).map junk) 0 [NUL]).bind fun r0 =>
      (replaceLoop needle replace fuel haystack r0).bind fun r =>
      (bufStrlen r).map fun len => r.take len

/-- The loops `while (tags[i]) prepared = replace_string(tags[i], replacement,
prepared), ++i;` of `get_prepared_content`; `heap k` gives the content of the
block the call number `k` of `replace_string` is handed by `malloc`, and `i`
is the number of the next call. -/
def replaceTags (fuel : Nat) (heap : Nat → Nat → Char) (replacement : CString) :
    Nat → List CString → CString → Option CString
  | _, [], prepared => some prepared
  | i, tag :: tags, prepared =>
    (replace_string fuel (heap i) tag replacement prepared).bind
      (replaceTags fuel heap replacement (i + 1) tags)

/-- The array `tags_open` of `get_prepared_content`. -/
def tags_open : List CString :=
  ["<code>".toList, "<em>".toList, "<strong>".toList, "<p>".toList]

/-- The array `tags_close` of `get_prepared_content`. -/
def tags_close : List CString :=
  ["</code>".toList, "</em>".toList, "</strong>".toList, "</p>".toList]

/-- The function `get_prepared_content(content)`, with `replacement = ""`; it
makes eleven calls of `replace_string`, call number `k` on a block of content
`heap k`. -/
def get_prepared_content (fuel : Nat) (heap : Nat → Nat → Char) (content : CString) :
    Option CString :=
  (replace_string fuel (heap 0) "<br/>".toList "\n\n".toList content).bind fun p1 =>
  (replaceTags fuel heap [] 1 tags_open p1).bind fun p2 =>
  (replaceTags fuel heap [] 5 tags_close p2).bind fun p3 =>
  (replace_string fuel (heap 9) "&lt;".toList "<".toList p3).bind fun p4 =>
  replace_string fuel (heap 10) "&gt;".toList ">".toList p4

/-- A heap whose blocks are all zero-filled. -/
def zeroHeap : Nat → Nat → Char := fun _ _ => NUL

/-- The C library conversion `%-W.Ps` of `printf`: at most `prec` characters of
the string, padded with spaces on the right to `width` characters. -/
def printfLeft (width prec : Nat) (s : CString) : CString :=
  s.take prec ++ List.replicate (width - (s.take prec).length) ' '

/-- The option introspection of the library that `optionDescribe` uses:
`tidyOptGetIdForName`, the bound `N_TIDY_OPTIONS`, the documentation text
`tidyOptGetDoc(tdoc, tidyGetOption(tdoc, topt))` and the localized string
`TC_STRING_UNKNOWN_OPTION_B`. -/
structure OptionInfo (σ : Type) where
  N_TIDY_OPTIONS : Nat
  tidyOptGetIdForName : CString → Nat
  tidyOptGetDoc : σ → Nat → CString
  TC_STRING_UNKNOWN_OPTION_B : CString

/-- The text `result` that `optionDescribe` prints for `tag`. -/
def describedText {σ : Type} (fuel : Nat) (heap : Nat → Nat → Char) (info : OptionInfo σ)
    (tdoc : σ) (tag : CString) : Option CString :=
  if info.tidyOptGetIdForName tag < info.N_TIDY_OPTIONS then
    get_prepared_content fuel heap (info.tidyOptGetDoc tdoc (info.tidyOptGetIdForName tag))
  else some info.TC_STRING_UNKNOWN_OPTION_B

/-- The function `optionDescribe(tdoc, tag)`: the strings its `printf` calls
write, in order (the call of `Render.optionDescribe tag` in a run). -/
def optionDescribe {σ : Type} (fuel : Nat) (heap : Nat → Nat → Char) (info : OptionInfo σ)
    (tdoc : σ) (tag : CString) : Option (List CString) :=
  (describedText fuel heap info tdoc tag).bind fun result =>
  (print1Column fuel 68 (some result)).map fun lines =>
    ["\n".toList, "`--".toList ++ tag ++ "`\n\n".toList]
      ++ lines.map (fun line => printfLeft 68 68 line ++ "\n".toList)
      ++ ["\n".toList]

/-- An option introspection for the examples: two options, `wrap` and
`indent`, with documentation that uses the inline markup. -/
def refInfo : OptionInfo RefDoc where
  N_TIDY_OPTIONS := 2
  tidyOptGetIdForName := fun name =>
    if name = "wrap".toList then 0 else if name = "indent".toList then 1 else 2
  tidyOptGetDoc := fun _ id =>
    if id = 0 then "Sets the <em>right margin</em>.<br/>Use <code>0</code> for none.".toList
    else "Indents <strong>block-level</strong> tags.".toList
  TC_STRING_UNKNOWN_OPTION_B := "Sorry, unknown option.".toList

/-- The paths handed to `tidySetErrorFile` in a run, in order. -/
def errorFileOpens (trace : List Event) : List CString :=
  trace.filterMap (fun e => match e with
    | .call (.setErrorFile path) => some path
    | _ => none)

/-! ## Documentation texts made of tags and plain characters -/

/-- A piece of a documentation text: a character, or one of the listed tags. -/
inductive Piece
  | plain (c : Char)
  | tag (t : CString)
  deriving DecidableEq, Repr

/-- The text of a piece. -/
def Piece.text : Piece → CString
  | .plain c => [c]
  | .tag t => t

/-- What the specification says remains of a piece: a `<br/>` becomes two
newlines, every other listed tag nothing, a character stays. -/
def Piece.prepared : Piece → CString
  | .plain c => [c]
  | .tag t => if t = "<br/>".toList then "\n\n".toList else []

theorem scanNewline_le (s : CString) (offset : Nat) :
    ∀ gap j, j ≤ offset → scanNewline s offset gap j ≤ offset := by
  intro gap
  induction gap with
  | zero => intro j hj; simpa [scanNewline] using hj
  | succ g ih =>
    intro j hj
    unfold scanNewline
    split
    · next h => exact ih (j + 1) h.1
    · exact hj

theorem scanNewline_found (s : CString) (offset : Nat) :
    ∀ gap j, offset ≤ j + gap → scanNewline s offset gap j < offset →
      s.getD (scanNewline s offset gap j) NUL = '\n' := by
  intro gap
  induction gap with
  | zero => intro j hj h; simp [scanNewline] at h; omega
  | succ g ih =>
    intro j hj h
    unfold scanNewline at h ⊢
    split
    · next hc =>
      rw [if_pos hc] at h
      exact ih (j + 1) (by omega) h
    · next hc =>
      rw [if_neg hc] at h
      by_contra hne
      exact hc ⟨h, hne⟩

theorem scanSpace_le (s : CString) : ∀ j, scanSpace s j ≤ j := by
  intro j
  induction j with
  | zero => simp [scanSpace]
  | succ j ih =>
    unfold scanSpace
    split
    · omega
    · exact le_refl _

theorem scanSpace_found (s : CString) :
    ∀ j, scanSpace s j ≠ 0 → s.getD (scanSpace s j) NUL = ' ' := by
  intro j
  induction j with
  | zero => simp [scanSpace]
  | succ j ih =>
    unfold scanSpace
    split
    · exact ih
    · next hc => intro _; by_contra hne; exact hc hne

theorem cutPoint_fst_le (s : CString) (offset : Nat) : (cutPoint s offset).1 ≤ offset := by
  have h1 := scanNewline_le s offset offset 0 (Nat.zero_le _)
  have h2 := scanSpace_le s offset
  unfold cutPoint
  simp only []
  split
  · split
    · exact le_refl _
    · exact h2
  · exact h1

theorem cutPoint_snd_pos (s : CString) (offset : Nat) (h : 0 < offset) :
    0 < (cutPoint s offset).2 := by
  unfold cutPoint
  simp only []
  split
  · split
    · exact h
    · omega
  · omega

theorem cutPoint_snd_le (s : CString) (offset : Nat) : (cutPoint s offset).2 ≤ offset + 1 := by
  have h1 := scanNewline_le s offset offset 0 (Nat.zero_le _)
  have h2 := scanSpace_le s offset
  unfold cutPoint
  simp only []
  split
  · split
    · omega
    · omega
  · omega

theorem cutToWhiteSpace_length_le (s : Option CString) (offset : Nat) :
    (cutToWhiteSpace s offset).1.length ≤ offset := by
  cases s with
  | none => simp [cutToWhiteSpace]
  | some s =>
    unfold cutToWhiteSpace
    simp only []
    split
    · assumption
    · have := cutPoint_fst_le s offset
      simp only [List.length_take]
      omega

theorem cutToWhiteSpace_rest_lt (s : Option CString) (offset : Nat) (h : 0 < offset)
    (r : CString) (hr : (cutToWhiteSpace s offset).2 = some r) : r.length < textLen s := by
  cases s with
  | none => simp [cutToWhiteSpace] at hr
  | some s =>
    unfold cutToWhiteSpace at hr
    simp only [] at hr
    split at hr
    · simp at hr
    · next hlen =>
      have hp := cutPoint_snd_pos s offset h
      simp only [Option.some.injEq] at hr
      subst hr
      simp only [List.length_drop, textLen]
      omega

theorem printfArg_length_le (cbuf : CString) : (printfArg cbuf).length ≤ cbuf.length := by
  unfold printfArg
  split <;> simp

/-! ## The print loops as column loops -/

theorem print1ColumnLoop_eq (l1 : Nat) : ∀ fuel pc1,
    print1ColumnLoop l1 fuel pc1 = columnLoop (column l1) Option.isSome fuel pc1 := by
  intro fuel
  induction fuel with
  | zero => intro pc1; rfl
  | succ f ih => intro pc1; simp only [print1ColumnLoop, columnLoop, column, ih]

theorem print2ColumnsLoop_eq (l1 l2 : Nat) : ∀ fuel pc1 pc2,
    print2ColumnsLoop l1 l2 fuel pc1 pc2 =
      columnLoop (cutBoth (column l1) (column l2)) (liveEither Option.isSome Option.isSome)
        fuel (pc1, pc2) := by
  intro fuel
  induction fuel with
  | zero => intro pc1 pc2; rfl
  | succ f ih =>
    intro pc1 pc2
    simp only [print2ColumnsLoop, columnLoop, column, cutBoth, liveEither, ih]

theorem print3ColumnsLoop_eq (l1 l2 l3 : Nat) : ∀ fuel pc1 pc2 pc3,
    print3ColumnsLoop l1 l2 l3 fuel pc1 pc2 pc3 =
      columnLoop (cutBoth (column l1) (cutBoth (column l2) (column l3)))
        (liveEither Option.isSome (liveEither Option.isSome Option.isSome))
        fuel (pc1, pc2, pc3) := by
  intro fuel
  induction fuel with
  | zero => intro pc1 pc2 pc3; rfl
  | succ f ih =>
    intro pc1 pc2 pc3
    simp only [print3ColumnsLoop, columnLoop, column, cutBoth, liveEither, ih, Bool.or_assoc]

theorem column_absorbing (l : Nat) : Absorbing (column l) Option.isSome [] := by
  intro s hs
  cases s with
  | none => simp [column, cutToWhiteSpace, printfArg]
  | some s => simp at hs

theorem cutBoth_absorbing {S T A B : Type} {cx : S → A × S} {cy : T → B × T}
    {lx : S → Bool} {ly : T → Bool} {pa : A} {pb : B}
    (hx : Absorbing cx lx pa) (hy : Absorbing cy ly pb) :
    Absorbing (cutBoth cx cy) (liveEither lx ly) (pa, pb) := by
  intro p hp
  simp only [liveEither, Bool.or_eq_false_iff] at hp
  obtain ⟨h1, h2⟩ := hx p.1 hp.1
  obtain ⟨h3, h4⟩ := hy p.2 hp.2
  simp [cutBoth, liveEither, h1, h2, h3, h4]

theorem columnLoop_ne_nil {S A : Type} (cut : S → A × S) (live : S → Bool) :
    ∀ fuel s L, columnLoop cut live fuel s = some L → L ≠ [] := by
  intro fuel s L h
  cases fuel with
  | zero => simp [columnLoop] at h
  | succ f =>
    unfold columnLoop at h
    split at h
    · cases hrec : columnLoop cut live f (cut s).2 with
      | none => simp [hrec] at h
      | some L2 => simp [hrec] at h; subst h; simp
    · simp at h; subst h; simp

theorem columnLoop_dead {S A : Type} {cut : S → A × S} {live : S → Bool} {pad : A}
    (ha : Absorbing cut live pad) (fuel : Nat) (s : S) (hs : live s = false) :
    columnLoop cut live (fuel + 1) s = some [pad] := by
  obtain ⟨h1, h2⟩ := ha s hs
  simp [columnLoop, h1, h2]

theorem zipPad_nil_right_pad {α β : Type} (pa : α) (pb : β) :
    ∀ L : List α, L ≠ [] → zipPad pa pb L [pb] = zipPad pa pb L [] := by
  intro L hL
  cases L with
  | nil => exact absurd rfl hL
  | cons a as => simp [zipPad]

theorem zipPad_nil_left_pad {α β : Type} (pa : α) (pb : β) :
    ∀ L : List β, L ≠ [] → zipPad pa pb [pa] L = zipPad pa pb [] L := by
  intro L hL
  cases L with
  | nil => exact absurd rfl hL
  | cons a as => simp [zipPad]

theorem columnLoop_cutBoth {S T A B : Type} {cx : S → A × S} {cy : T → B × T}
    {lx : S → Bool} {ly : T → Bool} {pa : A} {pb : B}
    (hx : Absorbing cx lx pa) (hy : Absorbing cy ly pb) :
    ∀ fuel x y LX LY, columnLoop cx lx fuel x = some LX → columnLoop cy ly fuel y = some LY →
      columnLoop (cutBoth cx cy) (liveEither lx ly) fuel (x, y) = some (zipPad pa pb LX LY) := by
  intro fuel
  induction fuel with
  | zero => intro x y LX LY h; simp [columnLoop] at h
  | succ f ih =>
    intro x y LX LY h1 h2
    unfold columnLoop at h1 h2 ⊢
    simp only [cutBoth, liveEither]
    cases hlx : lx (cx x).2 <;> cases hly : ly (cy y).2 <;>
      simp only [hlx, hly, if_true, if_false, Bool.false_eq_true, Bool.or_false, Bool.or_true,
        Bool.or_self] at h1 h2 ⊢
    · simp only [Option.some.injEq] at h1 h2
      subst h1; subst h2
      simp [zipPad]
    · cases hrec : columnLoop cy ly f (cy y).2 with
      | none => simp [hrec] at h2
      | some LY2 =>
        simp only [hrec, Option.map_some', Option.some.injEq] at h2 h1
        subst h1; subst h2
        have hne := columnLoop_ne_nil cy ly f _ _ hrec
        cases f with
        | zero => simp [columnLoop] at hrec
        | succ g =>
          have hd := columnLoop_dead hx g (cx x).2 hlx
          have := ih (cx x).2 (cy y).2 _ _ hd hrec
          simp only [cutBoth, liveEither] at this
          rw [this]
          simp [zipPad, zipPad_nil_left_pad pa pb LY2 hne]
    · cases hrec : columnLoop cx lx f (cx x).2 with
      | none => simp [hrec] at h1
      | some LX2 =>
        simp only [hrec, Option.map_some', Option.some.injEq] at h2 h1
        subst h1; subst h2
        have hne := columnLoop_ne_nil cx lx f _ _ hrec
        cases f with
        | zero => simp [columnLoop] at hrec
        | succ g =>
          have hd := columnLoop_dead hy g (cy y).2 hly
          have := ih (cx x).2 (cy y).2 _ _ hrec hd
          simp only [cutBoth, liveEither] at this
          rw [this]
          simp [zipPad, zipPad_nil_right_pad pa pb LX2 hne]
    · cases hrx : columnLoop cx lx f (cx x).2 with
      | none => simp [hrx] at h1
      | some LX2 =>
        cases hry : columnLoop cy ly f (cy y).2 with
        | none => simp [hry] at h2
        | some LY2 =>
          simp only [hrx, hry, Option.map_some', Option.some.injEq] at h2 h1
          subst h1; subst h2
          have := ih (cx x).2 (cy y).2 _ _ hrx hry
          simp only [cutBoth, liveEither] at this
          rw [this]
          simp [zipPad]

/-! ## Termination of the single-column loop and facts about `zipPad` -/

theorem print1ColumnLoop_some (l1 : Nat) (h : 0 < l1) : ∀ fuel pc1, textLen pc1 < fuel →
    ∃ L, print1ColumnLoop l1 fuel pc1 = some L := by
  intro fuel
  induction fuel with
  | zero => intro pc1 hf; omega
  | succ f ih =>
    intro pc1 hf
    unfold print1ColumnLoop
    simp only []
    cases hr : (cutToWhiteSpace pc1 l1).2 with
    | none => simp
    | some r =>
      have hlt := cutToWhiteSpace_rest_lt pc1 l1 h r hr
      obtain ⟨L, hL⟩ := ih (some r) (by simp only [textLen]; omega)
      simp [hL]

theorem print1ColumnLoop_length_le (l1 : Nat) : ∀ fuel pc1 L,
    print1ColumnLoop l1 fuel pc1 = some L → ∀ seg ∈ L, seg.length ≤ l1 := by
  intro fuel
  induction fuel with
  | zero => intro pc1 L h; simp [print1ColumnLoop] at h
  | succ f ih =>
    intro pc1 L h seg hseg
    unfold print1ColumnLoop at h
    simp only [] at h
    have hcut : (printfArg (cutToWhiteSpace pc1 l1).1).length ≤ l1 :=
      le_trans (printfArg_length_le _) (cutToWhiteSpace_length_le pc1 l1)
    split at h
    · cases hrec : print1ColumnLoop l1 f (cutToWhiteSpace pc1 l1).2 with
      | none => simp [hrec] at h
      | some L2 =>
        simp only [hrec, Option.map_some', Option.some.injEq] at h
        subst h
        rcases List.mem_cons.1 hseg with h1 | h1
        · rw [h1]; exact hcut
        · exact ih _ _ hrec seg h1
    · simp only [Option.some.injEq] at h
      subst h
      simp only [List.mem_singleton] at hseg
      rw [hseg]; exact hcut

theorem zipPad_length {α β : Type} (pa : α) (pb : β) : ∀ (LA : List α) (LB : List β),
    (zipPad pa pb LA LB).length = max LA.length LB.length := by
  intro LA
  induction LA with
  | nil =>
    intro LB
    induction LB with
    | nil => simp [zipPad]
    | cons b bs ihb => simp [zipPad] at ihb ⊢; exact ihb
  | cons a as ih =>
    intro LB
    cases LB with
    | nil => have := ih []; simp [zipPad] at this ⊢; exact this
    | cons b bs => have := ih bs; simp [zipPad, this]; omega

theorem zipPad_getD {α β : Type} (pa : α) (pb : β) : ∀ (LA : List α) (LB : List β) (k : Nat),
    (zipPad pa pb LA LB).getD k (pa, pb) = (LA.getD k pa, LB.getD k pb) := by
  intro LA
  induction LA with
  | nil =>
    intro LB
    induction LB with
    | nil => intro k; simp [zipPad]
    | cons b bs ihb =>
      intro k
      cases k with
      | zero => simp [zipPad]
      | succ k => have := ihb k; simp [zipPad] at this ⊢; exact this
  | cons a as ih =>
    intro LB k
    cases LB with
    | nil =>
      cases k with
      | zero => simp [zipPad]
      | succ k => have := ih [] k; simp [zipPad] at this ⊢; exact this
    | cons b bs =>
      cases k with
      | zero => simp [zipPad]
      | succ k => have := ih bs k; simp [zipPad] at this ⊢; exact this

theorem zipPad_mem {α β : Type} (pa : α) (pb : β) : ∀ (LA : List α) (LB : List β) (p : α × β),
    p ∈ zipPad pa pb LA LB → (p.1 ∈ LA ∨ p.1 = pa) ∧ (p.2 ∈ LB ∨ p.2 = pb) := by
  intro LA
  induction LA with
  | nil =>
    intro LB
    induction LB with
    | nil => intro p hp; simp [zipPad] at hp
    | cons b bs ihb =>
      intro p hp
      simp only [zipPad, List.mem_cons] at hp
      rcases hp with h | h
      · subst h; simp
      · have := ihb p h
        simp only [List.not_mem_nil, false_or] at this
        simp [this.1]
        rcases this.2 with h2 | h2
        · exact Or.inl (Or.inr h2)
        · exact Or.inr h2
  | cons a as ih =>
    intro LB p hp
    cases LB with
    | nil =>
      simp only [zipPad, List.mem_cons] at hp
      rcases hp with h | h
      · subst h; simp
      · have := ih [] p h
        simp only [List.not_mem_nil, false_or] at this
        simp [this.2]
        rcases this.1 with h2 | h2
        · exact Or.inl (Or.inr h2)
        · exact Or.inr h2
    | cons b bs =>
      simp only [zipPad, List.mem_cons] at hp
      rcases hp with h | h
      · subst h; simp
      · have := ih bs p h
        constructor
        · rcases this.1 with h2 | h2
          · exact Or.inl (List.mem_cons_of_mem _ h2)
          · exact Or.inr h2
        · rcases this.2 with h2 | h2
          · exact Or.inl (List.mem_cons_of_mem _ h2)
          · exact Or.inr h2

theorem print2Columns_eq_zipPad (l1 l2 fuel : Nat) (c1 c2 : Option CString) (L1 L2 : List CString)
    (h1 : print1Column fuel l1 c1 = some L1) (h2 : print1Column fuel l2 c2 = some L2) :
    print2Columns fuel l1 l2 c1 c2 = some (zipPad [] [] L1 L2) := by
  unfold print1Column at h1 h2
  unfold print2Columns
  rw [print1ColumnLoop_eq] at h1 h2
  rw [print2ColumnsLoop_eq]
  exact columnLoop_cutBoth (column_absorbing l1) (column_absorbing l2) fuel c1 c2 L1 L2 h1 h2

theorem print3Columns_eq_zipPad (l1 l2 l3 fuel : Nat) (c1 c2 c3 : Option CString)
    (L1 L2 L3 : List CString)
    (h1 : print1Column fuel l1 c1 = some L1) (h2 : print1Column fuel l2 c2 = some L2)
    (h3 : print1Column fuel l3 c3 = some L3) :
    print3Columns fuel l1 l2 l3 c1 c2 c3 = some (zipPad [] ([], []) L1 (zipPad [] [] L2 L3)) := by
  unfold print1Column at h1 h2 h3
  unfold print3Columns
  rw [print1ColumnLoop_eq] at h1 h2 h3
  rw [print3ColumnsLoop_eq]
  have h23 := columnLoop_cutBoth (column_absorbing l2) (column_absorbing l3) fuel c2 c3 L2 L3 h2 h3
  exact columnLoop_cutBoth (column_absorbing l1)
    (cutBoth_absorbing (column_absorbing l2) (column_absorbing l3)) fuel c1 (c2, c3) L1 _ h1 h23

/-! ## Words survive soft wrapping -/

theorem wordsAux_append_blank (sep : Char) (hsep : isBlank sep = true) (b : CString) :
    ∀ (a cur : CString), wordsAux cur (a ++ sep :: b) = wordsAux cur a ++ words b := by
  intro a
  induction a with
  | nil =>
    intro cur
    by_cases hcur : cur = [] <;> simp [wordsAux, hsep, hcur, words]
  | cons c cs ih =>
    intro cur
    by_cases hb : isBlank c = true
    · by_cases hcur : cur = [] <;> simp [wordsAux, hb, hcur, ih]
    · simp [wordsAux, hb, ih]

theorem words_append_blank (sep : Char) (hsep : isBlank sep = true) (a b : CString) :
    words (a ++ sep :: b) = words a ++ words b :=
  wordsAux_append_blank sep hsep b a []

theorem words_joinSegments_cons (x : CString) (L : List CString) (hL : L ≠ []) :
    words (joinSegments (x :: L)) = words x ++ words (joinSegments L) := by
  cases L with
  | nil => exact absurd rfl hL
  | cons t ss =>
    simp only [joinSegments]
    exact words_append_blank ' ' (by decide) x _

theorem split_at_index (s : CString) (j : Nat) (hj : j < s.length) :
    s = s.take j ++ s.getD j NUL :: s.drop (j + 1) := by
  have h1 : s.getD j NUL = s[j] := by simp [List.getD_eq_getElem?_getD, hj]
  rw [h1, ← List.drop_eq_getElem_cons hj, List.take_append_drop]

theorem cutPoint_soft (s : CString) (offset : Nat) (hlen : offset < s.length)
    (hsoft : hardCut (some s) offset = false) :
    ∃ sep, isBlank sep = true ∧
      s = s.take (cutPoint s offset).1 ++ sep :: s.drop (cutPoint s offset).2 := by
  have h1 := scanNewline_le s offset offset 0 (Nat.zero_le _)
  have h2 := scanSpace_le s offset
  simp only [hardCut, hlen, decide_True, Bool.true_and, Bool.and_eq_false_iff,
    decide_eq_false_iff_not] at hsoft
  unfold cutPoint
  simp only []
  by_cases hj : scanNewline s offset offset 0 = offset
  · have hne : scanSpace s offset ≠ 0 := by
      rcases hsoft with h | h
      · exact absurd hj h
      · exact h
    rw [if_pos hj, if_neg hne]
    refine ⟨s.getD (scanSpace s offset) NUL, ?_, split_at_index s _ (by omega)⟩
    rw [scanSpace_found s offset hne]; decide
  · rw [if_neg hj]
    have hlt : scanNewline s offset offset 0 < offset := lt_of_le_of_ne h1 hj
    refine ⟨s.getD (scanNewline s offset offset 0) NUL, ?_, split_at_index s _ (by omega)⟩
    rw [scanNewline_found s offset offset 0 (by omega) hlt]; decide

theorem printfArg_eq (cbuf : CString) (h : NUL ∉ cbuf) : printfArg cbuf = cbuf := by
  cases cbuf with
  | nil => simp [printfArg]
  | cons c cs =>
    have : c ≠ NUL := fun hc => h (by simp [hc])
    simp [printfArg, this]

theorem print1ColumnLoop_words (l1 : Nat) (h : 0 < l1) : ∀ fuel (pc1 : Option CString),
    (∀ s, pc1 = some s → NUL ∉ s) → textLen pc1 < fuel → noHardCut l1 fuel pc1 = true →
    ∃ L, print1ColumnLoop l1 fuel pc1 = some L ∧ words (joinSegments L) = words (pc1.getD []) := by
  intro fuel
  induction fuel with
  | zero => intro pc1 _ hf; omega
  | succ f ih =>
    intro pc1 hnul hf hcut
    cases pc1 with
    | none =>
      refine ⟨[[]], ?_, ?_⟩
      · simp [print1ColumnLoop, cutToWhiteSpace, printfArg]
      · simp [joinSegments]
    | some s =>
      have hs : NUL ∉ s := hnul s rfl
      by_cases hlen : s.length ≤ l1
      · refine ⟨[s], ?_, ?_⟩
        · simp [print1ColumnLoop, cutToWhiteSpace, hlen, printfArg_eq s hs]
        · simp [joinSegments]
      · have hlen2 : l1 < s.length := by omega
        have hcutv : cutToWhiteSpace (some s) l1 =
            (s.take (cutPoint s l1).1, some (s.drop (cutPoint s l1).2)) := by
          simp [cutToWhiteSpace, hlen]
        simp only [noHardCut, hcutv, Option.isSome_some, if_true, Bool.and_eq_true,
          Bool.not_eq_true'] at hcut
        obtain ⟨sep, hsep, hsplit⟩ := cutPoint_soft s l1 hlen2 hcut.1
        have hrest : (s.drop (cutPoint s l1).2).length < s.length := by
          have := cutPoint_snd_pos s l1 h
          simp only [List.length_drop]; omega
        obtain ⟨L, hL, hw⟩ := ih (some (s.drop (cutPoint s l1).2))
          (by
            intro t ht
            simp only [Option.some.injEq] at ht
            subst ht
            exact fun hm => hs (List.mem_of_mem_drop hm))
          (by simp only [textLen] at hf ⊢; omega) hcut.2
        have hLne : L ≠ [] := by
          rw [print1ColumnLoop_eq] at hL
          exact columnLoop_ne_nil _ _ _ _ _ hL
        have htake : NUL ∉ s.take (cutPoint s l1).1 := fun hm => hs (List.mem_of_mem_take hm)
        refine ⟨s.take (cutPoint s l1).1 :: L, ?_, ?_⟩
        · simp [print1ColumnLoop, hcutv, hL, printfArg_eq _ htake]
        · rw [words_joinSegments_cons _ _ hLne, hw]
          simp only [Option.getD_some]
          conv_rhs => rw [hsplit]
          rw [words_append_blank sep hsep]

/-! ## The claims about the column formatter -/

/-- C1: for all widths above zero and all texts (absent ones included), every
segment the wrap step leaves in its buffer, and every cell that `print1Column`,
`print2Columns` and `print3Columns` print, has at most as many characters as the
width of its column; the loops do produce their lines once the fuel exceeds the
lengths of the texts. -/
theorem wrapped_segments_fit_width (l1 l2 l3 : Nat) (h1 : 0 < l1) (h2 : 0 < l2) (h3 : 0 < l3)
    (c1 c2 c3 : Option CString) (fuel : Nat)
    (hf1 : textLen c1 < fuel) (hf2 : textLen c2 < fuel) (hf3 : textLen c3 < fuel) :
    (∀ pc : Option CString, (cutToWhiteSpace pc l1).1.length ≤ l1) ∧
    (∃ L, print1Column fuel l1 c1 = some L ∧ ∀ seg ∈ L, seg.length ≤ l1) ∧
    (∃ L, print2Columns fuel l1 l2 c1 c2 = some L ∧
      ∀ ln ∈ L, ln.1.length ≤ l1 ∧ ln.2.length ≤ l2) ∧
    (∃ L, print3Columns fuel l1 l2 l3 c1 c2 c3 = some L ∧
      ∀ ln ∈ L, ln.1.length ≤ l1 ∧ ln.2.1.length ≤ l2 ∧ ln.2.2.length ≤ l3) := by
  obtain ⟨L1, hL1⟩ := print1ColumnLoop_some l1 h1 fuel c1 hf1
  obtain ⟨L2, hL2⟩ := print1ColumnLoop_some l2 h2 fuel c2 hf2
  obtain ⟨L3, hL3⟩ := print1ColumnLoop_some l3 h3 fuel c3 hf3
  have b1 := print1ColumnLoop_length_le l1 fuel c1 L1 hL1
  have b2 := print1ColumnLoop_length_le l2 fuel c2 L2 hL2
  have b3 := print1ColumnLoop_length_le l3 fuel c3 L3 hL3
  have e1 : ∀ x : CString, (x ∈ L1 ∨ x = []) → x.length ≤ l1 := by
    intro x hx; rcases hx with h | h
    · exact b1 x h
    · subst h; simp
  have e2 : ∀ x : CString, (x ∈ L2 ∨ x = []) → x.length ≤ l2 := by
    intro x hx; rcases hx with h | h
    · exact b2 x h
    · subst h; simp
  have e3 : ∀ x : CString, (x ∈ L3 ∨ x = []) → x.length ≤ l3 := by
    intro x hx; rcases hx with h | h
    · exact b3 x h
    · subst h; simp
  refine ⟨fun pc => cutToWhiteSpace_length_le pc l1, ⟨L1, hL1, b1⟩, ⟨_, print2Columns_eq_zipPad l1 l2 fuel c1 c2 L1 L2 hL1 hL2, ?_⟩,
    ⟨_, print3Columns_eq_zipPad l1 l2 l3 fuel c1 c2 c3 L1 L2 L3 hL1 hL2 hL3, ?_⟩⟩
  · intro ln hln
    have := zipPad_mem _ _ _ _ ln hln
    exact ⟨e1 _ this.1, e2 _ this.2⟩
  · intro ln hln
    have hm := zipPad_mem _ _ _ _ ln hln
    refine ⟨e1 _ hm.1, ?_⟩
    rcases hm.2 with h | h
    · have hm2 := zipPad_mem _ _ _ _ ln.2 h
      exact ⟨e2 _ hm2.1, e3 _ hm2.2⟩
    · rw [h]; simp

/-- Witness of C1 at widths 3, 4, 5 with a text made of one long word, an absent
text and a text with spaces and a newline. -/
theorem wrapped_segments_fit_width_witness :
    (∀ pc : Option CString, (cutToWhiteSpace pc 3).1.length ≤ 3) ∧
    (∃ L, print1Column 12 3 (some "abcdefgh".toList) = some L ∧ ∀ seg ∈ L, seg.length ≤ 3) ∧
    (∃ L, print2Columns 12 3 4 (some "abcdefgh".toList) none = some L ∧
      ∀ ln ∈ L, ln.1.length ≤ 3 ∧ ln.2.length ≤ 4) ∧
    (∃ L, print3Columns 12 3 4 5 (some "abcdefgh".toList) none (some "ab cd\nef gh".toList)
        = some L ∧
      ∀ ln ∈ L, ln.1.length ≤ 3 ∧ ln.2.1.length ≤ 4 ∧ ln.2.2.length ≤ 5) :=
  wrapped_segments_fit_width 3 4 5 (by decide) (by decide) (by decide)
    (some "abcdefgh".toList) none (some "ab cd\nef gh".toList) 12
    (by decide) (by decide) (by decide)

/-- C2: for every width above zero and every text (a C string, so without NUL),
if no wrap step takes the hard-cut branch, the words of the emitted segments
joined by single spaces are exactly the words of the original text, in the same
order. -/
theorem soft_wrap_preserves_words (l1 : Nat) (h : 0 < l1) (c1 : Option CString)
    (hc : ∀ s, c1 = some s → NUL ∉ s) (fuel : Nat) (hf : textLen c1 < fuel)
    (hsoft : noHardCut l1 fuel c1 = true) :
    ∃ L, print1Column fuel l1 c1 = some L ∧ words (joinSegments L) = words (c1.getD []) :=
  print1ColumnLoop_words l1 h fuel c1 hc hf hsoft

/-- Witness of C2: a text with spaces and a newline wrapped at width 5. -/
theorem soft_wrap_preserves_words_witness :
    ∃ L, print1Column 20 5 (some "ab cd\nef gh ij".toList) = some L ∧
      words (joinSegments L) = words ((some "ab cd\nef gh ij".toList).getD []) :=
  soft_wrap_preserves_words 5 (by decide) (some "ab cd\nef gh ij".toList)
    (by decide) 20 (by decide) (by decide)

/-- C3: for widths above zero, `print2Columns` and `print3Columns` emit as many
lines as the longest of their columns takes when `print1Column` prints it alone
at its own width; an absent text takes one line. -/
theorem multi_column_line_count (l1 l2 l3 : Nat) (h1 : 0 < l1) (h2 : 0 < l2) (h3 : 0 < l3)
    (c1 c2 c3 : Option CString) (fuel : Nat)
    (hf1 : textLen c1 < fuel) (hf2 : textLen c2 < fuel) (hf3 : textLen c3 < fuel) :
    ∃ L1 L2 L3 L12 L123,
      print1Column fuel l1 c1 = some L1 ∧ print1Column fuel l2 c2 = some L2 ∧
      print1Column fuel l3 c3 = some L3 ∧
      print2Columns fuel l1 l2 c1 c2 = some L12 ∧
      print3Columns fuel l1 l2 l3 c1 c2 c3 = some L123 ∧
      L12.length = max L1.length L2.length ∧
      L123.length = max L1.length (max L2.length L3.length) ∧
      print1Column fuel l1 none = some [[]] := by
  obtain ⟨L1, hL1⟩ := print1ColumnLoop_some l1 h1 fuel c1 hf1
  obtain ⟨L2, hL2⟩ := print1ColumnLoop_some l2 h2 fuel c2 hf2
  obtain ⟨L3, hL3⟩ := print1ColumnLoop_some l3 h3 fuel c3 hf3
  refine ⟨L1, L2, L3, _, _, hL1, hL2, hL3, print2Columns_eq_zipPad l1 l2 fuel c1 c2 L1 L2 hL1 hL2,
    print3Columns_eq_zipPad l1 l2 l3 fuel c1 c2 c3 L1 L2 L3 hL1 hL2 hL3, ?_, ?_, ?_⟩
  · exact zipPad_length _ _ _ _
  · rw [zipPad_length, zipPad_length]
  · cases fuel with
    | zero => omega
    | succ f => simp [print1Column, print1ColumnLoop, cutToWhiteSpace, printfArg]

/-- Witness of C3: a three-line column beside a one-line and an absent one. -/
theorem multi_column_line_count_witness :
    ∃ L1 L2 L3 L12 L123,
      print1Column 12 3 (some "abcdefgh".toList) = some L1 ∧
      print1Column 12 4 (some "ab".toList) = some L2 ∧
      print1Column 12 5 none = some L3 ∧
      print2Columns 12 3 4 (some "abcdefgh".toList) (some "ab".toList) = some L12 ∧
      print3Columns 12 3 4 5 (some "abcdefgh".toList) (some "ab".toList) none = some L123 ∧
      L12.length = max L1.length L2.length ∧
      L123.length = max L1.length (max L2.length L3.length) ∧
      print1Column 12 3 none = some [[]] :=
  multi_column_line_count 3 4 5 (by decide) (by decide) (by decide)
    (some "abcdefgh".toList) (some "ab".toList) none 12 (by decide) (by decide) (by decide)

/-- C4: for widths above zero, the cell that `print2Columns` or `print3Columns`
prints for a column on line `k` is the `k`-th segment `print1Column` prints for
that column's text alone at that column's width, and the empty string on every
line after that column is exhausted: the output is the row-wise zip of the
single-column outputs padded with empty strings. -/
theorem multi_column_rows_are_zipped_columns (l1 l2 l3 : Nat)
    (h1 : 0 < l1) (h2 : 0 < l2) (h3 : 0 < l3)
    (c1 c2 c3 : Option CString) (fuel : Nat)
    (hf1 : textLen c1 < fuel) (hf2 : textLen c2 < fuel) (hf3 : textLen c3 < fuel) :
    ∃ L1 L2 L3 L12 L123,
      print1Column fuel l1 c1 = some L1 ∧ print1Column fuel l2 c2 = some L2 ∧
      print1Column fuel l3 c3 = some L3 ∧
      print2Columns fuel l1 l2 c1 c2 = some L12 ∧
      print3Columns fuel l1 l2 l3 c1 c2 c3 = some L123 ∧
      L12 = zipPad [] [] L1 L2 ∧
      L123 = zipPad [] ([], []) L1 (zipPad [] [] L2 L3) ∧
      (∀ k, L12.getD k ([], []) = (L1.getD k [], L2.getD k [])) ∧
      (∀ k, L123.getD k ([], [], []) = (L1.getD k [], L2.getD k [], L3.getD k [])) ∧
      (∀ k, L1.length ≤ k → (L12.getD k ([], [])).1 = [] ∧ (L123.getD k ([], [], [])).1 = []) ∧
      (∀ k, L2.length ≤ k → (L12.getD k ([], [])).2 = [] ∧ (L123.getD k ([], [], [])).2.1 = []) ∧
      (∀ k, L3.length ≤ k → (L123.getD k ([], [], [])).2.2 = []) := by
  obtain ⟨L1, hL1⟩ := print1ColumnLoop_some l1 h1 fuel c1 hf1
  obtain ⟨L2, hL2⟩ := print1ColumnLoop_some l2 h2 fuel c2 hf2
  obtain ⟨L3, hL3⟩ := print1ColumnLoop_some l3 h3 fuel c3 hf3
  have g2 : ∀ k, (zipPad [] [] L1 L2).getD k ([], []) = (L1.getD k [], L2.getD k []) :=
    fun k => zipPad_getD _ _ _ _ k
  have g3 : ∀ k, (zipPad [] ([], []) L1 (zipPad [] [] L2 L3)).getD k ([], [], [])
      = (L1.getD k [], L2.getD k [], L3.getD k []) := by
    intro k
    rw [zipPad_getD, zipPad_getD]
  have d : ∀ (L : List CString) (k : Nat), L.length ≤ k → L.getD k [] = [] := by
    intro L k hk
    simp [List.getD_eq_getElem?_getD, List.getElem?_eq_none hk]
  refine ⟨L1, L2, L3, _, _, hL1, hL2, hL3, print2Columns_eq_zipPad l1 l2 fuel c1 c2 L1 L2 hL1 hL2,
    print3Columns_eq_zipPad l1 l2 l3 fuel c1 c2 c3 L1 L2 L3 hL1 hL2 hL3, rfl, rfl, g2, g3,
    ?_, ?_, ?_⟩
  · intro k hk; rw [g2, g3]; exact ⟨d L1 k hk, d L1 k hk⟩
  · intro k hk; rw [g2, g3]; exact ⟨d L2 k hk, d L2 k hk⟩
  · intro k hk; rw [g3]; exact d L3 k hk

/-- Witness of C4: a three-line column beside a one-line and an absent one. -/
theorem multi_column_rows_are_zipped_columns_witness :
    ∃ L1 L2 L3 L12 L123,
      print1Column 12 3 (some "abcdefgh".toList) = some L1 ∧
      print1Column 12 4 (some "ab".toList) = some L2 ∧
      print1Column 12 5 none = some L3 ∧
      print2Columns 12 3 4 (some "abcdefgh".toList) (some "ab".toList) = some L12 ∧
      print3Columns 12 3 4 5 (some "abcdefgh".toList) (some "ab".toList) none = some L123 ∧
      L12 = zipPad [] [] L1 L2 ∧
      L123 = zipPad [] ([], []) L1 (zipPad [] [] L2 L3) ∧
      (∀ k, L12.getD k ([], []) = (L1.getD k [], L2.getD k [])) ∧
      (∀ k, L123.getD k ([], [], []) = (L1.getD k [], L2.getD k [], L3.getD k [])) ∧
      (∀ k, L1.length ≤ k → (L12.getD k ([], [])).1 = [] ∧ (L123.getD k ([], [], [])).1 = []) ∧
      (∀ k, L2.length ≤ k → (L12.getD k ([], [])).2 = [] ∧ (L123.getD k ([], [], [])).2.1 = []) ∧
      (∀ k, L3.length ≤ k → (L123.getD k ([], [], [])).2.2 = []) :=
  multi_column_rows_are_zipped_columns 3 4 5 (by decide) (by decide) (by decide)
    (some "abcdefgh".toList) (some "ab".toList) none 12 (by decide) (by decide) (by decide)

/-! ## The loop of `main`: termination and an induction principle -/

theorem loopBody_again_shorter {σ : Type} (lib : TidyLib σ) (pf : Platform)
    (prog : Option CString) (st st1 : MainState σ) (hpos : 0 < st.argv.length)
    (h : loopBody lib pf prog st = .again st1) : st1.argv.length < st.argv.length := by
  unfold loopBody at h
  split at h
  · next hc =>
    split at h
    · cases h
    · next tdoc errfil errout extra calls _ =>
      simp only [Round.again.injEq] at h
      subst h
      cases extra <;> simp <;> omega
  · simp only [] at h
    split at h
    · cases h
    · simp only [Round.again.injEq] at h
      subst h
      simp [processSource]
      omega

theorem mainLoop_total {σ : Type} (lib : TidyLib σ) (pf : Platform) (prog : Option CString) :
    ∀ fuel (st : MainState σ), st.argv.length < fuel →
      ∃ out, mainLoop lib pf prog fuel st = some out := by
  intro fuel
  induction fuel with
  | zero => intro st h; omega
  | succ f ih =>
    intro st h
    unfold mainLoop
    split
    · next hpos =>
      cases hb : loopBody lib pf prog st with
      | exit out => exact ⟨out, rfl⟩
      | again st1 =>
        have := loopBody_again_shorter lib pf prog st st1 hpos hb
        exact ih st1 (by omega)
      | leave st1 => exact ⟨_, rfl⟩
    · exact ⟨_, rfl⟩

theorem mainLoop_induct {σ : Type} (lib : TidyLib σ) (pf : Platform) (prog : Option CString)
    (P : MainState σ → Prop) (Q : Outcome σ → Prop)
    (hexit : ∀ st out, P st → 0 < st.argv.length → loopBody lib pf prog st = .exit out → Q out)
    (hagain : ∀ st st1, P st → 0 < st.argv.length → loopBody lib pf prog st = .again st1 → P st1)
    (hleave : ∀ st st1, P st → 0 < st.argv.length → loopBody lib pf prog st = .leave st1 →
      Q (finalize lib st1))
    (hend : ∀ st, P st → st.argv.length = 0 → Q (finalize lib st)) :
    ∀ fuel (st : MainState σ) out, P st → mainLoop lib pf prog fuel st = some out → Q out := by
  intro fuel
  induction fuel with
  | zero => intro st out _ h; simp [mainLoop] at h
  | succ f ih =>
    intro st out hP h
    unfold mainLoop at h
    split at h
    · next hpos =>
      cases hb : loopBody lib pf prog st with
      | exit o =>
        simp only [hb, Option.some.injEq] at h
        subst h
        exact hexit st o hP hpos hb
      | again st1 =>
        simp only [hb] at h
        exact ih st1 out (hagain st st1 hP hpos hb) h
      | leave st1 =>
        simp only [hb, Option.some.injEq] at h
        subst h
        exact hleave st st1 hP hpos hb
    · next hz =>
      simp only [Option.some.injEq] at h
      subst h
      exact hend st hP (by omega)

theorem loadConfigAtStart_spec {σ : Type} (lib : TidyLib σ) (file : CString) (argv : List CString)
    (tdoc : σ) (status : Int) (calls : List Call) :
    ∃ (calls1 : List Call) (tdoc1 : σ) (status1 : Int),
      loadConfigAtStart lib file (loopEntry argv tdoc status calls) =
        loopEntry argv tdoc1 status1 calls1 := by
  by_cases h : (lib.tidyLoadConfig tdoc file).1 ≠ 0
  · exact ⟨calls ++ [.loadConfig file, .loadConfigError file (lib.tidyLoadConfig tdoc file).1],
      (lib.tidyLoadConfig tdoc file).2, (lib.tidyLoadConfig tdoc file).1,
      by simp [loadConfigAtStart, loopEntry, h]⟩
  · exact ⟨calls ++ [.loadConfig file], (lib.tidyLoadConfig tdoc file).2,
      (lib.tidyLoadConfig tdoc file).1, by simp [loadConfigAtStart, loopEntry, h]⟩

theorem startup_spec {σ : Type} (lib : TidyLib σ) (pf : Platform) (tdoc : σ)
    (argv : List CString) :
    ∃ (calls : List Call) (tdoc1 : σ) (status : Int),
      startup lib pf tdoc argv = loopEntry argv tdoc1 status calls := by
  unfold startup
  simp only []
  have h0 : ∃ (calls : List Call) (tdoc1 : σ) (status : Int),
      (match pf.TIDY_CONFIG_FILE with
        | some f =>
          if lib.tidyFileExists (loopEntry argv tdoc 0 []).tdoc f then
            loadConfigAtStart lib f (loopEntry argv tdoc 0 [])
          else loopEntry argv tdoc 0 []
        | none => loopEntry argv tdoc 0 []) = loopEntry argv tdoc1 status calls := by
    split
    · split
      · exact loadConfigAtStart_spec lib _ argv tdoc 0 []
      · exact ⟨[], tdoc, 0, rfl⟩
    · exact ⟨[], tdoc, 0, rfl⟩
  obtain ⟨calls, tdoc1, status, h1⟩ := h0
  rw [h1]
  split
  · exact loadConfigAtStart_spec lib _ argv tdoc1 status calls
  · split
    · split
      · exact loadConfigAtStart_spec lib _ argv tdoc1 status calls
      · exact ⟨calls, tdoc1, status, rfl⟩
    · exact ⟨calls, tdoc1, status, rfl⟩

theorem tidyMain_total {σ : Type} (lib : TidyLib σ) (pf : Platform) (tdoc : σ)
    (argv : List CString) : ∃ out, tidyMain lib pf tdoc argv = some out := by
  unfold tidyMain
  apply mainLoop_total
  obtain ⟨calls, tdoc1, status, h⟩ := startup_spec lib pf tdoc argv
  rw [h]
  simp [loopEntry]

/-! ## Events of the steps -/

theorem errorSum_append (a b : List Event) : errorSum (a ++ b) = errorSum a + errorSum b := by
  simp [errorSum]

theorem warningSum_append (a b : List Event) :
    warningSum (a ++ b) = warningSum a + warningSum b := by
  simp [warningSum]

theorem parseEvents_append (a b : List Event) :
    parseEvents (a ++ b) = parseEvents a ++ parseEvents b := by
  simp [parseEvents]

theorem neutral_nil : Neutral [] := by
  simp [Neutral, errorSum, warningSum, parseEvents]

theorem neutral_append (a b : List Event) (ha : Neutral a) (hb : Neutral b) :
    Neutral (a ++ b) := by
  obtain ⟨a1, a2, a3⟩ := ha
  obtain ⟨b1, b2, b3⟩ := hb
  exact ⟨by rw [errorSum_append, a1, b1], by rw [warningSum_append, a2, b2],
    by rw [parseEvents_append, a3, b3]; rfl⟩

theorem neutral_calls (calls : List Call) : Neutral (calls.map Event.call) := by
  induction calls with
  | nil => exact neutral_nil
  | cons c cs ih =>
    obtain ⟨h1, h2, h3⟩ := ih
    refine ⟨?_, ?_, ?_⟩
    · simpa [errorSum] using h1
    · simpa [warningSum] using h2
    · simp [parseEvents, h3]

theorem repairStep_events {σ : Type} (lib : TidyLib σ) (r : Run σ) :
    ∃ extra, (repairStep lib r).events = r.events ++ extra ∧ Neutral extra := by
  unfold repairStep
  split
  · exact ⟨[.cleanAndRepair], rfl, by simp [Neutral, errorSum, warningSum, parseEvents]⟩
  · exact ⟨[], by simp, neutral_nil⟩

theorem diagnoseStep_events {σ : Type} (lib : TidyLib σ) (r : Run σ) :
    ∃ extra, (diagnoseStep lib r).events = r.events ++ extra ∧ Neutral extra := by
  unfold diagnoseStep
  simp only []
  split
  · split
    · split
      · exact ⟨_, rfl, by simp [Neutral, errorSum, warningSum, parseEvents]⟩
      · exact ⟨_, rfl, by simp [Neutral, errorSum, warningSum, parseEvents]⟩
    · exact ⟨_, rfl, by simp [Neutral, errorSum, warningSum, parseEvents]⟩
  · exact ⟨[], by simp, neutral_nil⟩

theorem forceStep_events {σ : Type} (lib : TidyLib σ) (r : Run σ) :
    (forceStep lib r).events = r.events := by
  unfold forceStep
  split <;> rfl

theorem emitStep_events {σ : Type} (lib : TidyLib σ) (argv : List CString) (r : Run σ) :
    ∃ extra, (emitStep lib argv r).events = r.events ++ extra ∧ Neutral extra := by
  unfold emitStep
  simp only []
  split
  · split
    · exact ⟨_, rfl, by simp [Neutral, errorSum, warningSum, parseEvents]⟩
    · split
      · exact ⟨_, rfl, by simp [Neutral, errorSum, warningSum, parseEvents]⟩
      · exact ⟨_, rfl, by simp [Neutral, errorSum, warningSum, parseEvents]⟩
  · exact ⟨[], by simp, neutral_nil⟩

theorem sourceRun_events {σ : Type} (lib : TidyLib σ) (argv : List CString) (tdoc : σ) :
    ∃ extra, (sourceRun lib argv tdoc).events = (parseStep lib argv tdoc).events ++ extra ∧
      Neutral extra := by
  unfold sourceRun
  obtain ⟨e1, h1, n1⟩ := repairStep_events lib (parseStep lib argv tdoc)
  obtain ⟨e2, h2, n2⟩ := diagnoseStep_events lib (repairStep lib (parseStep lib argv tdoc))
  obtain ⟨e3, h3, n3⟩ := emitStep_events lib argv
    (forceStep lib (diagnoseStep lib (repairStep lib (parseStep lib argv tdoc))))
  refine ⟨e1 ++ (e2 ++ e3), ?_, neutral_append _ _ n1 (neutral_append _ _ n2 n3)⟩
  rw [h3, forceStep_events, h2, h1]
  simp

theorem parseStep_sums {σ : Type} (lib : TidyLib σ) (argv : List CString) (tdoc : σ) :
    errorSum (parseStep lib argv tdoc).events = 0 ∧
      warningSum (parseStep lib argv tdoc).events = 0 := by
  unfold parseStep
  simp only []
  split
  · split <;> simp [errorSum, warningSum]
  · simp [errorSum, warningSum]

theorem parseStep_parseEvents {σ : Type} (lib : TidyLib σ) (argv : List CString) (tdoc : σ) :
    parseEvents (parseStep lib argv tdoc).events =
      [if argv.length > 1 then Event.parseFile (argv.getD 1 []) else Event.parseStdin] := by
  unfold parseStep
  simp only []
  split
  · split <;> simp [parseEvents]
  · simp [parseEvents]

theorem processSource_sums {σ : Type} (lib : TidyLib σ) (st : MainState σ) :
    errorSum (processSource lib st).trace =
        errorSum st.trace + lib.tidyErrorCount (sourceRun lib st.argv st.tdoc).tdoc ∧
      warningSum (processSource lib st).trace =
        warningSum st.trace + lib.tidyWarningCount (sourceRun lib st.argv st.tdoc).tdoc := by
  obtain ⟨extra, he, hn⟩ := sourceRun_events lib st.argv st.tdoc
  obtain ⟨p1, p2⟩ := parseStep_sums lib st.argv st.tdoc
  simp only [processSource, errorSum_append, warningSum_append, he, hn.1, hn.2.1, p1, p2]
  simp [errorSum, warningSum]

theorem processSource_parseEvents {σ : Type} (lib : TidyLib σ) (st : MainState σ) :
    parseEvents (processSource lib st).trace = parseEvents st.trace ++
      [if st.argv.length > 1 then Event.parseFile (st.argv.getD 1 []) else Event.parseStdin] := by
  obtain ⟨extra, he, hn⟩ := sourceRun_events lib st.argv st.tdoc
  simp only [processSource, parseEvents_append, he, hn.2.2, parseStep_parseEvents]
  simp [parseEvents]

theorem processSource_countsInv {σ : Type} (lib : TidyLib σ) (st : MainState σ)
    (h : CountsInv st) : CountsInv (processSource lib st) := by
  obtain ⟨s1, s2⟩ := processSource_sums lib st
  obtain ⟨h1, h2⟩ := h
  refine ⟨?_, ?_⟩
  · rw [s1]
    simp only [processSource, h1]
    omega
  · rw [s2]
    simp only [processSource, h2]
    omega

/-! ## Rounds of the loop -/

theorem loopBody_dash {σ : Type} (lib : TidyLib σ) (pf : Platform) (prog : Option CString)
    (st : MainState σ) (h : st.argv.length > 1 ∧ (st.argv.getD 1 []).getD 0 NUL = '-') :
    loopBody lib pf prog st =
      match dispatch lib pf prog st.tdoc st.errfil st.errout st.argv with
      | .exit tdoc calls =>
        .exit { code := 0, informational := true,
                final := { st with tdoc := tdoc, trace := st.trace ++ calls.map Event.call } }
      | .next tdoc errfil errout extra calls =>
        .again { st with
          argv := if extra then st.argv.tail.tail else st.argv.tail
          tdoc := tdoc, errfil := errfil, errout := errout
          trace := st.trace ++ calls.map Event.call } := by
  unfold loopBody
  rw [if_pos h]

theorem loopBody_source {σ : Type} (lib : TidyLib σ) (pf : Platform) (prog : Option CString)
    (st : MainState σ) (h : ¬(st.argv.length > 1 ∧ (st.argv.getD 1 []).getD 0 NUL = '-')) :
    loopBody lib pf prog st =
      if (processSource lib st).argv.length ≤ 1 then .leave (processSource lib st)
      else .again (processSource lib st) := by
  unfold loopBody
  rw [if_neg h]

theorem loopBody_again_cases {σ : Type} (lib : TidyLib σ) (pf : Platform)
    (prog : Option CString) (st st1 : MainState σ)
    (h : loopBody lib pf prog st = .again st1) :
    (∃ tdoc errfil errout extra calls,
        (st.argv.length > 1 ∧ (st.argv.getD 1 []).getD 0 NUL = '-') ∧
        dispatch lib pf prog st.tdoc st.errfil st.errout st.argv
          = .next tdoc errfil errout extra calls ∧
        st1 = { st with
          argv := if extra then st.argv.tail.tail else st.argv.tail
          tdoc := tdoc, errfil := errfil, errout := errout
          trace := st.trace ++ calls.map Event.call }) ∨
    (¬(st.argv.length > 1 ∧ (st.argv.getD 1 []).getD 0 NUL = '-') ∧
        st1 = processSource lib st ∧ 1 < st1.argv.length) := by
  by_cases hc : st.argv.length > 1 ∧ (st.argv.getD 1 []).getD 0 NUL = '-'
  · left
    rw [loopBody_dash lib pf prog st hc] at h
    cases hd : dispatch lib pf prog st.tdoc st.errfil st.errout st.argv with
    | exit tdoc calls => rw [hd] at h; cases h
    | next tdoc errfil errout extra calls =>
      rw [hd] at h
      simp only [Round.again.injEq] at h
      exact ⟨tdoc, errfil, errout, extra, calls, hc, rfl, h.symm⟩
  · right
    rw [loopBody_source lib pf prog st hc] at h
    split at h
    · cases h
    · next hlen =>
      simp only [Round.again.injEq] at h
      subst h
      exact ⟨hc, rfl, by omega⟩

theorem loopBody_leave_cases {σ : Type} (lib : TidyLib σ) (pf : Platform)
    (prog : Option CString) (st st1 : MainState σ)
    (h : loopBody lib pf prog st = .leave st1) :
    ¬(st.argv.length > 1 ∧ (st.argv.getD 1 []).getD 0 NUL = '-') ∧
      st1 = processSource lib st ∧ st1.argv.length ≤ 1 := by
  by_cases hc : st.argv.length > 1 ∧ (st.argv.getD 1 []).getD 0 NUL = '-'
  · rw [loopBody_dash lib pf prog st hc] at h
    cases hd : dispatch lib pf prog st.tdoc st.errfil st.errout st.argv with
    | exit tdoc calls => rw [hd] at h; cases h
    | next tdoc errfil errout extra calls => rw [hd] at h; cases h
  · rw [loopBody_source lib pf prog st hc] at h
    split at h
    · next hlen =>
      simp only [Round.leave.injEq] at h
      subst h
      exact ⟨hc, rfl, hlen⟩
    · cases h

theorem loopBody_exit_cases {σ : Type} (lib : TidyLib σ) (pf : Platform)
    (prog : Option CString) (st : MainState σ) (out : Outcome σ)
    (h : loopBody lib pf prog st = .exit out) :
    ∃ tdoc calls,
      (st.argv.length > 1 ∧ (st.argv.getD 1 []).getD 0 NUL = '-') ∧
      dispatch lib pf prog st.tdoc st.errfil st.errout st.argv = .exit tdoc calls ∧
      out = { code := 0, informational := true,
              final := { st with tdoc := tdoc, trace := st.trace ++ calls.map Event.call } } := by
  by_cases hc : st.argv.length > 1 ∧ (st.argv.getD 1 []).getD 0 NUL = '-'
  · rw [loopBody_dash lib pf prog st hc] at h
    cases hd : dispatch lib pf prog st.tdoc st.errfil st.errout st.argv with
    | exit tdoc calls =>
      rw [hd] at h
      simp only [Round.exit.injEq] at h
      exact ⟨tdoc, calls, hc, rfl, h.symm⟩
    | next tdoc errfil errout extra calls => rw [hd] at h; cases h
  · rw [loopBody_source lib pf prog st hc] at h
    split at h <;> cases h

theorem neutral_ite (c : Prop) [Decidable c] (a b : List Event) (ha : Neutral a)
    (hb : Neutral b) : Neutral (if c then a else b) := by
  split <;> assumption

theorem neutral_ite_snd {α : Type} (c : Prop) [Decidable c] (x y : α) (a b : List Event)
    (ha : Neutral a) (hb : Neutral b) : Neutral (if c then (x, a) else (y, b)).2 := by
  split <;> assumption

theorem finalize_spec {σ : Type} (lib : TidyLib σ) (st : MainState σ) :
    (finalize lib st).informational = false ∧
    (finalize lib st).code =
      (if st.contentErrors > 0 then 2 else if st.contentWarnings > 0 then 1 else 0) ∧
    ∃ extra, (finalize lib st).final.trace = st.trace ++ extra ∧ Neutral extra := by
  refine ⟨rfl, rfl, ?_⟩
  unfold finalize
  simp only [List.append_assoc]
  refine ⟨_, rfl, ?_⟩
  refine neutral_append _ _ ?_ (neutral_append _ _ ?_ (neutral_append _ _ ?_ ?_))
  · exact neutral_ite _ _ _ (by simp [Neutral, errorSum, warningSum, parseEvents]) neutral_nil
  · exact neutral_ite_snd _ _ _ _ _ (by simp [Neutral, errorSum, warningSum, parseEvents])
      neutral_nil
  · exact neutral_ite_snd _ _ _ _ _ (by simp [Neutral, errorSum, warningSum, parseEvents])
      neutral_nil
  · exact neutral_calls [.release]

theorem loopEntry_countsInv {σ : Type} (argv : List CString) (tdoc : σ) (status : Int)
    (calls : List Call) : CountsInv (loopEntry argv tdoc status calls) := by
  obtain ⟨h1, h2, _⟩ := neutral_calls calls
  simp [CountsInv, loopEntry, h1, h2]

theorem finalize_code_of_countsInv {σ : Type} (lib : TidyLib σ) (st : MainState σ)
    (h : CountsInv st)
    (he : errorSum (finalize lib st).final.trace < 2 ^ 32)
    (hw : warningSum (finalize lib st).final.trace < 2 ^ 32) :
    (finalize lib st).code =
      if errorSum (finalize lib st).final.trace > 0 then 2
      else if warningSum (finalize lib st).final.trace > 0 then 1 else 0 := by
  obtain ⟨_, hcode, extra, htr, hn⟩ := finalize_spec lib st
  simp only [htr, errorSum_append, warningSum_append, hn.1, hn.2.1, Nat.add_zero] at he hw ⊢
  rw [hcode, h.1, h.2, Nat.mod_eq_of_lt he, Nat.mod_eq_of_lt hw]

/-- C5: a run of `main` always ends, and when it ends after the driver loop (not
by an informational command) the exit status is 2 if the sum of the error
counts of the processed sources is above zero, else 1 if the sum of their
warning counts is above zero, else 0, the sums being below `2 ^ 32`; nothing
else enters the status. -/
theorem exit_status_from_accumulated_counts {σ : Type} (lib : TidyLib σ) (pf : Platform)
    (tdoc : σ) (argv : List CString) (out : Outcome σ)
    (hrun : tidyMain lib pf tdoc argv = some out) (hloop : out.informational = false)
    (he : errorSum out.final.trace < 2 ^ 32) (hw : warningSum out.final.trace < 2 ^ 32) :
    out.code =
      if errorSum out.final.trace > 0 then 2
      else if warningSum out.final.trace > 0 then 1 else 0 := by
  obtain ⟨calls, tdoc1, status, hstart⟩ := startup_spec lib pf tdoc argv
  unfold tidyMain at hrun
  rw [hstart] at hrun
  have key := mainLoop_induct lib pf argv.head? CountsInv
    (fun o => o.informational = false → errorSum o.final.trace < 2 ^ 32 →
      warningSum o.final.trace < 2 ^ 32 →
      o.code = if errorSum o.final.trace > 0 then 2
        else if warningSum o.final.trace > 0 then 1 else 0)
    (by
      intro st o _ _ hb hinf
      obtain ⟨_, _, _, _, ho⟩ := loopBody_exit_cases lib pf _ st o hb
      rw [ho] at hinf
      cases hinf)
    (by
      intro st st1 hP _ hb
      rcases loopBody_again_cases lib pf _ st st1 hb with ⟨_, _, _, _, calls, _, _, h1⟩ | ⟨_, h1, _⟩
      · obtain ⟨n1, n2, _⟩ := neutral_calls calls
        subst h1
        simpa [CountsInv, errorSum_append, warningSum_append, n1, n2] using hP
      · subst h1
        exact processSource_countsInv lib st hP)
    (by
      intro st st1 hP _ hb _ he hw
      obtain ⟨_, h1, _⟩ := loopBody_leave_cases lib pf _ st st1 hb
      subst h1
      exact finalize_code_of_countsInv lib _ (processSource_countsInv lib st hP) he hw)
    (by
      intro st hP _ _ he hw
      exact finalize_code_of_countsInv lib st hP he hw)
    (argv.length + 1) _ out (loopEntry_countsInv argv tdoc1 status calls) hrun
  exact key hloop he hw

/-- Witness of C5: a clean first source and a second source with one error give
the exit status 2. -/
theorem exit_status_from_accumulated_counts_witness :
    ∃ out, refMain ["tidy", "a.html", "bad.html"] = some out ∧ out.informational = false ∧
      errorSum out.final.trace = 1 ∧ warningSum out.final.trace = 0 ∧ out.code = 2 := by
  obtain ⟨out, hout⟩ := tidyMain_total (refLib refFiles refStdin) refPlatform refDoc
    (["tidy", "a.html", "bad.html"].map String.toList)
  have hfacts : (refMain ["tidy", "a.html", "bad.html"]).map
      (fun o => (o.informational, errorSum o.final.trace, warningSum o.final.trace))
      = some (false, 1, 0) := by decide
  unfold refMain at hfacts ⊢
  rw [hout] at hfacts
  simp only [Option.map_some', Option.some.injEq, Prod.mk.injEq] at hfacts
  obtain ⟨h1, h2, h3⟩ := hfacts
  have hcode := exit_status_from_accumulated_counts (refLib refFiles refStdin) refPlatform refDoc
    (["tidy", "a.html", "bad.html"].map String.toList) out hout h1
    (by rw [h2]; decide) (by rw [h3]; decide)
  rw [h2] at hcode
  exact ⟨out, hout, h1, h2, h3, by simpa using hcode⟩

/-! ## Informational commands -/

theorem dispatch_exit_calls {σ : Type} (lib : TidyLib σ) (pf : Platform) (prog : Option CString)
    (tdoc : σ) (errfil : Option CString) (errout : ErrOut) (argv : List CString)
    (tdoc1 : σ) (calls : List Call)
    (h : dispatch lib pf prog tdoc errfil errout argv = .exit tdoc1 calls) :
    ∃ r, calls = [.render r, .release] := by
  unfold dispatch at h
  simp only [] at h
  cases hc : classify pf (argv.getD 1 []) <;> rw [hc] at h <;> simp only [] at h <;>
    first
    | (simp only [Dispatch.exit.injEq] at h; exact ⟨_, h.2.symm⟩)
    | (split at h <;>
        first
        | (simp only [Dispatch.exit.injEq] at h; exact ⟨_, h.2.symm⟩)
        | cases h)
    | cases h

theorem allDash_tail (argv : List CString) (h : AllDash argv) : AllDash argv.tail := by
  intro t ht
  exact h t (List.mem_of_mem_tail ht)

theorem getD_one_mem_tail (argv : List CString) (h : argv.length > 1) :
    argv.getD 1 [] ∈ argv.tail := by
  cases argv with
  | nil => simp at h
  | cons a rest =>
    cases rest with
    | nil => simp at h
    | cons b rest2 => simp

theorem informational_exit_shape {σ : Type} (lib : TidyLib σ) (pf : Platform)
    (prog : Option CString) : ∀ fuel (st : MainState σ) out,
    mainLoop lib pf prog fuel st = some out → out.informational = true →
      out.code = 0 ∧ ∃ pre r, out.final.trace = pre ++ [.call (.render r), .call .release] := by
  intro fuel st out hrun
  refine mainLoop_induct lib pf prog (fun _ => True)
    (fun o => o.informational = true →
      o.code = 0 ∧ ∃ pre r, o.final.trace = pre ++ [.call (.render r), .call .release])
    ?_ ?_ ?_ ?_ fuel st out trivial hrun
  · intro st o _ _ hb _
    obtain ⟨tdoc, calls, _, hd, ho⟩ := loopBody_exit_cases lib pf _ st o hb
    obtain ⟨r, hr⟩ := dispatch_exit_calls lib pf _ _ _ _ _ _ _ hd
    subst ho
    subst hr
    exact ⟨rfl, st.trace, r, rfl⟩
  · intro _ _ _ _ _; trivial
  · intro st st1 _ _ _ hinf
    rw [(finalize_spec lib st1).1] at hinf
    cases hinf
  · intro st _ _ hinf
    rw [(finalize_spec lib st).1] at hinf
    cases hinf

theorem informational_exit_no_parse {σ : Type} (lib : TidyLib σ) (pf : Platform)
    (prog : Option CString) : ∀ fuel (st : MainState σ) out,
    AllDash st.argv → parseEvents st.trace = [] →
    mainLoop lib pf prog fuel st = some out → out.informational = true →
      parseEvents out.final.trace = [] := by
  intro fuel st out hd hp hrun
  refine mainLoop_induct lib pf prog (fun s => AllDash s.argv ∧ parseEvents s.trace = [])
    (fun o => o.informational = true → parseEvents o.final.trace = [])
    ?_ ?_ ?_ ?_ fuel st out ⟨hd, hp⟩ hrun
  · intro st o hP _ hb _
    obtain ⟨tdoc, calls, _, _, ho⟩ := loopBody_exit_cases lib pf _ st o hb
    subst ho
    simp only [parseEvents_append, hP.2, (neutral_calls calls).2.2, List.append_nil]
  · intro st st1 hP _ hb
    rcases loopBody_again_cases lib pf _ st st1 hb with
      ⟨_, _, _, extra, calls, _, _, h1⟩ | ⟨hc, h1, hlen⟩
    · subst h1
      refine ⟨?_, ?_⟩
      · cases extra
        · exact allDash_tail _ hP.1
        · exact allDash_tail _ (allDash_tail _ hP.1)
      · simp only [parseEvents_append, hP.2, (neutral_calls calls).2.2, List.append_nil]
    · exfalso
      subst h1
      have hl : st.argv.length > 1 := by
        simp only [processSource, List.length_tail] at hlen
        omega
      exact hc ⟨hl, hP.1 _ (getD_one_mem_tail st.argv hl)⟩
  · intro st st1 _ _ _ hinf
    rw [(finalize_spec lib st1).1] at hinf
    cases hinf
  · intro st _ _ hinf
    rw [(finalize_spec lib st).1] at hinf
    cases hinf

/-- Counterexample to C6 as stated: on `tidy a.html -version` the dispatcher
reaches the informational command `-version` and the run exits with status 0,
yet the source `a.html` has been handed to the parser before. -/
theorem informational_after_source_counterexample :
    (refMain ["tidy", "a.html", "-version"]).map
        (fun o => (o.informational, o.code, parseEvents o.final.trace))
      = some (true, 0, [Event.parseFile "a.html".toList]) := by
  decide

theorem classify_informationalSpellings (pf : Platform) :
    ∀ p ∈ informationalSpellings,
      classify pf p.1.toList = p.2 ∧ p.1.toList.getD 0 NUL = '-' := by
  have e : ∀ t, classify pf t = classify (flagPlatform pf.NO_NATIVE_ISO2022_SUPPORT
      pf.SUPPORT_UTF16_ENCODINGS pf.SUPPORT_ASIAN_ENCODINGS pf.SUPPORT_ACCESSIBILITY_CHECKS) t :=
    fun _ => rfl
  simp only [e]
  generalize pf.NO_NATIVE_ISO2022_SUPPORT = b2
  generalize pf.SUPPORT_UTF16_ENCODINGS = b3
  generalize pf.SUPPORT_ASIAN_ENCODINGS = b4
  generalize pf.SUPPORT_ACCESSIBILITY_CHECKS = b5
  revert b2 b3 b4 b5
  decide

theorem dispatch_informational {σ : Type} (lib : TidyLib σ) (pf : Platform)
    (prog : Option CString) (tdoc : σ) (errfil : Option CString) (errout : ErrOut)
    (b0 t : CString) (rest : List CString) (r : Render)
    (hinfo : informationalRender prog rest.head? (classify pf t) = some r) :
    dispatch lib pf prog tdoc errfil errout (b0 :: t :: rest) =
      .exit (lib.tidyRelease tdoc) [.render r, .release] := by
  unfold dispatch
  simp only [List.getD_cons_succ, List.getD_cons_zero]
  cases hc : classify pf t <;> rw [hc] at hinfo
  case helpOption =>
    cases rest with
    | nil => cases hinfo; simp
    | cons n more => cases hinfo; simp
  all_goals first
    | (cases hinfo; done)
    | (cases hinfo; rfl)

theorem mainLoop_informational {σ : Type} (lib : TidyLib σ) (pf : Platform)
    (prog : Option CString) (st : MainState σ) (b0 t : CString) (rest : List CString)
    (r : Render) (fuel : Nat) (hargv : st.argv = b0 :: t :: rest) (hdash : t.getD 0 NUL = '-')
    (hinfo : informationalRender prog rest.head? (classify pf t) = some r) :
    loopBody lib pf prog st =
      .exit { code := 0, informational := true,
              final := { st with
                tdoc := lib.tidyRelease st.tdoc
                trace := st.trace ++ [.call (.render r), .call .release] } } ∧
    mainLoop lib pf prog (fuel + 1) st =
      some { code := 0, informational := true,
             final := { st with
               tdoc := lib.tidyRelease st.tdoc
               trace := st.trace ++ [.call (.render r), .call .release] } } := by
  have hd : st.argv.length > 1 ∧ (st.argv.getD 1 []).getD 0 NUL = '-' := by
    rw [hargv]
    exact ⟨by simp, by simpa using hdash⟩
  have hdis : dispatch lib pf prog st.tdoc st.errfil st.errout st.argv =
      .exit (lib.tidyRelease st.tdoc) [.render r, .release] := by
    rw [hargv]
    exact dispatch_informational lib pf prog _ _ _ b0 t rest r hinfo
  have hb : loopBody lib pf prog st =
      .exit { code := 0, informational := true,
              final := { st with
                tdoc := lib.tidyRelease st.tdoc
                trace := st.trace ++ [.call (.render r), .call .release] } } := by
    rw [loopBody_dash lib pf prog st hd, hdis]
    rfl
  refine ⟨hb, ?_⟩
  have hlen : st.argv.length > 0 := by rw [hargv]; simp
  rw [mainLoop, if_pos hlen, hb]

theorem mainLoop_sources_then {σ : Type} (lib : TidyLib σ) (pf : Platform)
    (prog : Option CString) : ∀ (srcs : List CString), (∀ s ∈ srcs, s.getD 0 NUL ≠ '-') →
    ∀ (more : List CString), more ≠ [] →
    ∀ (fuel : Nat) (st : MainState σ) (a0 : CString), st.argv = a0 :: (srcs ++ more) →
      mainLoop lib pf prog (fuel + srcs.length) st =
        mainLoop lib pf prog fuel ((processSource lib)^[srcs.length] st) ∧
      ∃ b0, ((processSource lib)^[srcs.length] st).argv = b0 :: more := by
  intro srcs
  induction srcs with
  | nil =>
    intro _ more _ fuel st a0 hargv
    exact ⟨rfl, a0, by simpa using hargv⟩
  | cons s rest ih =>
    intro hpos more hmore fuel st a0 hargv
    have hnd : ¬(st.argv.length > 1 ∧ (st.argv.getD 1 []).getD 0 NUL = '-') := by
      rw [hargv]
      intro hc
      exact hpos s (List.mem_cons_self _ _) (by simpa using hc.2)
    have hlen : st.argv.length > 0 := by rw [hargv]; simp
    have hnext : (processSource lib st).argv = s :: (rest ++ more) := by
      simp [processSource, hargv]
    have hlong : ¬ (processSource lib st).argv.length ≤ 1 := by
      rw [hnext]
      cases more with
      | nil => exact absurd rfl hmore
      | cons m ms => simp
    obtain ⟨h1, h2⟩ := ih (fun x hx => hpos x (List.mem_cons_of_mem _ hx)) more hmore fuel
      (processSource lib st) s hnext
    refine ⟨?_, ?_⟩
    · show mainLoop lib pf prog (fuel + rest.length + 1) st = _
      rw [mainLoop, if_pos hlen, loopBody_source lib pf prog st hnd, if_neg hlong]
      simp only [List.length_cons, Function.iterate_succ_apply]
      exact h1
    · simp only [List.length_cons, Function.iterate_succ_apply]
      exact h2

theorem iterate_sources_parseEvents {σ : Type} (lib : TidyLib σ) :
    ∀ (srcs more : List CString) (st : MainState σ) (a0 : CString),
      st.argv = a0 :: (srcs ++ more) →
      parseEvents ((processSource lib)^[srcs.length] st).trace =
        parseEvents st.trace ++ srcs.map Event.parseFile := by
  intro srcs
  induction srcs with
  | nil => intro more st a0 _; simp
  | cons s rest ih =>
    intro more st a0 hargv
    have hnext : (processSource lib st).argv = s :: (rest ++ more) := by
      simp [processSource, hargv]
    simp only [List.length_cons, Function.iterate_succ_apply]
    rw [ih more (processSource lib st) s hnext, processSource_parseEvents, hargv]
    simp

/-- C6, amended: when the dispatcher reaches an informational command (a token
that starts with a dash and selects help, XML help, help-config, help-option,
xml-config, show-config or version) the run ends at once with status 0: the
output routine of the command and the release of the processor are the last
two things it does, whatever state the loop is in, and nothing after the
command is looked at.  On an argument vector made of the program name,
positional sources, the command and anything after it, exactly those sources
have been handed to the parser, one after the other, before the command ends
the run; with no source before the command (as in `-version` alone, and in
every run whose tokens after the program name all start with a dash) nothing
is handed to the parser at any point of the run. -/
theorem informational_command_exits_zero {σ : Type} (lib : TidyLib σ) (pf : Platform)
    (tdoc : σ) (a0 : CString) (srcs : List CString) (t : CString) (rest : List CString)
    (r : Render) (hpos : ∀ s ∈ srcs, s.getD 0 NUL ≠ '-') (hdash : t.getD 0 NUL = '-')
    (hinfo : informationalRender (some a0) rest.head? (classify pf t) = some r) :
    (∃ out, tidyMain lib pf tdoc (a0 :: (srcs ++ t :: rest)) = some out ∧
      out.code = 0 ∧ out.informational = true ∧
      out.final.trace =
        ((processSource lib)^[srcs.length]
          (startup lib pf tdoc (a0 :: (srcs ++ t :: rest)))).trace ++
          [.call (.render r), .call .release] ∧
      parseEvents out.final.trace = srcs.map Event.parseFile) ∧
    (∀ (st : MainState σ) (b0 : CString) (fuel : Nat), st.argv = b0 :: t :: rest →
      loopBody lib pf (some a0) st =
        .exit { code := 0, informational := true,
                final := { st with
                  tdoc := lib.tidyRelease st.tdoc
                  trace := st.trace ++ [.call (.render r), .call .release] } } ∧
      mainLoop lib pf (some a0) (fuel + 1) st =
        some { code := 0, informational := true,
               final := { st with
                 tdoc := lib.tidyRelease st.tdoc
                 trace := st.trace ++ [.call (.render r), .call .release] } }) ∧
    (∀ p ∈ informationalSpellings,
      classify pf p.1.toList = p.2 ∧ p.1.toList.getD 0 NUL = '-' ∧
      ∀ (prog following : Option CString), (informationalRender prog following p.2).isSome) ∧
    (∀ (argv : List CString) (out : Outcome σ), tidyMain lib pf tdoc argv = some out →
      out.informational = true →
        out.code = 0 ∧
        (∃ pre q, out.final.trace = pre ++ [.call (.render q), .call .release]) ∧
        (AllDash argv → parseEvents out.final.trace = [])) := by
  refine ⟨?_, ?_, ?_, ?_⟩
  · obtain ⟨calls, tdoc1, status, hstart⟩ :=
      startup_spec lib pf tdoc (a0 :: (srcs ++ t :: rest))
    have hargv : (startup lib pf tdoc (a0 :: (srcs ++ t :: rest))).argv =
        a0 :: (srcs ++ t :: rest) := by rw [hstart]; rfl
    have hf : (a0 :: (srcs ++ t :: rest)).length + 1 = (rest.length + 2 + 1) + srcs.length := by
      simp only [List.length_cons, List.length_append]
      omega
    obtain ⟨h1, b0, h2⟩ := mainLoop_sources_then lib pf (some a0) srcs hpos (t :: rest)
      (by simp) (rest.length + 2 + 1) _ a0 hargv
    obtain ⟨_, h3⟩ := mainLoop_informational lib pf (some a0) _ b0 t rest r (rest.length + 2)
      h2 hdash hinfo
    have hrun : tidyMain lib pf tdoc (a0 :: (srcs ++ t :: rest)) =
        mainLoop lib pf (some a0) (rest.length + 2 + 1)
          ((processSource lib)^[srcs.length]
            (startup lib pf tdoc (a0 :: (srcs ++ t :: rest)))) := by
      unfold tidyMain
      rw [hf]
      simp only [List.head?_cons]
      exact h1
    rw [h3] at hrun
    refine ⟨_, hrun, rfl, rfl, rfl, ?_⟩
    · simp only [parseEvents_append]
      rw [iterate_sources_parseEvents lib srcs (t :: rest) _ a0 hargv, hstart]
      simp [loopEntry, (neutral_calls calls).2.2, parseEvents]
  · intro st b0 fuel hargv
    exact mainLoop_informational lib pf (some a0) st b0 t rest r fuel hargv hdash hinfo
  · intro p hp
    obtain ⟨h1, h2⟩ := classify_informationalSpellings pf p hp
    refine ⟨h1, h2, ?_⟩
    intro prog following
    have hall : ∀ q ∈ informationalSpellings,
        q.2 = .help ∨ q.2 = .xmlHelp ∨ q.2 = .helpConfig ∨ q.2 = .helpOption ∨
        q.2 = .xmlConfig ∨ q.2 = .showConfig ∨ q.2 = .version := by decide
    rcases hall p hp with h | h | h | h | h | h | h <;> rw [h]
    case inr.inr.inr.inl => cases following <;> rfl
    all_goals rfl
  · intro argv out hrun hinf
    obtain ⟨calls, tdoc1, status, hstart⟩ := startup_spec lib pf tdoc argv
    unfold tidyMain at hrun
    rw [hstart] at hrun
    obtain ⟨h1, h2⟩ := informational_exit_shape lib pf _ _ _ out hrun hinf
    refine ⟨h1, h2, ?_⟩
    intro hd
    exact informational_exit_no_parse lib pf _ _ _ out hd (neutral_calls calls).2.2 hrun hinf

/-- Witness of the amended C6: on `tidy a.html -version` the source is parsed
and the version command then ends the run with status 0; `-version` alone
prints the version, exits with status 0 and hands nothing to the parser; the
other informational commands end the run in the same way, each after its own
output routine. -/
theorem informational_command_exits_zero_witness :
    (∃ out, tidyMain (refLib refFiles refStdin) refPlatform refDoc
        ("tidy".toList :: (["a.html".toList] ++ "-version".toList :: [])) = some out ∧
      out.code = 0 ∧ out.informational = true ∧
      parseEvents out.final.trace = [Event.parseFile "a.html".toList]) ∧
    (refMain ["tidy", "-version"]).map (fun o => (o.code, o.informational, o.final.trace)) =
      some (0, true, [.call (.render .version), .call .release]) ∧
    (refMain ["tidy", "-help", "a.html"]).map
        (fun o => (o.code, o.informational, o.final.trace)) =
      some (0, true, [.call (.render (.help (some "tidy".toList))), .call .release]) ∧
    (refMain ["tidy", "-xml-help"]).map (fun o => (o.code, o.informational, o.final.trace)) =
      some (0, true, [.call (.render .xml_help), .call .release]) ∧
    (refMain ["tidy", "-help-config"]).map (fun o => (o.code, o.informational, o.final.trace)) =
      some (0, true, [.call (.render .optionhelp), .call .release]) ∧
    (refMain ["tidy", "-help-option", "wrap"]).map
        (fun o => (o.code, o.informational, o.final.trace)) =
      some (0, true, [.call (.render (.optionDescribe "wrap".toList)), .call .release]) ∧
    (refMain ["tidy", "-help-option"]).map (fun o => (o.code, o.informational, o.final.trace)) =
      some (0, true, [.call (.render .mustSpecify), .call .release]) ∧
    (refMain ["tidy", "-xml-config"]).map (fun o => (o.code, o.informational, o.final.trace)) =
      some (0, true, [.call (.render .XMLoptionhelp), .call .release]) ∧
    (refMain ["tidy", "-show-config"]).map (fun o => (o.code, o.informational, o.final.trace)) =
      some (0, true, [.call (.render .optionvalues), .call .release]) := by
  obtain ⟨⟨out, ho, hc, hi, _, hp⟩, _⟩ := informational_command_exits_zero
    (refLib refFiles refStdin) refPlatform refDoc "tidy".toList ["a.html".toList]
    "-version".toList [] .version (by decide) (by decide) (by decide)
  exact ⟨⟨out, ho, hc, hi, hp⟩, by decide, by decide, by decide, by decide, by decide,
    by decide, by decide, by decide⟩

/-! ## The wrap-width option -/

theorem classify_wrap (pf : Platform) (opt : CString)
    (hopt : opt = "-wrap".toList ∨ opt = "--wrap".toList ∨ opt = "-w".toList) :
    classify pf opt = .wrap := by
  obtain ⟨b1, b2, b3, b4, b5, f1, f2, f3, sc⟩ := pf
  rcases hopt with h | h | h <;> subst h <;>
    cases b2 <;> cases b3 <;> cases b4 <;> cases b5 <;> rfl

theorem wrap_token_dash (opt : CString)
    (hopt : opt = "-wrap".toList ∨ opt = "--wrap".toList ∨ opt = "-w".toList) :
    opt.getD 0 NUL = '-' := by
  rcases hopt with h | h | h <;> subst h <;> rfl

theorem loopBody_wrap {σ : Type} (lib : TidyLib σ) (pf : Platform) (prog : Option CString)
    (st : MainState σ) (a0 opt t : CString) (rest : List CString)
    (hargv : st.argv = a0 :: opt :: t :: rest)
    (hopt : opt = "-wrap".toList ∨ opt = "--wrap".toList ∨ opt = "-w".toList) :
    loopBody lib pf prog st = .again { st with
      argv := if (pf.sscanf_u t).isSome then t :: rest else opt :: t :: rest
      tdoc := lib.tidyOptSetInt st.tdoc .TidyWrapLen ((pf.sscanf_u t).getD 0)
      trace := st.trace ++ [.call (.optSetInt .TidyWrapLen ((pf.sscanf_u t).getD 0))] } := by
  have hd : st.argv.length > 1 ∧ (st.argv.getD 1 []).getD 0 NUL = '-' := by
    rw [hargv]
    exact ⟨by simp, by simpa using wrap_token_dash opt hopt⟩
  rw [loopBody_dash lib pf prog st hd]
  have hdis : dispatch lib pf prog st.tdoc st.errfil st.errout st.argv =
      .next (lib.tidyOptSetInt st.tdoc .TidyWrapLen ((pf.sscanf_u t).getD 0)) st.errfil st.errout
        (pf.sscanf_u t).isSome [.optSetInt .TidyWrapLen ((pf.sscanf_u t).getD 0)] := by
    unfold dispatch
    simp only [hargv, List.getD_cons_succ, List.getD_cons_zero, classify_wrap pf opt hopt,
      List.length_cons]
    simp
  rw [hdis]
  simp only [hargv, List.tail_cons, List.map_cons, List.map_nil]

/-- C7: when a wrap-width option token (`-wrap`, `--wrap` or `-w`) is followed by
a token `t`, the dispatcher consumes `t` together with the option token exactly
when `sscanf` converts a field from `t`; if it does, the wrap length is set to
the converted value and the token after `t` is the next one scanned; if it does
not, `t` itself is the next token scanned. -/
theorem wrap_value_consumed_iff_numeric {σ : Type} (lib : TidyLib σ) (pf : Platform)
    (prog : Option CString) (st : MainState σ) (a0 opt t : CString) (rest : List CString)
    (hargv : st.argv = a0 :: opt :: t :: rest)
    (hopt : opt = "-wrap".toList ∨ opt = "--wrap".toList ∨ opt = "-w".toList) :
    ∃ st1, loopBody lib pf prog st = .again st1 ∧
      (st1.argv = t :: rest ↔ (pf.sscanf_u t).isSome = true) ∧
      (∀ v, pf.sscanf_u t = some v →
        st1.argv = t :: rest ∧ st1.argv.get? 1 = rest.head? ∧
        st1.tdoc = lib.tidyOptSetInt st.tdoc .TidyWrapLen v ∧
        st1.trace = st.trace ++ [.call (.optSetInt .TidyWrapLen v)]) ∧
      (pf.sscanf_u t = none → st1.argv = opt :: t :: rest ∧ st1.argv.get? 1 = some t) := by
  refine ⟨_, loopBody_wrap lib pf prog st a0 opt t rest hargv hopt, ?_, ?_, ?_⟩
  · cases h : pf.sscanf_u t with
    | none =>
      simp only [Option.isSome_none, Bool.false_eq_true, if_false, iff_false]
      intro hc
      have := congrArg List.length hc
      simp at this
    | some v => simp
  · intro v hv
    refine ⟨by simp [hv], ?_, by simp [hv], by simp [hv]⟩
    simp only [hv, Option.isSome_some, if_true]
    cases rest <;> rfl
  · intro hn
    exact ⟨by simp [hn], by simp [hn]⟩

/-- Witness of C7: `-wrap 0 somefile.html` sets the wrap length to 0 and leaves
`somefile.html` as the next token, which the run then parses as its source; on
`-wrap somefile.html` the token `somefile.html` is scanned next and parsed. -/
theorem wrap_value_consumed_iff_numeric_witness :
    (∃ st1, loopBody (refLib refFiles refStdin) refPlatform (some "tidy".toList)
        (loopEntry ["tidy".toList, "-wrap".toList, "0".toList, "somefile.html".toList]
          refDoc 0 []) = .again st1 ∧
      (st1.argv = ["0".toList, "somefile.html".toList] ↔
        (refPlatform.sscanf_u "0".toList).isSome = true) ∧
      (∀ v, refPlatform.sscanf_u "0".toList = some v →
        st1.argv = ["0".toList, "somefile.html".toList] ∧
        st1.argv.get? 1 = ["somefile.html".toList].head? ∧
        st1.tdoc = (refLib refFiles refStdin).tidyOptSetInt refDoc .TidyWrapLen v ∧
        st1.trace = [] ++ [.call (.optSetInt .TidyWrapLen v)]) ∧
      (refPlatform.sscanf_u "0".toList = none →
        st1.argv = ["-wrap".toList, "0".toList, "somefile.html".toList] ∧
        st1.argv.get? 1 = some "0".toList)) ∧
    refPlatform.sscanf_u "0".toList = some 0 ∧
    refPlatform.sscanf_u "somefile.html".toList = none ∧
    (refMain ["tidy", "-wrap", "0", "somefile.html"]).map (fun o => parseEvents o.final.trace)
      = some [Event.parseFile "somefile.html".toList] ∧
    (refMain ["tidy", "-wrap", "somefile.html"]).map (fun o => parseEvents o.final.trace)
      = some [Event.parseFile "somefile.html".toList] :=
  ⟨wrap_value_consumed_iff_numeric (refLib refFiles refStdin) refPlatform (some "tidy".toList)
      (loopEntry ["tidy".toList, "-wrap".toList, "0".toList, "somefile.html".toList] refDoc 0 [])
      "tidy".toList "-wrap".toList "0".toList ["somefile.html".toList] rfl (Or.inl rfl),
    by decide, by decide, by decide, by decide⟩

/-- Counterexample to C8 as stated: on `tidy -wrap somefile.html`, where the
token after `-wrap` converts no field, dispatching the option changes the wrap
length from 68 to 0. -/
theorem wrap_non_numeric_counterexample :
    refPlatform.sscanf_u "somefile.html".toList = none ∧
    (refLib refFiles refStdin).tidyOptGetInt refDoc .TidyWrapLen = 68 ∧
    (loopBody (refLib refFiles refStdin) refPlatform (some "tidy".toList)
        (loopEntry ["tidy".toList, "-wrap".toList, "somefile.html".toList]
          refDoc 0 [])).nextState.map
        (fun s => ((refLib refFiles refStdin).tidyOptGetInt s.tdoc .TidyWrapLen, s.argv))
      = some (0, ["-wrap".toList, "somefile.html".toList]) := by
  decide

/-- C8, amended: when a wrap-width option token (`-wrap`, `--wrap` or `-w`) is
followed by a token that converts no field, dispatching the option calls
`tidyOptSetInt(tdoc, TidyWrapLen, 0)`: with a setter that stores its argument
the wrap length is 0 afterwards, whatever it was before. -/
theorem wrap_non_numeric_sets_zero {σ : Type} (lib : TidyLib σ) (pf : Platform)
    (prog : Option CString) (st : MainState σ) (a0 opt t : CString) (rest : List CString)
    (hargv : st.argv = a0 :: opt :: t :: rest)
    (hopt : opt = "-wrap".toList ∨ opt = "--wrap".toList ∨ opt = "-w".toList)
    (hnum : pf.sscanf_u t = none)
    (hstore : ∀ d id v, lib.tidyOptGetInt (lib.tidyOptSetInt d id v) id = v) :
    ∃ st1, loopBody lib pf prog st = .again st1 ∧
      st1.tdoc = lib.tidyOptSetInt st.tdoc .TidyWrapLen 0 ∧
      st1.trace = st.trace ++ [.call (.optSetInt .TidyWrapLen 0)] ∧
      lib.tidyOptGetInt st1.tdoc .TidyWrapLen = 0 := by
  refine ⟨_, loopBody_wrap lib pf prog st a0 opt t rest hargv hopt, ?_, ?_, ?_⟩
  · simp [hnum]
  · simp [hnum]
  · simp [hnum, hstore]

/-- Witness of the amended C8: `-wrap somefile.html` on the example processor. -/
theorem wrap_non_numeric_sets_zero_witness :
    ∃ st1, loopBody (refLib refFiles refStdin) refPlatform (some "tidy".toList)
        (loopEntry ["tidy".toList, "-wrap".toList, "somefile.html".toList] refDoc 0 [])
        = .again st1 ∧
      st1.tdoc = (refLib refFiles refStdin).tidyOptSetInt refDoc .TidyWrapLen 0 ∧
      st1.trace = [] ++ [.call (.optSetInt .TidyWrapLen 0)] ∧
      (refLib refFiles refStdin).tidyOptGetInt st1.tdoc .TidyWrapLen = 0 :=
  wrap_non_numeric_sets_zero (refLib refFiles refStdin) refPlatform (some "tidy".toList)
    (loopEntry ["tidy".toList, "-wrap".toList, "somefile.html".toList] refDoc 0 [])
    "tidy".toList "-wrap".toList "somefile.html".toList [] rfl (Or.inl rfl) (by decide)
    (by intro d id v; simp [refLib])

/-! ## Trailing options and positional sources -/

/-- C9, the code at the failing input: on `tidy a.html -q` the run is not ended
by an informational command, and it hands `a.html` to the parser and then
parses the standard input as well, although the vector has a positional
token. -/
theorem trailing_option_parses_stdin :
    (refMain ["tidy", "a.html", "-q"]).map
        (fun o => (o.informational, parseEvents o.final.trace))
      = some (false, [Event.parseFile "a.html".toList, Event.parseStdin]) := by
  decide

theorem sourceRun_negative {σ : Type} (lib : TidyLib σ) (argv : List CString) (tdoc : σ)
    (h : (parseStep lib argv tdoc).status < 0) :
    sourceRun lib argv tdoc = parseStep lib argv tdoc := by
  have h0 : ¬ (parseStep lib argv tdoc).status ≥ 0 := by omega
  have h1 : ¬ (parseStep lib argv tdoc).status > 1 := by omega
  have e1 : repairStep lib (parseStep lib argv tdoc) = parseStep lib argv tdoc := by
    unfold repairStep; rw [if_neg h0]
  have e2 : diagnoseStep lib (parseStep lib argv tdoc) = parseStep lib argv tdoc := by
    unfold diagnoseStep; rw [if_neg h0]
  have e3 : forceStep lib (parseStep lib argv tdoc) = parseStep lib argv tdoc := by
    unfold forceStep; rw [if_neg h1]
  have e4 : emitStep lib argv (parseStep lib argv tdoc) = parseStep lib argv tdoc := by
    unfold emitStep; rw [if_neg (fun hc => h0 hc.1)]
  unfold sourceRun
  rw [e1, e2, e3, e4]

theorem mainLoop_positional {σ : Type} (lib : TidyLib σ) (pf : Platform)
    (prog : Option CString) : ∀ (srcs : List CString), srcs ≠ [] →
    (∀ s ∈ srcs, s.getD 0 NUL ≠ '-') →
    ∀ (fuel : Nat) (st : MainState σ) (a0 : CString), st.argv = a0 :: srcs → srcs.length < fuel →
      mainLoop lib pf prog fuel st =
        some (finalize lib ((processSource lib)^[srcs.length] st)) := by
  intro srcs
  induction srcs with
  | nil => intro h; exact absurd rfl h
  | cons s rest ih =>
    intro _ hpos fuel st a0 hargv hfuel
    cases fuel with
    | zero => omega
    | succ f =>
      have hnd : ¬(st.argv.length > 1 ∧ (st.argv.getD 1 []).getD 0 NUL = '-') := by
        rw [hargv]
        intro hc
        exact hpos s (List.mem_cons_self _ _) (by simpa using hc.2)
      have hlen : st.argv.length > 0 := by rw [hargv]; simp
      have hnext : (processSource lib st).argv = s :: rest := by
        simp [processSource, hargv]
      unfold mainLoop
      rw [if_pos hlen, loopBody_source lib pf prog st hnd]
      cases rest with
      | nil =>
        have : (processSource lib st).argv.length ≤ 1 := by rw [hnext]; simp
        rw [if_pos this]
        rfl
      | cons s2 rest2 =>
        have : ¬ (processSource lib st).argv.length ≤ 1 := by rw [hnext]; simp
        rw [if_neg this]
        simp only []
        rw [ih (by simp) (fun x hx => hpos x (List.mem_cons_of_mem _ hx)) f
          (processSource lib st) s hnext (by simp only [List.length_cons] at hfuel ⊢; omega)]
        rfl

theorem iterate_positional_parseEvents {σ : Type} (lib : TidyLib σ) :
    ∀ (srcs : List CString) (st : MainState σ) (a0 : CString), st.argv = a0 :: srcs →
      parseEvents ((processSource lib)^[srcs.length] st).trace =
        parseEvents st.trace ++ srcs.map Event.parseFile := by
  intro srcs
  induction srcs with
  | nil => intro st a0 _; simp
  | cons s rest ih =>
    intro st a0 hargv
    have hnext : (processSource lib st).argv = s :: rest := by
      simp [processSource, hargv]
    simp only [List.length_cons, Function.iterate_succ_apply]
    rw [ih (processSource lib st) s hnext, processSource_parseEvents, hargv]
    simp

/-- C10: on an argument vector made only of positional source tokens, the run
ends after the loop, it is the sources processed one after the other in
argument order, each handed to the parser exactly once, and a negative parse
status skips only the repair, diagnose and emit steps of that source: its
counts are still added and the cursor still advances to the next source. -/
theorem positional_sources_all_processed {σ : Type} (lib : TidyLib σ) (pf : Platform)
    (tdoc : σ) (a0 : CString) (srcs : List CString) (hne : srcs ≠ [])
    (hpos : ∀ s ∈ srcs, s.getD 0 NUL ≠ '-') :
    ∃ out, tidyMain lib pf tdoc (a0 :: srcs) = some out ∧
      out.informational = false ∧
      out = finalize lib ((processSource lib)^[srcs.length] (startup lib pf tdoc (a0 :: srcs))) ∧
      parseEvents out.final.trace = srcs.map Event.parseFile ∧
      ∀ st : MainState σ, (parseStep lib st.argv st.tdoc).status < 0 →
        (processSource lib st).argv = st.argv.tail ∧
        (processSource lib st).trace = st.trace ++ (parseStep lib st.argv st.tdoc).events ++
          [.accumulate (lib.tidyErrorCount (parseStep lib st.argv st.tdoc).tdoc)
            (lib.tidyWarningCount (parseStep lib st.argv st.tdoc).tdoc)
            (lib.tidyAccessWarningCount (parseStep lib st.argv st.tdoc).tdoc)] ∧
        (processSource lib st).contentErrors =
          (st.contentErrors + lib.tidyErrorCount (parseStep lib st.argv st.tdoc).tdoc) % 2 ^ 32 ∧
        (processSource lib st).contentWarnings =
          (st.contentWarnings + lib.tidyWarningCount (parseStep lib st.argv st.tdoc).tdoc)
            % 2 ^ 32 := by
  obtain ⟨calls, tdoc1, status, hstart⟩ := startup_spec lib pf tdoc (a0 :: srcs)
  have hrun := mainLoop_positional lib pf (a0 :: srcs).head? srcs hne hpos
    ((a0 :: srcs).length + 1) (startup lib pf tdoc (a0 :: srcs)) a0
    (by rw [hstart]; rfl) (by simp only [List.length_cons]; omega)
  refine ⟨_, hrun, (finalize_spec lib _).1, rfl, ?_, ?_⟩
  · obtain ⟨_, _, extra, htr, hn⟩ := finalize_spec lib
      ((processSource lib)^[srcs.length] (startup lib pf tdoc (a0 :: srcs)))
    rw [htr, parseEvents_append, hn.2.2,
      iterate_positional_parseEvents lib srcs _ a0 (by rw [hstart]; rfl), hstart]
    simp [loopEntry, (neutral_calls calls).2.2]
  · intro st hneg
    simp [processSource, sourceRun_negative lib st.argv st.tdoc hneg]

/-- Witness of C10: a source that cannot be parsed followed by a source with a
warning; both are parsed, in order, the first one is neither repaired,
diagnosed nor saved, and the counts of both are accumulated. -/
theorem positional_sources_all_processed_witness :
    (∃ out, refMain ["tidy", "missing.html", "warn.html"] = some out ∧
      out.informational = false ∧
      parseEvents out.final.trace =
        [Event.parseFile "missing.html".toList, Event.parseFile "warn.html".toList]) ∧
    (refMain ["tidy", "missing.html", "warn.html"]).map (fun o => (o.code, o.final.trace)) =
      some (1, [.parseFile "missing.html".toList, .accumulate 0 0 0,
        .parseFile "warn.html".toList, .cleanAndRepair, .runDiagnostics,
        .call (.optSetBool .TidyShowInfo true), .reportDoctype,
        .call (.optSetBool .TidyShowInfo false), .saveStdout, .accumulate 0 1 0,
        .blankLine, .errorSummary, .generalInfo, .call .release]) := by
  obtain ⟨out, h1, h2, _, h4, _⟩ := positional_sources_all_processed
    (refLib refFiles refStdin) refPlatform refDoc "tidy".toList
    ["missing.html".toList, "warn.html".toList] (by simp) (by decide)
  exact ⟨⟨out, h1, h2, h4⟩, by decide⟩

/-! ## XML escaping -/

theorem escapeLoop_eq (name : CString) : ∀ escpName : CString,
    escapeLoop name escpName = escpName ++ (name.map escapeImage).flatten := by
  induction name with
  | nil => intro e; simp [escapeLoop]
  | cons c cs ih =>
    intro e
    simp only [escapeLoop, ih, List.map_cons, List.flatten_cons, escapeImage]
    split_ifs <;> simp

theorem get_escaped_name_eq (name : CString) :
    get_escaped_name name = (name.map escapeImage).flatten := by
  simp [get_escaped_name, escapeLoop_eq]

theorem escapedLength_eq (name : CString) : ∀ len : Nat,
    escapedLength name len = len + (get_escaped_name name).length := by
  induction name with
  | nil => intro len; simp [escapedLength, get_escaped_name, escapeLoop]
  | cons c cs ih =>
    intro len
    simp only [escapedLength, ih, get_escaped_name_eq, List.map_cons, List.flatten_cons,
      List.length_append, escapeImage]
    split_ifs <;> simp_all <;> omega

theorem escapeImage_clean (c d : Char) (h : d ∈ escapeImage c) :
    d ≠ '<' ∧ d ≠ '>' ∧ d ≠ '"' := by
  unfold escapeImage at h
  split_ifs at h with h1 h2 h3
  · have : ∀ x ∈ "&lt;".toList, x ≠ '<' ∧ x ≠ '>' ∧ x ≠ '"' := by decide
    exact this d h
  · have : ∀ x ∈ "&gt;".toList, x ≠ '<' ∧ x ≠ '>' ∧ x ≠ '"' := by decide
    exact this d h
  · have : ∀ x ∈ "&quot;".toList, x ≠ '<' ∧ x ≠ '>' ∧ x ≠ '"' := by decide
    exact this d h
  · simp only [List.mem_singleton] at h
    subst h
    exact ⟨h1, h2, h3⟩

theorem get_escaped_name_clean (name : CString) :
    ∀ d ∈ get_escaped_name name, d ≠ '<' ∧ d ≠ '>' ∧ d ≠ '"' := by
  intro d hd
  rw [get_escaped_name_eq] at hd
  simp only [List.mem_flatten, List.mem_map] at hd
  obtain ⟨l, ⟨c, _, hc⟩, hl⟩ := hd
  subst hc
  exact escapeImage_clean c d hl

theorem get_escaped_name_of_clean (name : CString)
    (h : ∀ d ∈ name, d ≠ '<' ∧ d ≠ '>' ∧ d ≠ '"') : get_escaped_name name = name := by
  rw [get_escaped_name_eq]
  induction name with
  | nil => rfl
  | cons c cs ih =>
    have hc := h c (List.mem_cons_self _ _)
    simp only [List.map_cons, List.flatten_cons, escapeImage, hc.1, hc.2.1, hc.2.2, if_false]
    rw [ih (fun d hd => h d (List.mem_cons_of_mem _ hd))]
    rfl

/-- C11: for every string, `get_escaped_name` is the concatenation, in order, of
the images of its characters, where `<` becomes `&lt;`, `>` becomes `&gt;`, the
double quote becomes `&quot;` and every other character (the ampersand and the
apostrophe too) is itself; the buffer length computed by the first loop is the
length of that result; and `a<b>c"d` becomes `a&lt;b&gt;c&quot;d`. -/
theorem get_escaped_name_is_concatenated_images :
    (∀ name : CString, get_escaped_name name = (name.map escapeImage).flatten) ∧
    (∀ name : CString, escapedLength name 0 = (get_escaped_name name).length) ∧
    (∀ c : Char, c ≠ '<' → c ≠ '>' → c ≠ '"' → escapeImage c = [c]) ∧
    escapeImage '&' = ['&'] ∧ escapeImage (Char.ofNat 39) = [Char.ofNat 39] ∧
    escapeImage '<' = "&lt;".toList ∧ escapeImage '>' = "&gt;".toList ∧
    escapeImage '"' = "&quot;".toList ∧
    get_escaped_name "a<b>c\"d".toList = "a&lt;b&gt;c&quot;d".toList := by
  refine ⟨get_escaped_name_eq, ?_, ?_, by decide, by decide, by decide, by decide, by decide,
    by decide⟩
  · intro name
    simpa using escapedLength_eq name 0
  · intro c h1 h2 h3
    simp [escapeImage, h1, h2, h3]

/-- C12: XML escaping is idempotent, because an escaped string contains none of
`<`, `>` and the double quote. -/
theorem get_escaped_name_idempotent :
    (∀ name : CString, ∀ d ∈ get_escaped_name name, d ≠ '<' ∧ d ≠ '>' ∧ d ≠ '"') ∧
    (∀ name : CString, get_escaped_name (get_escaped_name name) = get_escaped_name name) :=
  ⟨get_escaped_name_clean,
    fun name => get_escaped_name_of_clean _ (get_escaped_name_clean name)⟩

/-! ## Letter case of option tokens -/

theorem toLower_eq_fixed (c x : Char) (hx : ∀ n, 65 ≤ n → n ≤ 90 → Char.ofNat (n + 32) ≠ x)
    (h : c.toLower = x) : c = x := by
  unfold Char.toLower at h
  simp only [] at h
  split at h
  · next hr => exact absurd h (hx _ hr.1 hr.2)
  · exact h

theorem toLower_question (c d : Char) (h : c.toLower = d.toLower) (hc : c = '?') : d = '?' := by
  subst hc
  exact toLower_eq_fixed d '?' (by intro n h1 h2; interval_cases n <;> decide) h.symm

theorem toLower_dash (c d : Char) (h : c.toLower = d.toLower) (hc : c = '-') : d = '-' := by
  subst hc
  exact toLower_eq_fixed d '-' (by intro n h1 h2; interval_cases n <;> decide) h.symm

theorem char_of_toNat_sub (c d : Char) (h : (c.toNat : Int) - (d.toNat : Int) = 0) : c = d := by
  apply Char.ext
  apply UInt32.toNat.inj
  have : c.toNat = d.toNat := by omega
  exact this

theorem strcasecmp_caseVariant : ∀ (a b name : CString), CaseVariant a b →
    strcasecmp a name = strcasecmp b name := by
  intro a
  induction a with
  | nil =>
    intro b name h
    cases b with
    | nil => rfl
    | cons d ds => simp [CaseVariant] at h
  | cons c cs ih =>
    intro b name h
    cases b with
    | nil => simp [CaseVariant] at h
    | cons d ds =>
      simp only [CaseVariant, List.map_cons, List.cons.injEq] at h
      cases name with
      | nil => simp [strcasecmp, h.1]
      | cons e es => simp only [strcasecmp, h.1, ih ds es h.2]

theorem isName_caseVariant (a b : CString) (name : String) (h : CaseVariant a b) :
    isName a name = isName b name := by
  simp only [isName, strcasecmp_caseVariant a b name.toList h]

theorem caseVariant_drop (a b : CString) (n : Nat) (h : CaseVariant a b) :
    CaseVariant (a.drop n) (b.drop n) := by
  simp only [CaseVariant, List.map_drop] at h ⊢
  rw [h]

theorem caseVariant_head (a b : CString) (x : Char) (h : CaseVariant a b)
    (hx : ∀ c d : Char, c.toLower = d.toLower → c = x → d = x) :
    (a.getD 0 NUL = x ↔ b.getD 0 NUL = x) := by
  cases a with
  | nil =>
    cases b with
    | nil => rfl
    | cons d ds => simp [CaseVariant] at h
  | cons c cs =>
    cases b with
    | nil => simp [CaseVariant] at h
    | cons d ds =>
      simp only [CaseVariant, List.map_cons, List.cons.injEq] at h
      simp only [List.getD_cons_zero]
      exact ⟨hx c d h.1, hx d c h.1.symm⟩

theorem strncmp_dashes (t : CString) :
    strncmp t "--".toList 2 = 0 ↔ t.take 2 = ['-', '-'] := by
  cases t with
  | nil => simp [strncmp, strcmp]
  | cons c cs =>
    cases cs with
    | nil =>
      simp only [strncmp, List.take, String.toList, strcmp]
      split
      · simp [strcmp]
      · next hne =>
        constructor
        · intro h; exact absurd (char_of_toNat_sub _ _ h) hne
        · intro h; simp at h
    | cons d ds =>
      simp only [strncmp, List.take, String.toList, strcmp]
      split
      · next h1 =>
        split
        · next h2 => simp [h1, h2]
        · next h2 =>
          constructor
          · intro h; exact absurd (char_of_toNat_sub _ _ h) h2
          · intro h
            simp only [List.cons.injEq, and_true] at h
            exact absurd h.2 h2
      · next h1 =>
        constructor
        · intro h; exact absurd (char_of_toNat_sub _ _ h) h1
        · intro h
          simp only [List.cons.injEq, and_true] at h
          exact absurd h.1 h1

theorem caseVariant_symm (a b : CString) (h : CaseVariant a b) : CaseVariant b a := h.symm

theorem caseVariant_take_dashes_imp (t u : CString) (h : CaseVariant t u)
    (ht : t.take 2 = ['-', '-']) : u.take 2 = ['-', '-'] := by
  cases t with
  | nil => simp at ht
  | cons c cs =>
    cases cs with
    | nil => simp at ht
    | cons c2 cs2 =>
      cases u with
      | nil => simp [CaseVariant] at h
      | cons d ds =>
        cases ds with
        | nil => simp [CaseVariant] at h
        | cons d2 ds2 =>
          simp only [CaseVariant, List.map_cons, List.cons.injEq] at h
          simp only [List.take, List.cons.injEq, and_true] at ht ⊢
          exact ⟨toLower_dash c d h.1 ht.1, toLower_dash c2 d2 h.2.1 ht.2⟩

theorem classify_caseVariant (pf : Platform) (t u : CString) (h : CaseVariant t u) :
    classify pf t = classify pf u := by
  have hn : ∀ name, isName (t.drop 1) name = isName (u.drop 1) name :=
    fun name => isName_caseVariant _ _ name (caseVariant_drop t u 1 h)
  have hq : ((t.drop 1).getD 0 NUL = '?') = ((u.drop 1).getD 0 NUL = '?') :=
    propext (caseVariant_head _ _ '?' (caseVariant_drop t u 1 h) toLower_question)
  have hd : (strncmp t "--".toList 2 = 0) = (strncmp u "--".toList 2 = 0) := by
    apply propext
    rw [strncmp_dashes, strncmp_dashes]
    exact ⟨caseVariant_take_dashes_imp t u h, caseVariant_take_dashes_imp u t h.symm⟩
  unfold classify
  simp only [hn, hq, hd]

theorem dispatch_caseVariant {σ : Type} (lib : TidyLib σ) (pf : Platform) (prog : Option CString)
    (tdoc : σ) (errfil : Option CString) (errout : ErrOut) (a0 t u : CString)
    (rest : List CString) (h : CaseVariant t u)
    (h1 : classify pf t ≠ .cluster) (h2 : classify pf t ≠ .passthrough)
    (h3 : classify pf t ≠ .encoding) :
    dispatch lib pf prog tdoc errfil errout (a0 :: t :: rest) =
      dispatch lib pf prog tdoc errfil errout (a0 :: u :: rest) := by
  have hc := classify_caseVariant pf t u h
  unfold dispatch
  simp only [List.getD_cons_succ, List.getD_cons_zero, List.length_cons, ← hc]
  cases hcl : classify pf t <;>
    first
    | rfl
    | exact absurd hcl h1
    | exact absurd hcl h2
    | exact absurd hcl h3

theorem shortOption_upper {σ : Type} (lib : TidyLib σ) (tdoc : σ) (c : Char)
    (h : c ∉ ['i', 'u', 'c', 'g', 'b', 'n', 'm', 'e', 'q']) :
    shortOption lib tdoc c = (tdoc, [.unknownOption c]) := by
  simp only [List.mem_cons, List.mem_singleton, List.not_mem_nil, or_false, not_or] at h
  obtain ⟨a1, a2, a3, a4, a5, a6, a7, a8, a9⟩ := h
  simp [shortOption, a1, a2, a3, a4, a5, a6, a7, a8, a9]

theorem isUpper_not_short (c : Char) (h : c.isUpper = true) :
    c ∉ ['i', 'u', 'c', 'g', 'b', 'n', 'm', 'e', 'q'] := by
  intro hm
  simp only [List.mem_cons, List.mem_singleton, List.not_mem_nil, or_false] at hm
  rcases hm with h1 | h1 | h1 | h1 | h1 | h1 | h1 | h1 | h1 <;> subst h1 <;> revert h <;> decide

/-- Counterexample to C13 as stated: `-Q` and `-IQ` are letter-case variants of
the accepted tokens `-q` and `-iq`, yet they set nothing and produce
unknown-option diagnostics where the lower-case tokens set the quiet and indent
options. -/
theorem short_option_case_counterexample :
    CaseVariant "-q".toList "-Q".toList ∧
    (dispatch (refLib refFiles refStdin) refPlatform none refDoc none .stderr
        ["tidy".toList, "-q".toList]).calls = [.optSetBool .TidyQuiet true] ∧
    (dispatch (refLib refFiles refStdin) refPlatform none refDoc none .stderr
        ["tidy".toList, "-Q".toList]).calls = [.unknownOption 'Q'] ∧
    CaseVariant "-iq".toList "-IQ".toList ∧
    (dispatch (refLib refFiles refStdin) refPlatform none refDoc none .stderr
        ["tidy".toList, "-iq".toList]).calls =
      [.optSetInt .TidyIndentContent 2, .optSetBool .TidyQuiet true] ∧
    (dispatch (refLib refFiles refStdin) refPlatform none refDoc none .stderr
        ["tidy".toList, "-IQ".toList]).calls = [.unknownOption 'I', .unknownOption 'Q'] := by
  decide

/-- C13, amended: every flag matched against a long-form spelling (the
single-letter spellings `h`, `o`, `f`, `w`, `v` included) is recognised
case-insensitively: a letter-case variant of an option token starts with a dash
exactly when the token does and selects the same branch of the dispatcher, and
for every branch but the character encodings, the `--name` passthrough and the
short-option cluster the dispatch is the same (same configuration mutations,
diagnostics and token consumption).  The letters of a short-option cluster are
case-sensitive: an upper-case letter is reported as an unknown option. -/
theorem long_forms_case_insensitive {σ : Type} (lib : TidyLib σ) (pf : Platform)
    (prog : Option CString) (tdoc : σ) (errfil : Option CString) (errout : ErrOut)
    (a0 t u : CString) (rest : List CString) (h : CaseVariant t u) :
    (t.getD 0 NUL = '-' ↔ u.getD 0 NUL = '-') ∧
    classify pf t = classify pf u ∧
    (classify pf t ≠ .cluster → classify pf t ≠ .passthrough → classify pf t ≠ .encoding →
      dispatch lib pf prog tdoc errfil errout (a0 :: t :: rest) =
        dispatch lib pf prog tdoc errfil errout (a0 :: u :: rest)) ∧
    (∀ c : Char, c.isUpper = true → shortOption lib tdoc c = (tdoc, [.unknownOption c])) :=
  ⟨caseVariant_head t u '-' h toLower_dash, classify_caseVariant pf t u h,
    dispatch_caseVariant lib pf prog tdoc errfil errout a0 t u rest h,
    fun c hc => shortOption_upper lib tdoc c (isUpper_not_short c hc)⟩

/-- Witness of the amended C13: `-QUIET` is dispatched as `-quiet` is. -/
theorem long_forms_case_insensitive_witness :
    CaseVariant "-quiet".toList "-QUIET".toList ∧
    classify refPlatform "-quiet".toList = .quiet ∧
    ("-quiet".toList.getD 0 NUL = '-' ↔ "-QUIET".toList.getD 0 NUL = '-') ∧
    classify refPlatform "-quiet".toList = classify refPlatform "-QUIET".toList ∧
    dispatch (refLib refFiles refStdin) refPlatform none refDoc none .stderr
        ["tidy".toList, "-quiet".toList] =
      dispatch (refLib refFiles refStdin) refPlatform none refDoc none .stderr
        ["tidy".toList, "-QUIET".toList] ∧
    (dispatch (refLib refFiles refStdin) refPlatform none refDoc none .stderr
        ["tidy".toList, "-QUIET".toList]).calls = [.optSetBool .TidyQuiet true] := by
  have hv : CaseVariant "-quiet".toList "-QUIET".toList := by decide
  have hk : classify refPlatform "-quiet".toList = .quiet := by decide
  obtain ⟨w1, w2, w3, _⟩ := long_forms_case_insensitive (refLib refFiles refStdin) refPlatform none
    refDoc none .stderr "tidy".toList "-quiet".toList "-QUIET".toList [] hv
  exact ⟨hv, hk, w1, w2, w3 (by rw [hk]; decide) (by rw [hk]; decide) (by rw [hk]; decide),
    by decide⟩

/-! ## Double-dash tokens -/

theorem dispatch_of_classify_eq {σ : Type} (lib : TidyLib σ) (pf : Platform)
    (prog : Option CString) (tdoc : σ) (errfil : Option CString) (errout : ErrOut)
    (a0 t u : CString) (rest : List CString) (hc : classify pf t = classify pf u)
    (h1 : classify pf t ≠ .cluster) (h2 : classify pf t ≠ .passthrough)
    (h3 : classify pf t ≠ .encoding) :
    dispatch lib pf prog tdoc errfil errout (a0 :: t :: rest) =
      dispatch lib pf prog tdoc errfil errout (a0 :: u :: rest) := by
  unfold dispatch
  simp only [List.getD_cons_succ, List.getD_cons_zero, List.length_cons, ← hc]
  cases hcl : classify pf t <;>
    first
    | rfl
    | exact absurd hcl h1
    | exact absurd hcl h2
    | exact absurd hcl h3

theorem classify_doubleDash (pf : Platform) :
    (∀ X ∈ doubleDashSpellings,
      classify pf ('-' :: '-' :: X.toList) = classify pf ('-' :: X.toList) ∧
      classify pf ('-' :: X.toList) ≠ .cluster ∧ classify pf ('-' :: X.toList) ≠ .passthrough ∧
      classify pf ('-' :: X.toList) ≠ .encoding) ∧
    (classify pf "--output-file".toList = classify pf "-output".toList ∧
      classify pf "-output".toList = .output) ∧
    (∀ X ∈ singleDashSpellings,
      classify pf ('-' :: '-' :: X.toList) = .passthrough ∧
      classify pf ('-' :: X.toList) ≠ .passthrough) := by
  have e : ∀ t, classify pf t = classify (flagPlatform pf.NO_NATIVE_ISO2022_SUPPORT
      pf.SUPPORT_UTF16_ENCODINGS pf.SUPPORT_ASIAN_ENCODINGS pf.SUPPORT_ACCESSIBILITY_CHECKS) t :=
    fun _ => rfl
  simp only [e]
  generalize pf.NO_NATIVE_ISO2022_SUPPORT = b2
  generalize pf.SUPPORT_UTF16_ENCODINGS = b3
  generalize pf.SUPPORT_ASIAN_ENCODINGS = b4
  generalize pf.SUPPORT_ACCESSIBILITY_CHECKS = b5
  revert b2 b3 b4 b5
  decide

theorem dispatch_passthrough {σ : Type} (lib : TidyLib σ) (pf : Platform)
    (prog : Option CString) (tdoc : σ) (errfil : Option CString) (errout : ErrOut)
    (a0 t : CString) (rest : List CString) (h : classify pf t = .passthrough) :
    dispatch lib pf prog tdoc errfil errout (a0 :: t :: rest) =
      passthroughAction lib pf tdoc errfil errout (t.drop 2) rest.head? := by
  unfold dispatch passthroughAction
  simp only [List.getD_cons_succ, List.getD_cons_zero, h]
  cases rest <;> rfl

/-- Counterexample to C14 as stated: `--xml` is not dispatched as `-xml` is (it
is handed to the generic option setter under the name `xml` and sets nothing by
itself), and `--help-config` does not end the run as `-help-config` does. -/
theorem double_dash_counterexample :
    (dispatch (refLib refFiles refStdin) refPlatform none refDoc none .stderr
        ["tidy".toList, "-xml".toList]).calls = [.optSetBool .TidyXmlTags true] ∧
    (dispatch (refLib refFiles refStdin) refPlatform none refDoc none .stderr
        ["tidy".toList, "--xml".toList]).calls = [.optParseValue "xml".toList none] ∧
    (dispatch (refLib refFiles refStdin) refPlatform none refDoc none .stderr
        ["tidy".toList, "-help-config".toList]).consumed = none ∧
    (dispatch (refLib refFiles refStdin) refPlatform none refDoc none .stderr
        ["tidy".toList, "--help-config".toList]).consumed = some 1 ∧
    (dispatch (refLib refFiles refStdin) refPlatform none refDoc none .stderr
        ["tidy".toList, "--help-config".toList]).calls =
      [.optParseValue "help-config".toList none] := by
  decide

/-- C14, amended: exactly one leading dash is stripped before matching.  For
the switches whose double-dash spelling is compared for (`help`, `file`,
`wrap`, `version`, and `--output-file` for `-output`) the token `--X` is
dispatched exactly as `-X` is.  For every other long-form spelling `X` the
token `--X` matches none of the hard-coded spellings: it is forwarded to the
generic option setter as `tidyOptParseValue(tdoc, X, argv[2])`, and the
following token is consumed only if the setter accepts. -/
theorem double_dash_dispatch {σ : Type} (lib : TidyLib σ) (pf : Platform)
    (prog : Option CString) (tdoc : σ) (errfil : Option CString) (errout : ErrOut)
    (a0 : CString) (rest : List CString) :
    (∀ X ∈ doubleDashSpellings,
      dispatch lib pf prog tdoc errfil errout (a0 :: ('-' :: '-' :: X.toList) :: rest) =
        dispatch lib pf prog tdoc errfil errout (a0 :: ('-' :: X.toList) :: rest)) ∧
    dispatch lib pf prog tdoc errfil errout (a0 :: "--output-file".toList :: rest) =
      dispatch lib pf prog tdoc errfil errout (a0 :: "-output".toList :: rest) ∧
    (∀ X ∈ singleDashSpellings,
      classify pf ('-' :: '-' :: X.toList) = .passthrough ∧
      classify pf ('-' :: X.toList) ≠ .passthrough ∧
      dispatch lib pf prog tdoc errfil errout (a0 :: ('-' :: '-' :: X.toList) :: rest) =
        passthroughAction lib pf tdoc errfil errout X.toList rest.head?) := by
  obtain ⟨hd, ho, hs⟩ := classify_doubleDash pf
  refine ⟨?_, ?_, ?_⟩
  · intro X hX
    obtain ⟨e, n1, n2, n3⟩ := hd X hX
    exact dispatch_of_classify_eq lib pf prog tdoc errfil errout a0 _ _ rest e
      (by rw [e]; exact n1) (by rw [e]; exact n2) (by rw [e]; exact n3)
  · exact dispatch_of_classify_eq lib pf prog tdoc errfil errout a0 _ _ rest ho.1
      (by rw [ho.1, ho.2]; decide) (by rw [ho.1, ho.2]; decide) (by rw [ho.1, ho.2]; decide)
  · intro X hX
    obtain ⟨e1, e2⟩ := hs X hX
    exact ⟨e1, e2, dispatch_passthrough lib pf prog tdoc errfil errout a0 _ rest e1⟩

/-- Witness of the amended C14: `--version` is dispatched as `-version`, and
`--xml` goes to the generic option setter. -/
theorem double_dash_dispatch_witness :
    dispatch (refLib refFiles refStdin) refPlatform none refDoc none .stderr
        ["tidy".toList, "--version".toList] =
      dispatch (refLib refFiles refStdin) refPlatform none refDoc none .stderr
        ["tidy".toList, "-version".toList] ∧
    classify refPlatform "--xml".toList = .passthrough ∧
    classify refPlatform "-xml".toList ≠ .passthrough ∧
    dispatch (refLib refFiles refStdin) refPlatform none refDoc none .stderr
        ["tidy".toList, "--xml".toList] =
      passthroughAction (refLib refFiles refStdin) refPlatform refDoc none .stderr
        "xml".toList none := by
  obtain ⟨h1, _, h3⟩ := double_dash_dispatch (refLib refFiles refStdin) refPlatform none refDoc
    none .stderr "tidy".toList []
  exact ⟨h1 "version" (by decide), h3 "xml" (by decide)⟩

/-! ## The short-option cluster -/

theorem classify_long_of_short (pf : Platform) :
    classify pf "-indent".toList = .indent ∧ classify pf "-upper".toList = .upper ∧
    classify pf "-clean".toList = .clean ∧ classify pf "-gdoc".toList = .gdoc ∧
    classify pf "-bare".toList = .bare ∧ classify pf "-numeric".toList = .numeric ∧
    classify pf "-modify".toList = .modify ∧ classify pf "-errors".toList = .errors ∧
    classify pf "-quiet".toList = .quiet := by
  have e : ∀ t, classify pf t = classify (flagPlatform pf.NO_NATIVE_ISO2022_SUPPORT
      pf.SUPPORT_UTF16_ENCODINGS pf.SUPPORT_ASIAN_ENCODINGS pf.SUPPORT_ACCESSIBILITY_CHECKS) t :=
    fun _ => rfl
  simp only [e]
  generalize pf.NO_NATIVE_ISO2022_SUPPORT = b2
  generalize pf.SUPPORT_UTF16_ENCODINGS = b3
  generalize pf.SUPPORT_ASIAN_ENCODINGS = b4
  generalize pf.SUPPORT_ACCESSIBILITY_CHECKS = b5
  revert b2 b3 b4 b5
  decide

theorem dispatch_simple_switch {σ : Type} (lib : TidyLib σ) (pf : Platform)
    (prog : Option CString) (tdoc : σ) (errfil : Option CString) (errout : ErrOut)
    (a0 t : CString) (rest : List CString) (c : Char)
    (h : (classify pf t = .indent ∧ c = 'i') ∨ (classify pf t = .upper ∧ c = 'u') ∨
      (classify pf t = .clean ∧ c = 'c') ∨ (classify pf t = .gdoc ∧ c = 'g') ∨
      (classify pf t = .bare ∧ c = 'b') ∨ (classify pf t = .numeric ∧ c = 'n') ∨
      (classify pf t = .modify ∧ c = 'm') ∨ (classify pf t = .errors ∧ c = 'e') ∨
      (classify pf t = .quiet ∧ c = 'q')) :
    dispatch lib pf prog tdoc errfil errout (a0 :: t :: rest) =
      .next (shortOption lib tdoc c).1 errfil errout false (shortOption lib tdoc c).2 := by
  unfold dispatch
  simp only [List.getD_cons_succ, List.getD_cons_zero]
  rcases h with h | h | h | h | h | h | h | h | h <;> obtain ⟨h1, h2⟩ := h <;> subst h2 <;>
    rw [h1] <;> rfl

/-- C15: an option token that starts with a dash and matches none of the
long-form spellings (it reaches the final `else` of the chain) is scanned
character by character after the dash, in order, and exactly one token is
consumed while the scan of the command line goes on.  Each of `u`, `c`, `g`,
`b`, `n`, `m`, `q` hands the document to `tidyOptSetBool` with the option
`TidyUpperCaseTags`, `TidyMakeClean`, `TidyGDocClean`, `TidyMakeBare`,
`TidyNumEntities`, `TidyWriteBack`, `TidyQuiet` and the value yes, `e` with
`TidyShowMarkup` and no; `i` sets `TidyIndentContent` to `TidyAutoState` and,
when `TidyIndentSpaces` then reads zero, resets it to its default; the
document that results is the one the scan goes on with (so with a setter
whose value reads back, the option reads the new value afterwards).  This is
what the switches `-upper`, `-clean`, `-gdoc`, `-bare`, `-numeric`, `-modify`,
`-quiet`, `-errors`, `-indent` do.  Every other character produces exactly one
unknown-option diagnostic naming it and leaves the document as it is. -/
theorem short_option_cluster {σ : Type} (lib : TidyLib σ) (pf : Platform)
    (prog : Option CString) (st : MainState σ) (a0 t : CString) (rest : List CString)
    (hargv : st.argv = a0 :: t :: rest) (hdash : t.getD 0 NUL = '-')
    (hcluster : classify pf t = .cluster) :
    loopBody lib pf prog st = .again { st with
      argv := t :: rest
      tdoc := (shortOptions lib st.tdoc (t.drop 1)).1
      trace := st.trace ++ (shortOptions lib st.tdoc (t.drop 1)).2.map Event.call } ∧
    (∀ d : σ, shortOptions lib d [] = (d, [])) ∧
    (∀ (d : σ) (c : Char) (cs : List Char),
      shortOptions lib d (c :: cs) =
        ((shortOptions lib (shortOption lib d c).1 cs).1,
          (shortOption lib d c).2 ++ (shortOptions lib (shortOption lib d c).1 cs).2)) ∧
    (∀ (d : σ) (c : Char), c ∉ ['i', 'u', 'c', 'g', 'b', 'n', 'm', 'e', 'q'] →
      shortOption lib d c = (d, [.unknownOption c])) ∧
    (∀ (d : σ) (e : Option CString) (o : ErrOut) (b0 : CString) (more : List CString)
        (p : String × Char),
      p ∈ [("-indent", 'i'), ("-upper", 'u'), ("-clean", 'c'), ("-gdoc", 'g'), ("-bare", 'b'),
        ("-numeric", 'n'), ("-modify", 'm'), ("-errors", 'e'), ("-quiet", 'q')] →
      dispatch lib pf prog d e o (b0 :: p.1.toList :: more) =
        .next (shortOption lib d p.2).1 e o false (shortOption lib d p.2).2) ∧
    (∀ (d : σ) (p : Char × TidyOptionId × Bool),
      p ∈ [('u', TidyOptionId.TidyUpperCaseTags, true), ('c', .TidyMakeClean, true),
        ('g', .TidyGDocClean, true), ('b', .TidyMakeBare, true), ('n', .TidyNumEntities, true),
        ('m', .TidyWriteBack, true), ('e', .TidyShowMarkup, false), ('q', .TidyQuiet, true)] →
      shortOption lib d p.1 = (lib.tidyOptSetBool d p.2.1 p.2.2, [.optSetBool p.2.1 p.2.2]) ∧
      ((∀ (x : σ) (id : TidyOptionId) (v : Bool),
          lib.tidyOptGetBool (lib.tidyOptSetBool x id v) id = v) →
        lib.tidyOptGetBool (shortOption lib d p.1).1 p.2.1 = p.2.2)) ∧
    (∀ d : σ,
      (lib.tidyOptGetInt (lib.tidyOptSetInt d .TidyIndentContent lib.TidyAutoState)
          .TidyIndentSpaces = 0 →
        shortOption lib d 'i' =
          (lib.tidyOptResetToDefault
              (lib.tidyOptSetInt d .TidyIndentContent lib.TidyAutoState) .TidyIndentSpaces,
            [.optSetInt .TidyIndentContent lib.TidyAutoState,
              .optResetToDefault .TidyIndentSpaces])) ∧
      (lib.tidyOptGetInt (lib.tidyOptSetInt d .TidyIndentContent lib.TidyAutoState)
          .TidyIndentSpaces ≠ 0 →
        shortOption lib d 'i' =
          (lib.tidyOptSetInt d .TidyIndentContent lib.TidyAutoState,
            [.optSetInt .TidyIndentContent lib.TidyAutoState]))) := by
  refine ⟨?_, fun d => rfl, fun d c cs => rfl, fun d c h => shortOption_upper lib d c h, ?_,
    ?_, ?_⟩
  · have hd : st.argv.length > 1 ∧ (st.argv.getD 1 []).getD 0 NUL = '-' := by
      rw [hargv]
      exact ⟨by simp, by simpa using hdash⟩
    rw [loopBody_dash lib pf prog st hd]
    have hdis : dispatch lib pf prog st.tdoc st.errfil st.errout st.argv =
        .next (shortOptions lib st.tdoc (t.drop 1)).1 st.errfil st.errout false
          (shortOptions lib st.tdoc (t.drop 1)).2 := by
      unfold dispatch
      simp only [hargv, List.getD_cons_succ, List.getD_cons_zero, hcluster]
    rw [hdis]
    simp only [hargv, List.tail_cons, Bool.false_eq_true, if_false]
  · intro d e o b0 more p hp
    obtain ⟨k1, k2, k3, k4, k5, k6, k7, k8, k9⟩ := classify_long_of_short pf
    simp only [List.mem_cons, List.mem_singleton, List.not_mem_nil, or_false] at hp
    apply dispatch_simple_switch
    rcases hp with h | h | h | h | h | h | h | h | h <;> subst h
    · exact Or.inl ⟨k1, rfl⟩
    · exact Or.inr (Or.inl ⟨k2, rfl⟩)
    · exact Or.inr (Or.inr (Or.inl ⟨k3, rfl⟩))
    · exact Or.inr (Or.inr (Or.inr (Or.inl ⟨k4, rfl⟩)))
    · exact Or.inr (Or.inr (Or.inr (Or.inr (Or.inl ⟨k5, rfl⟩))))
    · exact Or.inr (Or.inr (Or.inr (Or.inr (Or.inr (Or.inl ⟨k6, rfl⟩)))))
    · exact Or.inr (Or.inr (Or.inr (Or.inr (Or.inr (Or.inr (Or.inl ⟨k7, rfl⟩))))))
    · exact Or.inr (Or.inr (Or.inr (Or.inr (Or.inr (Or.inr (Or.inr (Or.inl ⟨k8, rfl⟩)))))))
    · exact Or.inr (Or.inr (Or.inr (Or.inr (Or.inr (Or.inr (Or.inr (Or.inr ⟨k9, rfl⟩)))))))
  · intro d p hp
    simp only [List.mem_cons, List.mem_singleton, List.not_mem_nil, or_false] at hp
    rcases hp with h | h | h | h | h | h | h | h <;> subst h <;>
      exact ⟨rfl, fun hlaw => hlaw d _ _⟩
  · intro d
    constructor
    · intro h0
      show indentAction lib d = _
      simp only [indentAction, h0, if_true]
    · intro h0
      show indentAction lib d = _
      simp only [indentAction, h0, if_false]

/-- Witness of C15: on a document whose indent-spaces value is zero the cluster
`-ixq` sets the indent content, resets the indent spaces, reports `x` as an
unknown option, sets the quiet option, and consumes one token; the options
read the new values afterwards.  On a document with an indent-spaces value of
2 the reset is not made. -/
theorem short_option_cluster_witness :
    loopBody (refLib refFiles refStdin) refPlatform (some "tidy".toList)
        (loopEntry ["tidy".toList, "-ixq".toList, "a.html".toList] refDocFlat 0 []) =
      .again { loopEntry ["tidy".toList, "-ixq".toList, "a.html".toList] refDocFlat 0 [] with
        argv := ["-ixq".toList, "a.html".toList]
        tdoc := (shortOptions (refLib refFiles refStdin) refDocFlat ("-ixq".toList.drop 1)).1
        trace := [] ++
          (shortOptions (refLib refFiles refStdin) refDocFlat ("-ixq".toList.drop 1)).2.map
            Event.call } ∧
    (shortOptions (refLib refFiles refStdin) refDocFlat ("-ixq".toList.drop 1)).2 =
      [.optSetInt .TidyIndentContent 2, .optResetToDefault .TidyIndentSpaces,
        .unknownOption 'x', .optSetBool .TidyQuiet true] ∧
    refDocFlat.ints .TidyIndentContent = 0 ∧ refDocFlat.ints .TidyIndentSpaces = 0 ∧
    refDocFlat.bools .TidyQuiet = false ∧
    (refLib refFiles refStdin).tidyOptGetInt
      (shortOptions (refLib refFiles refStdin) refDocFlat ("-ixq".toList.drop 1)).1
      .TidyIndentContent = 2 ∧
    (refLib refFiles refStdin).tidyOptGetInt
      (shortOptions (refLib refFiles refStdin) refDocFlat ("-ixq".toList.drop 1)).1
      .TidyIndentSpaces = 2 ∧
    (refLib refFiles refStdin).tidyOptGetBool
      (shortOptions (refLib refFiles refStdin) refDocFlat ("-ixq".toList.drop 1)).1
      .TidyQuiet = true ∧
    (shortOptions (refLib refFiles refStdin) refDoc ("-ixq".toList.drop 1)).2 =
      [.optSetInt .TidyIndentContent 2, .unknownOption 'x', .optSetBool .TidyQuiet true] ∧
    (refLib refFiles refStdin).tidyOptGetBool
      (shortOption (refLib refFiles refStdin) refDoc 'e').1 .TidyShowMarkup = false :=
  ⟨(short_option_cluster (refLib refFiles refStdin) refPlatform (some "tidy".toList)
      (loopEntry ["tidy".toList, "-ixq".toList, "a.html".toList] refDocFlat 0 [])
      "tidy".toList "-ixq".toList ["a.html".toList] rfl (by decide) (by decide)).1,
    by decide, by decide, by decide, by decide, by decide, by decide, by decide, by decide,
    by decide⟩

/-! ## Help for a single option -/

theorem classify_help_option (pf : Platform) :
    classify pf "-help-option".toList = .helpOption := by
  have e : ∀ t, classify pf t = classify (flagPlatform pf.NO_NATIVE_ISO2022_SUPPORT
      pf.SUPPORT_UTF16_ENCODINGS pf.SUPPORT_ASIAN_ENCODINGS pf.SUPPORT_ACCESSIBILITY_CHECKS) t :=
    fun _ => rfl
  simp only [e]
  generalize pf.NO_NATIVE_ISO2022_SUPPORT = b2
  generalize pf.SUPPORT_UTF16_ENCODINGS = b3
  generalize pf.SUPPORT_ASIAN_ENCODINGS = b4
  generalize pf.SUPPORT_ACCESSIBILITY_CHECKS = b5
  revert b2 b3 b4 b5
  decide

theorem loopBody_help_option {σ : Type} (lib : TidyLib σ) (pf : Platform)
    (prog : Option CString) (st : MainState σ) (a0 name : CString) (rest : List CString)
    (hargv : st.argv = a0 :: "-help-option".toList :: name :: rest) :
    loopBody lib pf prog st = .exit
      { code := 0, informational := true,
        final := { st with
          tdoc := lib.tidyRelease st.tdoc
          trace := st.trace ++ [.call (.render (.optionDescribe name)), .call .release] } } := by
  have hd : st.argv.length > 1 ∧ (st.argv.getD 1 []).getD 0 NUL = '-' := by
    rw [hargv]
    exact ⟨by simp, by simp only [List.getD_cons_succ, List.getD_cons_zero]; decide⟩
  rw [loopBody_dash lib pf prog st hd]
  have hdis : dispatch lib pf prog st.tdoc st.errfil st.errout st.argv =
      .exit (lib.tidyRelease st.tdoc) [.render (.optionDescribe name), .release] := by
    unfold dispatch
    simp only [hargv, List.getD_cons_succ, List.getD_cons_zero, classify_help_option pf,
      List.length_cons]
    simp
  rw [hdis]
  simp only [List.map_cons, List.map_nil]

/-- C16: for a name that does not resolve to a known option, `-help-option
name` makes `main` call `optionDescribe(tdoc, name)`, release the processor and
return 0; `optionDescribe` prints an empty line, the banner of `--name`, the
localized unknown-option message wrapped by `print1Column` at width 68 (every
line at most 68 characters, the wrapping ends) and an empty line; the text does
not depend on the document, only on the name and the message. -/
theorem help_option_unknown_name {σ : Type} (lib : TidyLib σ) (pf : Platform)
    (prog : Option CString) (info : OptionInfo σ) (st : MainState σ) (a0 name : CString)
    (rest : List CString) (fuel : Nat)
    (hargv : st.argv = a0 :: "-help-option".toList :: name :: rest)
    (hunknown : ¬ info.tidyOptGetIdForName name < info.N_TIDY_OPTIONS)
    (hfuel : info.TC_STRING_UNKNOWN_OPTION_B.length < fuel) :
    loopBody lib pf prog st = .exit
      { code := 0, informational := true,
        final := { st with
          tdoc := lib.tidyRelease st.tdoc
          trace := st.trace ++ [.call (.render (.optionDescribe name)), .call .release] } } ∧
    ∃ lines, print1Column fuel 68 (some info.TC_STRING_UNKNOWN_OPTION_B) = some lines ∧
      (∀ line ∈ lines, line.length ≤ 68) ∧
      ∀ (heap : Nat → Nat → Char) (tdoc : σ), optionDescribe fuel heap info tdoc name =
        some (["\n".toList, "`--".toList ++ name ++ "`\n\n".toList]
          ++ lines.map (fun line => printfLeft 68 68 line ++ "\n".toList)
          ++ ["\n".toList]) := by
  refine ⟨loopBody_help_option lib pf prog st a0 name rest hargv, ?_⟩
  obtain ⟨lines, hl⟩ := print1ColumnLoop_some 68 (by decide) fuel
    (some info.TC_STRING_UNKNOWN_OPTION_B) (by simpa [textLen] using hfuel)
  refine ⟨lines, hl, print1ColumnLoop_length_le 68 fuel _ lines hl, ?_⟩
  intro heap tdoc
  have hl2 : print1Column fuel 68 (some info.TC_STRING_UNKNOWN_OPTION_B) = some lines := hl
  simp [optionDescribe, describedText, hunknown, hl2]

/-- Witness of C16: `-help-option nope` on the example processor. -/
theorem help_option_unknown_name_witness :
    loopBody (refLib refFiles refStdin) refPlatform (some "tidy".toList)
        (loopEntry ["tidy".toList, "-help-option".toList, "nope".toList] refDoc 0 []) = .exit
      { code := 0, informational := true,
        final := { loopEntry ["tidy".toList, "-help-option".toList, "nope".toList] refDoc 0 []
          with
          tdoc := (refLib refFiles refStdin).tidyRelease refDoc
          trace := [] ++ [.call (.render (.optionDescribe "nope".toList)), .call .release] } } ∧
    (∃ lines, print1Column 30 68 (some refInfo.TC_STRING_UNKNOWN_OPTION_B) = some lines ∧
      (∀ line ∈ lines, line.length ≤ 68) ∧
      ∀ (heap : Nat → Nat → Char) (tdoc : RefDoc),
        optionDescribe 30 heap refInfo tdoc "nope".toList =
        some (["\n".toList, "`--".toList ++ "nope".toList ++ "`\n\n".toList]
          ++ lines.map (fun line => printfLeft 68 68 line ++ "\n".toList)
          ++ ["\n".toList])) ∧
    optionDescribe 30 zeroHeap refInfo refDoc "nope".toList =
      some ["\n".toList, "`--nope`\n\n".toList,
        "Sorry, unknown option.".toList ++ List.replicate 46 ' ' ++ "\n".toList, "\n".toList] := by
  obtain ⟨h1, h2⟩ := help_option_unknown_name (refLib refFiles refStdin) refPlatform
    (some "tidy".toList) refInfo
    (loopEntry ["tidy".toList, "-help-option".toList, "nope".toList] refDoc 0 [])
    "tidy".toList "nope".toList [] 30 rfl (by decide) (by decide)
  exact ⟨h1, h2, by decide⟩

/-! ## The three cuts of the wrap step -/

theorem scanNewline_before (s : CString) (offset : Nat) :
    ∀ gap j i, j ≤ i → i < scanNewline s offset gap j → s.getD i NUL ≠ '\n' := by
  intro gap
  induction gap with
  | zero => intro j i h1 h2; simp [scanNewline] at h2; omega
  | succ g ih =>
    intro j i h1 h2
    unfold scanNewline at h2
    split at h2
    · next hc =>
      by_cases hij : i = j
      · subst hij; exact hc.2
      · exact ih (j + 1) i (by omega) h2
    · omega

theorem scanNewline_none (s : CString) (offset : Nat)
    (h : ∀ i < offset, s.getD i NUL ≠ '\n') : scanNewline s offset offset 0 = offset := by
  have hle := scanNewline_le s offset offset 0 (Nat.zero_le _)
  by_contra hne
  have hlt : scanNewline s offset offset 0 < offset := lt_of_le_of_ne hle hne
  exact h _ hlt (scanNewline_found s offset offset 0 (by omega) hlt)

theorem scanNewline_first (s : CString) (offset : Nat)
    (h : ∃ i, i < offset ∧ s.getD i NUL = '\n') :
    scanNewline s offset offset 0 < offset ∧
      s.getD (scanNewline s offset offset 0) NUL = '\n' ∧
      ∀ i < scanNewline s offset offset 0, s.getD i NUL ≠ '\n' := by
  obtain ⟨i, hi, hnl⟩ := h
  have hle := scanNewline_le s offset offset 0 (Nat.zero_le _)
  have hlt : scanNewline s offset offset 0 < offset := by
    by_contra hge
    have heq : scanNewline s offset offset 0 = offset := by omega
    exact scanNewline_before s offset offset 0 i (Nat.zero_le _) (by omega) hnl
  exact ⟨hlt, scanNewline_found s offset offset 0 (by omega) hlt,
    fun k hk => scanNewline_before s offset offset 0 k (Nat.zero_le _) hk⟩

theorem scanSpace_after (s : CString) :
    ∀ j i, scanSpace s j < i → i ≤ j → s.getD i NUL ≠ ' ' := by
  intro j
  induction j with
  | zero => intro i h1 h2; omega
  | succ j ih =>
    intro i h1 h2
    unfold scanSpace at h1
    split at h1
    · next hc =>
      by_cases hij : i = j + 1
      · subst hij; exact hc
      · exact ih i h1 (by omega)
    · omega

theorem scanSpace_zero (s : CString) (offset : Nat)
    (h : ∀ i, 1 ≤ i → i ≤ offset → s.getD i NUL ≠ ' ') : scanSpace s offset = 0 := by
  by_contra hne
  have hle := scanSpace_le s offset
  exact h _ (by omega) hle (scanSpace_found s offset hne)

theorem scanSpace_last (s : CString) (offset : Nat)
    (h : ∃ k, 1 ≤ k ∧ k ≤ offset ∧ s.getD k NUL = ' ') :
    1 ≤ scanSpace s offset ∧ scanSpace s offset ≤ offset ∧
      s.getD (scanSpace s offset) NUL = ' ' ∧
      ∀ i, scanSpace s offset < i → i ≤ offset → s.getD i NUL ≠ ' ' := by
  obtain ⟨k, h1, h2, hsp⟩ := h
  have hpos : 1 ≤ scanSpace s offset := by
    by_contra hlt
    exact scanSpace_after s offset k (by omega) h2 hsp
  exact ⟨hpos, scanSpace_le s offset, scanSpace_found s offset (by omega),
    scanSpace_after s offset⟩

theorem not_mem_take_of_getD (x : Char) : ∀ (s : CString) (l : Nat),
    (∀ i < l, s.getD i NUL ≠ x) → l ≤ s.length → x ∉ s.take l := by
  intro s
  induction s with
  | nil => intro l _ _; simp
  | cons c cs ih =>
    intro l h hl
    cases l with
    | zero => simp
    | succ l =>
      simp only [List.take_succ_cons, List.mem_cons, not_or]
      refine ⟨?_, ih l (fun i hi => ?_) (by simpa using hl)⟩
      · have := h 0 (by omega)
        simpa using fun hx => this hx.symm
      · have := h (i + 1) (by omega)
        simpa using this

theorem cutToWhiteSpace_long (s : CString) (offset : Nat) (h : offset < s.length) :
    cutToWhiteSpace (some s) offset =
      (s.take (cutPoint s offset).1, some (s.drop (cutPoint s offset).2)) := by
  have : ¬ s.length ≤ offset := by omega
  simp [cutToWhiteSpace, this]

theorem cutToWhiteSpace_segment_no_newline (t : Option CString) (offset : Nat)
    (seg r : CString) (h : cutToWhiteSpace t offset = (seg, some r)) : '\n' ∉ seg := by
  cases t with
  | none => simp [cutToWhiteSpace] at h
  | some s =>
    by_cases hlen : s.length ≤ offset
    · simp [cutToWhiteSpace, hlen] at h
    · rw [cutToWhiteSpace_long s offset (by omega)] at h
      simp only [Prod.mk.injEq] at h
      rw [← h.1]
      have hfst := cutPoint_fst_le s offset
      apply not_mem_take_of_getD '\n' s _ _ (by omega)
      intro i hi
      have hb := scanNewline_before s offset offset 0 i (Nat.zero_le _)
      have hle := scanNewline_le s offset offset 0 (Nat.zero_le _)
      have hsl := scanSpace_le s offset
      apply hb
      unfold cutPoint at hi
      simp only [] at hi
      split at hi
      · next heq =>
        rw [heq]
        split at hi <;> simp only [] at hi <;> omega
      · exact hi

/-- Counterexample to C17 as stated: the text `a`, newline, `b` has a newline
among its first 5 characters, yet the wrap step at width 5 yields the whole
text, newline included, as its segment and no remainder, and `print1Column`
prints that segment. -/
theorem newline_in_short_text_counterexample :
    "a\nb".toList.getD 1 NUL = '\n' ∧
    cutToWhiteSpace (some "a\nb".toList) 5 = ("a\nb".toList, none) ∧
    print1Column 4 5 (some "a\nb".toList) = some ["a\nb".toList] := by
  decide

/-- C17, amended: for a remaining text longer than the width `w` in which a
newline occurs among the first `w` characters, one wrap step yields the text
before the first newline as segment and the text after that newline as
remainder, the newline being discarded; consequently no segment emitted by a
step that returns a remainder contains a newline.  A text of at most `w`
characters (a length of exactly `w` included) is not cut: the step returns it
whole, newlines included, with no remainder, and `print1Column` emits it as
its one line. -/
theorem newline_cut (w : Nat) (s : CString) (hlen : w < s.length)
    (hnl : ∃ i, i < w ∧ s.getD i NUL = '\n') :
    (∃ j, j < w ∧ s.getD j NUL = '\n' ∧ (∀ i < j, s.getD i NUL ≠ '\n') ∧
      cutToWhiteSpace (some s) w = (s.take j, some (s.drop (j + 1))) ∧
      s = s.take j ++ '\n' :: s.drop (j + 1)) ∧
    (∀ (t : Option CString) (seg r : CString),
      cutToWhiteSpace t w = (seg, some r) → '\n' ∉ seg) ∧
    (∀ t : CString, t.length ≤ w → cutToWhiteSpace (some t) w = (t, none)) ∧
    (∀ (t : CString) (fuel : Nat), t.length ≤ w → NUL ∉ t →
      print1Column (fuel + 1) w (some t) = some [t]) := by
  obtain ⟨h1, h2, h3⟩ := scanNewline_first s w hnl
  refine ⟨⟨scanNewline s w w 0, h1, h2, h3, ?_, ?_⟩,
    fun t seg r h => cutToWhiteSpace_segment_no_newline t w seg r h, ?_, ?_⟩
  · rw [cutToWhiteSpace_long s w hlen]
    have hne : scanNewline s w w 0 ≠ w := by omega
    simp [cutPoint, hne]
  · have := split_at_index s (scanNewline s w w 0) (by omega)
    rw [h2] at this
    exact this
  · intro t ht
    simp [cutToWhiteSpace, ht]
  · intro t fuel ht hnul
    simp [print1Column, print1ColumnLoop, cutToWhiteSpace, ht, printfArg_eq t hnul]

/-- Witness of the amended C17: a newline inside the first 5 characters of a
longer text is cut at; a text of exactly 5 characters with a newline among
them is returned and printed whole. -/
theorem newline_cut_witness :
    (∃ j, j < 5 ∧ "ab\ncd efgh".toList.getD j NUL = '\n' ∧
      (∀ i < j, "ab\ncd efgh".toList.getD i NUL ≠ '\n') ∧
      cutToWhiteSpace (some "ab\ncd efgh".toList) 5 =
        ("ab\ncd efgh".toList.take j, some ("ab\ncd efgh".toList.drop (j + 1))) ∧
      "ab\ncd efgh".toList =
        "ab\ncd efgh".toList.take j ++ '\n' :: "ab\ncd efgh".toList.drop (j + 1)) ∧
    (∀ (t : Option CString) (seg r : CString),
      cutToWhiteSpace t 5 = (seg, some r) → '\n' ∉ seg) ∧
    cutToWhiteSpace (some "ab\ncd efgh".toList) 5 = ("ab".toList, some "cd efgh".toList) ∧
    "ab\ncd".toList.length = 5 ∧ "ab\ncd".toList.getD 2 NUL = '\n' ∧
    cutToWhiteSpace (some "ab\ncd".toList) 5 = ("ab\ncd".toList, none) ∧
    print1Column 1 5 (some "ab\ncd".toList) = some ["ab\ncd".toList] := by
  obtain ⟨h1, h2, h3, h4⟩ :=
    newline_cut 5 "ab\ncd efgh".toList (by decide) ⟨2, by decide, by decide⟩
  exact ⟨h1, h2, by decide, by decide, by decide, h3 "ab\ncd".toList (by decide),
    h4 "ab\ncd".toList 0 (by decide) (by decide)⟩

/-- Counterexample to C18 as stated: the text ` abcdef` is longer than 3, has no
newline and has a space at index 0, which is at or before position 3; the wrap
step at width 3 does not cut at that space (empty segment, remainder `abcdef`)
but takes the hard cut after 3 characters. -/
theorem space_at_index_zero_counterexample :
    " abcdef".toList.getD 0 NUL = ' ' ∧
    (∀ i < 3, " abcdef".toList.getD i NUL ≠ '\n') ∧
    cutToWhiteSpace (some " abcdef".toList) 3 = (" ab".toList, some "cdef".toList) ∧
    cutToWhiteSpace (some " abcdef".toList) 3 ≠
      (" abcdef".toList.take 0, some (" abcdef".toList.drop 1)) ∧
    hardCut (some " abcdef".toList) 3 = true := by
  decide

/-- C18, amended: for a remaining text longer than the width `w` that has no
newline among its first `w` characters and has a space at some index `j` with
`1 ≤ j ≤ w`, one wrap step yields the text before the last such space as
segment and the text after it as remainder, that space being discarded. -/
theorem space_cut (w : Nat) (s : CString) (hlen : w < s.length)
    (hnl : ∀ i < w, s.getD i NUL ≠ '\n')
    (hsp : ∃ k, 1 ≤ k ∧ k ≤ w ∧ s.getD k NUL = ' ') :
    ∃ j, 1 ≤ j ∧ j ≤ w ∧ s.getD j NUL = ' ' ∧
      (∀ i, j < i → i ≤ w → s.getD i NUL ≠ ' ') ∧
      cutToWhiteSpace (some s) w = (s.take j, some (s.drop (j + 1))) ∧
      s = s.take j ++ ' ' :: s.drop (j + 1) := by
  obtain ⟨h1, h2, h3, h4⟩ := scanSpace_last s w hsp
  refine ⟨scanSpace s w, h1, h2, h3, h4, ?_, ?_⟩
  · rw [cutToWhiteSpace_long s w hlen]
    have hne : scanSpace s w ≠ 0 := by omega
    simp [cutPoint, scanNewline_none s w hnl, hne]
  · have := split_at_index s (scanSpace s w) (by omega)
    rw [h3] at this
    exact this

/-- Witness of the amended C18: the last space at or before position 5. -/
theorem space_cut_witness :
    ∃ j, 1 ≤ j ∧ j ≤ 5 ∧ "ab cd efgh".toList.getD j NUL = ' ' ∧
      (∀ i, j < i → i ≤ 5 → "ab cd efgh".toList.getD i NUL ≠ ' ') ∧
      cutToWhiteSpace (some "ab cd efgh".toList) 5 =
        ("ab cd efgh".toList.take j, some ("ab cd efgh".toList.drop (j + 1))) ∧
      "ab cd efgh".toList =
        "ab cd efgh".toList.take j ++ ' ' :: "ab cd efgh".toList.drop (j + 1) :=
  space_cut 5 "ab cd efgh".toList (by decide) (by decide) ⟨2, by decide, by decide, by decide⟩

/-- C19: for a remaining text longer than the width `w` that has no newline
among its first `w` characters and no space among its first `w + 1` characters,
one wrap step yields exactly the first `w` characters as segment and all the
following characters as remainder: nothing is discarded. -/
theorem hard_cut (w : Nat) (s : CString) (hlen : w < s.length)
    (hnl : ∀ i < w, s.getD i NUL ≠ '\n') (hsp : ∀ i ≤ w, s.getD i NUL ≠ ' ') :
    cutToWhiteSpace (some s) w = (s.take w, some (s.drop w)) ∧
    (s.take w).length = w ∧ s.take w ++ s.drop w = s ∧ hardCut (some s) w = true := by
  have hz : scanSpace s w = 0 := scanSpace_zero s w (fun i _ hi => hsp i hi)
  refine ⟨?_, ?_, List.take_append_drop w s, ?_⟩
  · rw [cutToWhiteSpace_long s w hlen]
    simp [cutPoint, scanNewline_none s w hnl, hz]
  · simp only [List.length_take]; omega
  · simp [hardCut, hlen, scanNewline_none s w hnl, hz]

/-- Witness of C19: a word of 8 letters at width 3. -/
theorem hard_cut_witness :
    cutToWhiteSpace (some "abcdefgh".toList) 3 =
      ("abcdefgh".toList.take 3, some ("abcdefgh".toList.drop 3)) ∧
    ("abcdefgh".toList.take 3).length = 3 ∧
    "abcdefgh".toList.take 3 ++ "abcdefgh".toList.drop 3 = "abcdefgh".toList ∧
    hardCut (some "abcdefgh".toList) 3 = true :=
  hard_cut 3 "abcdefgh".toList (by decide) (by decide) (by decide)

/-- C20: for every width and every text that is absent or shorter than the
width (a C string, so without NUL), `print1Column` emits exactly one line and
stops: the text verbatim, spaces and newlines included, or the empty string
when the text is absent. -/
theorem short_text_single_line (l1 : Nat) (c1 : Option CString) (fuel : Nat)
    (hfuel : 0 < fuel) (hshort : ∀ s, c1 = some s → s.length < l1 ∧ NUL ∉ s) :
    print1Column fuel l1 c1 = some [c1.getD []] ∧
    (cutToWhiteSpace c1 l1).2 = none ∧
    print1Column fuel l1 none = some [[]] := by
  cases fuel with
  | zero => omega
  | succ f =>
    have hnone : print1Column (f + 1) l1 none = some [[]] := by
      simp [print1Column, print1ColumnLoop, cutToWhiteSpace, printfArg]
    cases c1 with
    | none => exact ⟨hnone, by simp [cutToWhiteSpace], hnone⟩
    | some s =>
      obtain ⟨h1, h2⟩ := hshort s rfl
      have hle : s.length ≤ l1 := by omega
      refine ⟨?_, by simp [cutToWhiteSpace, hle], hnone⟩
      simp [print1Column, print1ColumnLoop, cutToWhiteSpace, hle, printfArg_eq s h2]

/-- Witness of C20: a text with a space and a newline, shorter than the width. -/
theorem short_text_single_line_witness :
    print1Column 1 10 (some "a b\nc".toList) = some [(some "a b\nc".toList).getD []] ∧
    (cutToWhiteSpace (some "a b\nc".toList) 10).2 = none ∧
    print1Column 1 10 none = some [[]] :=
  short_text_single_line 10 (some "a b\nc".toList) 1 (by decide) (by decide)

/-! ## Termination of the print loops -/

theorem print1ColumnLoop_line_count (l1 : Nat) (h : 0 < l1) : ∀ fuel (pc1 : Option CString) L,
    print1ColumnLoop l1 fuel pc1 = some L → L.length ≤ textLen pc1 + 1 := by
  intro fuel
  induction fuel with
  | zero => intro pc1 L hL; simp [print1ColumnLoop] at hL
  | succ f ih =>
    intro pc1 L hL
    unfold print1ColumnLoop at hL
    simp only [] at hL
    cases hr : (cutToWhiteSpace pc1 l1).2 with
    | none =>
      simp only [hr, Option.isSome_none, Bool.false_eq_true, if_false, Option.some.injEq] at hL
      subst hL
      simp
    | some r =>
      have hlt := cutToWhiteSpace_rest_lt pc1 l1 h r hr
      simp only [hr, Option.isSome_some, if_true] at hL
      cases hrec : print1ColumnLoop l1 f (some r) with
      | none => simp [hrec] at hL
      | some L2 =>
        simp only [hrec, Option.map_some', Option.some.injEq] at hL
        subst hL
        have hb : L2.length ≤ r.length + 1 := ih (some r) L2 hrec
        simp only [List.length_cons]
        omega

/-- C21: for widths above zero, a wrap step that returns a remainder returns
one strictly shorter than the text it was given, so the loops of
`print1Column`, `print2Columns` and `print3Columns` end: with as many rounds as
the longest text has characters, plus one, they return their lines, and each
column takes at most the length of its text plus one rounds. -/
theorem print_loops_terminate (l1 l2 l3 : Nat) (h1 : 0 < l1) (h2 : 0 < l2) (h3 : 0 < l3)
    (c1 c2 c3 : Option CString) :
    (∀ (s : Option CString) (r : CString),
      (cutToWhiteSpace s l1).2 = some r → r.length < textLen s) ∧
    (∃ L1, print1Column (textLen c1 + 1) l1 c1 = some L1 ∧ L1.length ≤ textLen c1 + 1) ∧
    (∃ L12, print2Columns (max (textLen c1) (textLen c2) + 1) l1 l2 c1 c2 = some L12 ∧
      L12.length ≤ max (textLen c1) (textLen c2) + 1) ∧
    (∃ L123, print3Columns (max (textLen c1) (max (textLen c2) (textLen c3)) + 1)
        l1 l2 l3 c1 c2 c3 = some L123 ∧
      L123.length ≤ max (textLen c1) (max (textLen c2) (textLen c3)) + 1) := by
  refine ⟨fun s r hr => cutToWhiteSpace_rest_lt s l1 h1 r hr, ?_, ?_, ?_⟩
  · obtain ⟨L1, hL1⟩ := print1ColumnLoop_some l1 h1 (textLen c1 + 1) c1 (by omega)
    exact ⟨L1, hL1, print1ColumnLoop_line_count l1 h1 _ c1 L1 hL1⟩
  · obtain ⟨L1, hL1⟩ := print1ColumnLoop_some l1 h1 (max (textLen c1) (textLen c2) + 1) c1
      (by omega)
    obtain ⟨L2, hL2⟩ := print1ColumnLoop_some l2 h2 (max (textLen c1) (textLen c2) + 1) c2
      (by omega)
    have b1 := print1ColumnLoop_line_count l1 h1 _ c1 L1 hL1
    have b2 := print1ColumnLoop_line_count l2 h2 _ c2 L2 hL2
    refine ⟨_, print2Columns_eq_zipPad l1 l2 _ c1 c2 L1 L2 hL1 hL2, ?_⟩
    rw [zipPad_length]
    omega
  · obtain ⟨L1, hL1⟩ := print1ColumnLoop_some l1 h1
      (max (textLen c1) (max (textLen c2) (textLen c3)) + 1) c1 (by omega)
    obtain ⟨L2, hL2⟩ := print1ColumnLoop_some l2 h2
      (max (textLen c1) (max (textLen c2) (textLen c3)) + 1) c2 (by omega)
    obtain ⟨L3, hL3⟩ := print1ColumnLoop_some l3 h3
      (max (textLen c1) (max (textLen c2) (textLen c3)) + 1) c3 (by omega)
    have b1 := print1ColumnLoop_line_count l1 h1 _ c1 L1 hL1
    have b2 := print1ColumnLoop_line_count l2 h2 _ c2 L2 hL2
    have b3 := print1ColumnLoop_line_count l3 h3 _ c3 L3 hL3
    refine ⟨_, print3Columns_eq_zipPad l1 l2 l3 _ c1 c2 c3 L1 L2 L3 hL1 hL2 hL3, ?_⟩
    rw [zipPad_length, zipPad_length]
    omega

/-- Witness of C21: three texts of different lengths at widths 3, 4 and 5. -/
theorem print_loops_terminate_witness :
    (∀ (s : Option CString) (r : CString),
      (cutToWhiteSpace s 3).2 = some r → r.length < textLen s) ∧
    (∃ L1, print1Column (textLen (some "abcdefgh".toList) + 1) 3 (some "abcdefgh".toList)
        = some L1 ∧ L1.length ≤ textLen (some "abcdefgh".toList) + 1) ∧
    (∃ L12, print2Columns (max (textLen (some "abcdefgh".toList)) (textLen none) + 1) 3 4
        (some "abcdefgh".toList) none = some L12 ∧
      L12.length ≤ max (textLen (some "abcdefgh".toList)) (textLen none) + 1) ∧
    (∃ L123, print3Columns
        (max (textLen (some "abcdefgh".toList))
          (max (textLen none) (textLen (some "ab cd\nef".toList))) + 1)
        3 4 5 (some "abcdefgh".toList) none (some "ab cd\nef".toList) = some L123 ∧
      L123.length ≤ max (textLen (some "abcdefgh".toList))
        (max (textLen none) (textLen (some "ab cd\nef".toList))) + 1) :=
  print_loops_terminate 3 4 5 (by decide) (by decide) (by decide)
    (some "abcdefgh".toList) none (some "ab cd\nef".toList)

/-! ## Re-opening the error file -/

theorem updateErrorFile_same {σ : Type} (lib : TidyLib σ) (pf : Platform) (tdoc : σ)
    (e post : CString) (errout : ErrOut)
    (hpost : lib.tidyOptGetValue tdoc .TidyErrFile = some post)
    (hsame : samefile pf e post = true) :
    updateErrorFile lib pf tdoc (some e) errout = (tdoc, some e, errout, []) := by
  simp [updateErrorFile, hpost, hsame]

theorem updateErrorFile_changed {σ : Type} (lib : TidyLib σ) (pf : Platform) (tdoc : σ)
    (e post : CString) (errout : ErrOut)
    (hpost : lib.tidyOptGetValue tdoc .TidyErrFile = some post)
    (hsame : samefile pf e post = false) :
    updateErrorFile lib pf tdoc (some e) errout =
      (lib.tidySetErrorFile tdoc post, some post, .file post, [.setErrorFile post]) := by
  simp [updateErrorFile, hpost, hsame]

/-- C22, the code at the failing input: on `tidy -f err.txt -f err.txt` the
second `-f` names the path that is already the active error file (`samefile`
holds), yet `tidySetErrorFile` is called for it again, so the same path is
opened twice in succession.  The branches for `-config` and for `--name value`
do make the comparison: with an active error file that is the same file as the
configured one they call nothing, and they re-open only when it differs. -/
theorem error_file_option_reopens_same_path :
    samefile refPlatform "err.txt".toList "err.txt".toList = true ∧
    (refMain ["tidy", "-f", "err.txt", "-f", "err.txt"]).map
        (fun o => errorFileOpens o.final.trace)
      = some ["err.txt".toList, "err.txt".toList] ∧
    (refMain ["tidy", "-f", "err.txt", "-f", "err.txt"]).map (fun o => o.final.trace.take 2)
      = some [.call (.setErrorFile "err.txt".toList), .call (.setErrorFile "err.txt".toList)] ∧
    (∀ (σ : Type) (lib : TidyLib σ) (pf : Platform) (tdoc : σ) (e post : CString)
        (errout : ErrOut),
      lib.tidyOptGetValue tdoc .TidyErrFile = some post → samefile pf e post = true →
        updateErrorFile lib pf tdoc (some e) errout = (tdoc, some e, errout, [])) := by
  refine ⟨by decide, by decide, by decide, ?_⟩
  intro σ lib pf tdoc e post errout h1 h2
  exact updateErrorFile_same lib pf tdoc e post errout h1 h2

/-! ## The forced report of the document type -/

/-- Counterexample to C24 as stated: on `tidy -q a.html` the first source is
parsed and its diagnostics run with show-info off, but quiet mode is active and
the document type is not reported at all. -/
theorem quiet_suppresses_doctype_counterexample :
    (refLib refFiles refStdin).tidyOptGetBool refDoc .TidyShowInfo = false ∧
    (refMain ["tidy", "-q", "a.html"]).map (fun o => o.final.trace)
      = some [.call (.optSetBool .TidyQuiet true), .parseFile "a.html".toList, .cleanAndRepair,
          .runDiagnostics, .saveStdout, .accumulate 0 0 0, .call .release] ∧
    (refMain ["tidy", "-q", "a.html"]).map (fun o => decide (Event.reportDoctype ∈ o.final.trace))
      = some false := by
  decide

/-- C24, amended: for a source whose diagnostics ran and whose document type
has not been reported (show-info off), the Diagnose step forces exactly one
report of the detected document type when quiet mode is not active, turning
show-info on for the report and off again; when quiet mode is active it
reports nothing.  In both cases the quiet and show-info flags have afterwards
the values the step found (option setters store their argument and touch no
other option, and the report changes no option). -/
theorem doctype_report_unless_quiet {σ : Type} (lib : TidyLib σ) (r : Run σ)
    (hstatus : r.status ≥ 0)
    (hstore : ∀ d id v, lib.tidyOptGetBool (lib.tidyOptSetBool d id v) id = v)
    (hframe : ∀ d id id2 v, id2 ≠ id →
      lib.tidyOptGetBool (lib.tidyOptSetBool d id v) id2 = lib.tidyOptGetBool d id2)
    (hreport : ∀ d id, lib.tidyOptGetBool (lib.tidyReportDoctype d) id = lib.tidyOptGetBool d id)
    (hshow : lib.tidyOptGetBool (lib.tidyRunDiagnostics r.tdoc).2 .TidyShowInfo = false) :
    (lib.tidyOptGetBool (lib.tidyRunDiagnostics r.tdoc).2 .TidyQuiet = false →
      (diagnoseStep lib r).events = r.events ++
        [.runDiagnostics, .call (.optSetBool .TidyShowInfo true), .reportDoctype,
          .call (.optSetBool .TidyShowInfo false)] ∧
      lib.tidyOptGetBool (diagnoseStep lib r).tdoc .TidyQuiet = false ∧
      lib.tidyOptGetBool (diagnoseStep lib r).tdoc .TidyShowInfo = false) ∧
    (lib.tidyOptGetBool (lib.tidyRunDiagnostics r.tdoc).2 .TidyQuiet = true →
      (diagnoseStep lib r).events = r.events ++ [.runDiagnostics] ∧
      (diagnoseStep lib r).tdoc = (lib.tidyRunDiagnostics r.tdoc).2 ∧
      lib.tidyOptGetBool (diagnoseStep lib r).tdoc .TidyQuiet = true ∧
      lib.tidyOptGetBool (diagnoseStep lib r).tdoc .TidyShowInfo = false) := by
  constructor
  · intro hq
    have hne : TidyOptionId.TidyQuiet ≠ TidyOptionId.TidyShowInfo := by decide
    have hstep : diagnoseStep lib r =
        { tdoc := lib.tidyOptSetBool (lib.tidyReportDoctype
            (lib.tidyOptSetBool (lib.tidyRunDiagnostics r.tdoc).2 .TidyShowInfo true))
            .TidyShowInfo false
          status := (lib.tidyRunDiagnostics r.tdoc).1
          events := r.events ++
            [.runDiagnostics, .call (.optSetBool .TidyShowInfo true), .reportDoctype,
              .call (.optSetBool .TidyShowInfo false)] } := by
      simp [diagnoseStep, hstatus, hq, hshow]
    rw [hstep]
    refine ⟨rfl, ?_, hstore _ _ _⟩
    simp only []
    rw [hframe _ _ _ _ hne, hreport, hframe _ _ _ _ hne, hq]
  · intro hq
    have hstep : diagnoseStep lib r =
        { tdoc := (lib.tidyRunDiagnostics r.tdoc).2
          status := (lib.tidyRunDiagnostics r.tdoc).1
          events := r.events ++ [.runDiagnostics] } := by
      simp [diagnoseStep, hstatus, hq]
    rw [hstep]
    exact ⟨rfl, rfl, hq, hshow⟩

/-- Witness of the amended C24: the example processor with quiet mode off. -/
theorem doctype_report_unless_quiet_witness :
    (diagnoseStep (refLib refFiles refStdin) { tdoc := refDoc, status := 0, events := [] }).events
      = [] ++ [.runDiagnostics, .call (.optSetBool .TidyShowInfo true), .reportDoctype,
          .call (.optSetBool .TidyShowInfo false)] ∧
    (refLib refFiles refStdin).tidyOptGetBool
      (diagnoseStep (refLib refFiles refStdin)
        { tdoc := refDoc, status := 0, events := [] }).tdoc .TidyQuiet = false ∧
    (refLib refFiles refStdin).tidyOptGetBool
      (diagnoseStep (refLib refFiles refStdin)
        { tdoc := refDoc, status := 0, events := [] }).tdoc .TidyShowInfo = false :=
  (doctype_report_unless_quiet (refLib refFiles refStdin)
    { tdoc := refDoc, status := 0, events := [] } (by decide)
    (by intro d id v; simp [refLib])
    (by intro d id id2 v h; simp [refLib, h])
    (by intro d id; rfl) (by decide)).1 (by decide)

/-! ## Stripping the inline markup -/

/-- The missing terminator after `strncpy`, on an example: on a block whose
bytes are all `X` the first `strlen(result)` after the `strncpy` finds no NUL
in the block, and the call has no result; on a zero-filled block the same
call returns the text without the tag. -/
theorem replace_string_stale_block :
    replace_string 3 (fun _ => 'X') "<strong>".toList []
        "Indents <strong>block-level tags.".toList = none ∧
    replace_string 3 (fun i => if i = 8 then 'X' else NUL) "<strong>".toList []
        "Indents <strong>block-level tags.".toList = none ∧
    replace_string 3 (fun _ => NUL) "<strong>".toList []
        "Indents <strong>block-level tags.".toList = some "Indents block-level tags.".toList ∧
    replace_string 3 (fun _ => 'X') "<strong>".toList []
        "Indents block-level tags.".toList = some "Indents block-level tags.".toList := by
  decide

end Tidy
